import Mathlib

/-!
Arista Engine: catalog parser, record store and request dispatch.

A shallow embedding of `internal/enum/api_parser.go`, `internal/store/store.go`,
`internal/client/eapi.go`, `internal/client/cloudvision.go`,
`internal/uiapi/explorer.go`, of the operations of `app.go` on endpoints, and
of the part of `internal/core/models.go` they use.

Modelling conventions.

* A Go string holding valid UTF-8 text is a list of code points (`Str`); `len`
  is its length in bytes, as in Go.
* The functions of Go's `strings`, `fmt` and `regexp` packages that the parser
  calls are defined here by what they compute on such strings.  The Unicode
  case and category tables of the Go library are not part of the repository:
  they are the parameter `RuneTables`, of which only the behaviour on ASCII is
  fixed.
* A Go `map[string]APIDefinition` is an association list with at most one
  entry per key; assignment `m[k] = v` is `mapSet`.  Go enumerates a map in
  no particular order, so statements about enumeration are statements about
  membership.
* `time.Now()` is an input of the function that reads the clock; a
  `time.Time` is its `UnixNano()`, a `time.Duration` its nanoseconds.
* A Go `error` is its message, `none` for nil.
* The bolt database, `encoding/json` and `net/http` are not part of the
  repository: the database is a set of ordered buckets of byte strings, the
  other two are parameters (`GoLib`, `Net`).
-/

namespace AristaEngine

/-! ## Strings -/

/-- A Go string of valid UTF-8 text, as its code points. -/
abbrev Str := List Char

/-- Go `len(s)`: the number of bytes of the UTF-8 encoding. -/
def len (s : Str) : Nat := (s.map fun c => c.utf8Size).sum

/-- Go `strings.HasPrefix(s, p)`. -/
def HasPrefix (s p : Str) : Bool := p.isPrefixOf s

/-- Go `strings.Contains(s, sub)`: `sub` occurs at some position of `s`. -/
def Contains : Str → Str → Bool
  | [], sub => HasPrefix [] sub
  | c :: s, sub => HasPrefix (c :: s) sub || Contains s sub

/-- Go `unicode.IsSpace`: the code points with the White_Space property. -/
def isSpace (c : Char) : Bool :=
  let n := c.toNat
  (9 ≤ n && n ≤ 13) || n = 32 || n = 0x85 || n = 0xA0 || n = 0x1680 ||
    (0x2000 ≤ n && n ≤ 0x200A) || n = 0x2028 || n = 0x2029 || n = 0x202F ||
    n = 0x205F || n = 0x3000

/-- Go `strings.TrimSpace`: leading and trailing white space removed. -/
def TrimSpace (s : Str) : Str := (s.dropWhile isSpace).rdropWhile isSpace

/-- Go `strings.Split(content, "\n")`: the pieces between line feeds; always
at least one piece. -/
def splitLines : Str → List Str
  | [] => [[]]
  | c :: s =>
    if c = '\n' then [] :: splitLines s
    else
      match splitLines s with
      | [] => [[c]]
      | l :: ls => (c :: l) :: ls

/-- Go `strings.ReplaceAll(s, old, new)` for one-character `old` and `new`. -/
def ReplaceAll (s : Str) (old new : Char) : Str :=
  s.map fun c => if c = old then new else c

/-- Go `strings.Join(parts, sep)`. -/
def Join : List Str → Str → Str
  | [], _ => []
  | [a], _ => a
  | a :: b :: rest, sep => a ++ sep ++ Join (b :: rest) sep

/-- ASCII upper-casing of one code point. -/
def asciiUpper (c : Char) : Char :=
  if 'a'.toNat ≤ c.toNat ∧ c.toNat ≤ 'z'.toNat then Char.ofNat (c.toNat - 32) else c

/-- ASCII lower-casing of one code point. -/
def asciiLower (c : Char) : Char :=
  if 'A'.toNat ≤ c.toNat ∧ c.toNat ≤ 'Z'.toNat then Char.ofNat (c.toNat + 32) else c

/-- The Unicode tables of the Go library (`unicode.ToUpper`, `ToLower`,
`ToTitle`, `IsLetter`, `IsDigit`).  On ASCII the case mappings are the ASCII
ones; elsewhere they are whatever the library's tables say. -/
structure RuneTables where
  toUpper : Char → Char
  toLower : Char → Char
  toTitle : Char → Char
  isLetter : Char → Bool
  isDigit : Char → Bool
  toUpper_ascii : ∀ c : Char, c.toNat < 128 → toUpper c = asciiUpper c
  toLower_ascii : ∀ c : Char, c.toNat < 128 → toLower c = asciiLower c

/-- The tables that change ASCII letters only. -/
def asciiTables : RuneTables where
  toUpper := asciiUpper
  toLower := asciiLower
  toTitle := asciiUpper
  isLetter := fun _ => false
  isDigit := fun _ => false
  toUpper_ascii := fun _ _ => rfl
  toLower_ascii := fun _ _ => rfl

/-- Go `strings.ToUpper`: every code point mapped by `unicode.ToUpper`. -/
def ToUpper (U : RuneTables) (s : Str) : Str := s.map U.toUpper

/-- Go `strings.ToLower`: every code point mapped by `unicode.ToLower`. -/
def ToLower (U : RuneTables) (s : Str) : Str := s.map U.toLower

/-- Go `strings.isSeparator`: what ends a word for `strings.Title`. -/
def isSeparator (U : RuneTables) (c : Char) : Bool :=
  let n := c.toNat
  if n ≤ 0x7F then
    !((48 ≤ n && n ≤ 57) || (97 ≤ n && n ≤ 122) || (65 ≤ n && n ≤ 90) || n = 95)
  else if U.isLetter c || U.isDigit c then false
  else isSpace c

/-- The mapping loop of `strings.Title`, `prev` being the previous code
point. -/
def titleFrom (U : RuneTables) : Char → Str → Str
  | _, [] => []
  | prev, c :: s =>
    (if isSeparator U prev then U.toTitle c else c) :: titleFrom U c s

/-- Go `strings.Title`: the first code point of every word title-cased. -/
def Title (U : RuneTables) (s : Str) : Str := titleFrom U ' ' s

/-! ## Data model (`internal/core/models.go`) -/

/-- One documented operation (`core.APIDefinition`). -/
structure APIDefinition where
  ID : Str
  Service : Str
  Method : Str
  Path : Str
  Description : Str
  Params : List Str
  Category : Str
  Tags : List Str
  deriving DecidableEq, Repr, Inhabited

/-- A Go `map[string]APIDefinition`. -/
abbrev DefMap := List (Str × APIDefinition)

/-- Go `m[k]`, with the found flag. -/
def mapGet (m : DefMap) (k : Str) : Option APIDefinition :=
  (m.find? fun e => e.1 = k).map Prod.snd

/-- Go `m[k] = v`: the entry of `k` replaced, or a new entry added. -/
def mapSet : DefMap → Str → APIDefinition → DefMap
  | [], k, v => [(k, v)]
  | e :: m, k, v => if e.1 = k then (k, v) :: m else e :: mapSet m k v

/-- The complete catalog (`core.APICatalog`); `LastUpdated` is a time in
nanoseconds. -/
structure APICatalog where
  EAPI : DefMap
  CloudVision : DefMap
  EOSREST : DefMap
  Telemetry : DefMap
  LastUpdated : Int
  deriving DecidableEq, Repr

/-! ## The parser (`internal/enum/api_parser.go`) -/

/-- The parser: it owns one catalog (`APIParser`). -/
structure APIParser where
  catalog : APICatalog
  deriving DecidableEq, Repr

/-- `NewAPIParser`, `now` being the value of `time.Now()`. -/
def NewAPIParser (now : Int) : APIParser :=
  { catalog :=
      { EAPI := [], CloudVision := [], EOSREST := [], Telemetry := [], LastUpdated := now } }

/-- `isCategoryHeader`. -/
def isCategoryHeader (line : Str) : Bool :=
  if Contains line " /".toList || Contains line "get ".toList ||
      Contains line "post ".toList || Contains line "put ".toList ||
      Contains line "delete ".toList then
    false
  else if decide (len line > 50) || (Contains line " ".toList && decide (len line > 30)) then
    false
  else
    true

/-- The class `\s` of Go regular expressions: tab, line feed, form feed,
carriage return, space. -/
def reSpace (c : Char) : Bool :=
  c = '\t' || c = '\n' || c = Char.ofNat 12 || c = '\r' || c = ' '

/-- The alternatives of the group `(get|post|put|delete)`, in order. -/
def methodWords : List Str :=
  ["get".toList, "post".toList, "put".toList, "delete".toList]

/-- A match of `(get|post|put|delete)\s+(/[^\s]+)` that starts at the head
of `s`: the two groups.  No alternative is a prefix of another, `\s+` is
followed by `/`, and the last group ends the pattern, so the match takes the
one method word, the whole run of `\s` and the whole run of `[^\s]`. -/
def matchEndpointAt (s : Str) : Option (Str × Str) :=
  match methodWords.find? fun w => HasPrefix s w with
  | none => none
  | some w =>
    let rest := s.drop w.length
    let spaces := rest.takeWhile reSpace
    let rest := rest.dropWhile reSpace
    let body := (rest.drop 1).takeWhile fun c => !reSpace c
    if spaces ≠ [] ∧ rest.head? = some '/' ∧ body ≠ [] then some (w, '/' :: body) else none

/-- Go `re.FindStringSubmatch(line)` for the endpoint pattern: the groups of
the leftmost match. -/
def findEndpointMatch : Str → Option (Str × Str)
  | [] => none
  | c :: s =>
    match matchEndpointAt (c :: s) with
    | some m => some m
    | none => findEndpointMatch s

/-- A match of `\{([^}]+)\}` that starts at the head of `s`: the group.  The
group is followed by a closing brace, so it takes the whole run of `[^}]`. -/
def matchParamAt : Str → Option Str
  | [] => none
  | c :: r =>
    let name := r.takeWhile fun x => x ≠ '}'
    if c = '{' ∧ name ≠ [] ∧ (r.drop name.length).head? = some '}' then some name else none

/-- A path written as pieces of text, each followed by a placeholder
`{name}`, and a last piece of text. -/
def withPlaceholders (segs : List (Str × Str)) (tail : Str) : Str :=
  segs.foldr (fun seg acc => seg.1 ++ '{' :: seg.2 ++ '}' :: acc) tail

/-- Go `re.FindAllStringSubmatch(path, -1)` for the placeholder pattern: the
groups of the successive matches, none overlapping the one before.  `skip`
counts the code points still covered by the last match. -/
def findAllParams : Nat → Str → List Str
  | _, [] => []
  | skip + 1, _ :: s => findAllParams skip s
  | 0, c :: s =>
    match matchParamAt (c :: s) with
    | some name => name :: findAllParams (name.length + 1) s
    | none => findAllParams 0 s

/-- `extractParameters`. -/
def extractParameters (path : Str) : List Str := findAllParams 0 path

/-- `generateTags`. -/
def generateTags (U : RuneTables) (category path method : Str) : List Str :=
  let tags : List Str := []
  let tags := tags ++ [method]
  let tags := tags ++ [ToLower U category]
  let tags := if Contains path "stats".toList then tags ++ ["statistics".toList] else tags
  let tags := if Contains path "config".toList then tags ++ ["configuration".toList] else tags
  let tags := if Contains path "status".toList then tags ++ ["status".toList] else tags
  let tags := if Contains path "clear".toList then tags ++ ["maintenance".toList] else tags
  tags

/-- `generateDescription`. -/
def generateDescription (U : RuneTables) (category path method : Str) : Str :=
  let categoryReadable := ReplaceAll category '-' ' '
  let categoryReadable := ReplaceAll categoryReadable '_' ' '
  let pathReadable := ReplaceAll path '/' ' '
  let pathReadable := ReplaceAll pathReadable '-' ' '
  let pathReadable := ReplaceAll pathReadable '_' ' '
  let pathReadable := TrimSpace pathReadable
  Title U method ++ " ".toList ++ pathReadable ++ " for ".toList ++ categoryReadable

/-- `determineService`. -/
def determineService (path : Str) : Str :=
  if Contains path "/api/".toList || Contains path "/resources/".toList then
    "cloudvision".toList
  else if Contains path "/telemetry/".toList || Contains path "/streaming/".toList then
    "telemetry".toList
  else if Contains path "/command-api".toList then
    "eapi".toList
  else if HasPrefix path "/".toList && !Contains path "/api/".toList then
    "eos_rest".toList
  else
    "eos_rest".toList

/-- `parseEndpoint`; `none` is the nil result. -/
def parseEndpoint (U : RuneTables) (line category : Str) : Option APIDefinition :=
  match findEndpointMatch line with
  | none => none
  | some (m, path) =>
    let method := ToUpper U m
    let description := generateDescription U category path method
    let params := extractParameters path
    let tags := generateTags U category path method
    some
      { ID := category ++ "_".toList ++ method ++ "_".toList ++ ReplaceAll path '/' '_'
        Service := []
        Method := method
        Path := path
        Description := description
        Params := params
        Category := category
        Tags := tags }

/-- The composite key `fmt.Sprintf("%s_%s_%s", service, category, method)`. -/
def catalogKey (service category method : Str) : Str :=
  service ++ "_".toList ++ category ++ "_".toList ++ method

/-- The `switch service` of `parseContent`: the definition stored in the
mapping of its service. -/
def storeEndpoint (c : APICatalog) (service key : Str) (d : APIDefinition) : APICatalog :=
  if service = "eapi".toList then { c with EAPI := mapSet c.EAPI key d }
  else if service = "cloudvision".toList then { c with CloudVision := mapSet c.CloudVision key d }
  else if service = "eos_rest".toList then { c with EOSREST := mapSet c.EOSREST key d }
  else if service = "telemetry".toList then { c with Telemetry := mapSet c.Telemetry key d }
  else c

/-- The state of the loop of `parseContent`: the local `currentCategory` and
the parser. -/
structure ParseState where
  currentCategory : Str
  parser : APIParser
  deriving DecidableEq, Repr

/-- The lines the loop skips: empty, a heading, or the document title. -/
def isSkipped (line : Str) : Bool :=
  decide (line = []) || HasPrefix line "#".toList || HasPrefix line "Arista Networks".toList

/-- One iteration of the loop of `parseContent` on the raw line `raw`. -/
def parseLine (U : RuneTables) (st : ParseState) (raw : Str) : ParseState :=
  let line := TrimSpace raw
  if isSkipped line then st
  else if isCategoryHeader line then { st with currentCategory := line }
  else if Contains line " /".toList then
    match parseEndpoint U line st.currentCategory with
    | none => st
    | some endpoint =>
      let service := determineService endpoint.Path
      let endpoint := { endpoint with Service := service, Category := st.currentCategory }
      let key := catalogKey service st.currentCategory endpoint.Method
      { st with parser := { catalog := storeEndpoint st.parser.catalog service key endpoint } }
  else st

/-- The loop of `parseContent` over the lines. -/
def parseLines (U : RuneTables) (st : ParseState) (lines : List Str) : ParseState :=
  lines.foldl (parseLine U) st

/-- `parseContent`: the parser after the call, and the error returned
(`none` is nil).  The progress message it prints is not modelled. -/
def parseContent (U : RuneTables) (p : APIParser) (content : Str) :
    APIParser × Option Str :=
  ((parseLines U { currentCategory := [], parser := p } (splitLines content)).parser, none)

/-- `GetEndpointsByService`. -/
def GetEndpointsByService (p : APIParser) (service : Str) : DefMap :=
  if service = "eapi".toList then p.catalog.EAPI
  else if service = "cloudvision".toList then p.catalog.CloudVision
  else if service = "eos_rest".toList then p.catalog.EOSREST
  else if service = "telemetry".toList then p.catalog.Telemetry
  else []

/-- The text `matchesQuery` searches in, before lower-casing. -/
def searchText (endpoint : APIDefinition) : Str :=
  endpoint.Description ++ " ".toList ++ endpoint.Path ++ " ".toList ++ endpoint.Category ++
    " ".toList ++ endpoint.Method ++ " ".toList ++ Join endpoint.Tags " ".toList

/-- `matchesQuery`. -/
def matchesQuery (U : RuneTables) (endpoint : APIDefinition) (query : Str) : Bool :=
  Contains (ToLower U (searchText endpoint)) query

/-- The loop `for _, endpoint := range m { if matchesQuery ... append }`. -/
def searchIn (U : RuneTables) (m : DefMap) (query : Str) (results : List APIDefinition) :
    List APIDefinition :=
  m.foldl (fun acc e => if matchesQuery U e.2 query then acc ++ [e.2] else acc) results

/-- `SearchEndpoints`. -/
def SearchEndpoints (U : RuneTables) (p : APIParser) (query : Str) : List APIDefinition :=
  let results : List APIDefinition := []
  let query := ToLower U query
  let results := searchIn U p.catalog.EAPI query results
  let results := searchIn U p.catalog.CloudVision query results
  let results := searchIn U p.catalog.EOSREST query results
  let results := searchIn U p.catalog.Telemetry query results
  results

/-! ## Reading a document line by line -/

/-- A raw line that sets the current category: not skipped once trimmed, and
a category header. -/
def isHeaderLine (raw : Str) : Bool :=
  !isSkipped (TrimSpace raw) && isCategoryHeader (TrimSpace raw)

/-- The most recent category-header line among `lines`, trimmed; empty when
there is none. -/
def lastHeader (lines : List Str) : Str :=
  match lines.reverse.find? isHeaderLine with
  | some raw => TrimSpace raw
  | none => []

/-- The definition the loop of `parseContent` stores for the raw line `raw`
when the current category is `category`; `none` when the line is skipped, is
a category header, has no " /", or does not match the endpoint pattern. -/
def lineDefinition (U : RuneTables) (category raw : Str) : Option APIDefinition :=
  let line := TrimSpace raw
  if isSkipped line || isCategoryHeader line || !Contains line " /".toList then none
  else
    (parseEndpoint U line category).map fun e =>
      { e with Service := determineService e.Path, Category := category }

/-- The four mappings of a catalog with their service names. -/
def mappings (c : APICatalog) : List (Str × DefMap) :=
  [("eapi".toList, c.EAPI), ("cloudvision".toList, c.CloudVision),
    ("eos_rest".toList, c.EOSREST), ("telemetry".toList, c.Telemetry)]

/-- The methods a stored definition can have. -/
def upperMethods : List Str :=
  ["GET".toList, "POST".toList, "PUT".toList, "DELETE".toList]

/-- A parse state with the catalog's time stamp replaced. -/
def ParseState.withTime (t : Int) (st : ParseState) : ParseState :=
  { st with parser := { catalog := { st.parser.catalog with LastUpdated := t } } }

/-- What holds of the parse state once a fresh parser has read the lines
`done`: the current category is the last header read, no mapping holds a key
twice, and every entry of the mapping of a service is the definition of one
of the lines read, stored under its composite key. -/
def ParseInv (U : RuneTables) (done : List Str) (st : ParseState) : Prop :=
  st.currentCategory = lastHeader done ∧
    ∀ service : Str,
      ((GetEndpointsByService st.parser service).map Prod.fst).Nodup ∧
        ∀ key d, (key, d) ∈ GetEndpointsByService st.parser service →
          d.Service = service ∧ key = catalogKey service d.Category d.Method ∧
            ∃ pre line rest, done = pre ++ line :: rest ∧
              lineDefinition U (lastHeader pre) line = some d

/-! ## Values of dynamic type

`any` values are the ones a decoded JSON document has (nil, bool, float64,
string, `[]any`, `map[string]any`), and the pointer to a `JSONRPCError` that
`handleEAPIRequest` puts into a response.  A float64 is given by its bits;
nil and empty maps are not told apart. -/

mutual
/-- A Go value of type `any`. -/
inductive Any where
  | null
  | bool (b : Bool)
  | float (bits : Nat)
  | str (s : Str)
  | arr (xs : AnyList)
  | obj (kv : AnyFields)
  | rpcError (code : Int) (message : Str) (data : Any)
  deriving DecidableEq
/-- A Go `[]any`. -/
inductive AnyList where
  | nil
  | cons (x : Any) (xs : AnyList)
  deriving DecidableEq
/-- A Go `map[string]any`, one entry per key. -/
inductive AnyFields where
  | nil
  | cons (k : Str) (v : Any) (rest : AnyFields)
  deriving DecidableEq
end

instance : Inhabited Any := ⟨Any.null⟩

instance : Inhabited AnyList := ⟨AnyList.nil⟩

instance : Inhabited AnyFields := ⟨AnyFields.nil⟩

/-- Go `v, ok := m[k]`. -/
def AnyFields.get : AnyFields → Str → Option Any
  | .nil, _ => none
  | .cons k v rest, key => if k = key then some v else rest.get key

/-! ## The record store (`internal/store/store.go`)

The bolt database is a set of named buckets, each a list of key and value
byte strings kept in key order; `db.Update` commits when its function returns
nil and leaves the database as it was otherwise.  Writes to disk do not fail.
`encoding/json` is a parameter. -/

/-- A byte string (`[]byte`). -/
abbrev Bytes := List Nat

/-- The UTF-8 encoding of one code point. -/
def encodeRune (c : Char) : Bytes :=
  let n := c.toNat
  if n < 0x80 then [n]
  else if n < 0x800 then [0xC0 + n / 64, 0x80 + n % 64]
  else if n < 0x10000 then [0xE0 + n / 4096, 0x80 + n / 64 % 64, 0x80 + n % 64]
  else [0xF0 + n / 262144, 0x80 + n / 4096 % 64, 0x80 + n / 64 % 64, 0x80 + n % 64]

/-- Go `[]byte(s)`. -/
def toBytes (s : Str) : Bytes := (s.map encodeRune).flatten

/-- Go `bytes.Compare(a, b) < 0`: the order in which bolt keeps keys. -/
def bytesLt : Bytes → Bytes → Bool
  | [], [] => false
  | [], _ :: _ => true
  | _ :: _, [] => false
  | a :: as, b :: bs => decide (a < b) || (decide (a = b) && bytesLt as bs)

/-- Go `fmt.Sprintf("%d", n)`. -/
def formatInt (n : Int) : Str :=
  if n < 0 then '-' :: Nat.toDigits 10 n.natAbs else Nat.toDigits 10 n.natAbs

/-- One bucket of the database, its entries in key order. -/
abbrev Bucket := List (Bytes × Bytes)

/-- Bolt `bucket.Get(key)`; `none` is the nil result. -/
def bucketGet (b : Bucket) (key : Bytes) : Option Bytes :=
  (b.find? fun e => e.1 = key).map Prod.snd

/-- The entry of `key` replaced, or a new entry put at its place in key
order. -/
def bucketInsert : Bucket → Bytes → Bytes → Bucket
  | [], key, value => [(key, value)]
  | e :: b, key, value =>
    if e.1 = key then (key, value) :: b
    else if bytesLt key e.1 then (key, value) :: e :: b
    else e :: bucketInsert b key value

/-- Bolt `MaxKeySize`. -/
def MaxKeySize : Nat := 32768

/-- Bolt `MaxValueSize`. -/
def MaxValueSize : Nat := 2 ^ 31 - 2

/-- Bolt `bucket.Put(key, value)` in a writable transaction. -/
def bucketPut (b : Bucket) (key value : Bytes) : Except Str Bucket :=
  if key.length = 0 then .error "key required".toList
  else if key.length > MaxKeySize then .error "key too large".toList
  else if value.length > MaxValueSize then .error "value too large".toList
  else .ok (bucketInsert b key value)

/-- Bolt `bucket.Delete(key)` in a writable transaction: nothing is done when
the key is absent, and the error is nil. -/
def bucketDelete (b : Bucket) (key : Bytes) : Bucket :=
  b.filter fun e => e.1 ≠ key

/-- What `encoding/json` does with values of one type: `json.Marshal`, and
`json.Unmarshal` into a zero value (the value left in the target, and the
error).  A value that was marshalled is read back as it was. -/
structure JSONCodec (α : Type) where
  marshal : α → Except Str Bytes
  unmarshal : Bytes → α × Option Str
  roundtrip : ∀ (a : α) (data : Bytes), marshal a = .ok data → unmarshal data = (a, none)

/-- An endpoint (`core.Endpoint`); `Type_` is its field `Type`, and `Created`
is in nanoseconds since the epoch. -/
structure Endpoint where
  ID : Str
  Name : Str
  Type_ : Str
  URL : Str
  Username : Str
  Password : Str
  Token : Str
  Created : Int
  Tags : List Str
  TLSVerify : Bool
  Status : Str
  deriving DecidableEq, Inhabited

/-- The zero value `core.Endpoint{}`; its `Created` is the zero `time.Time`,
the first instant of the year 1, for which `UnixNano()` gives
-6795364578871345152. -/
def Endpoint.zero : Endpoint :=
  { ID := [], Name := [], Type_ := [], URL := [], Username := [], Password := [], Token := [],
    Created := -6795364578871345152, Tags := [], TLSVerify := false, Status := [] }

/-- A logged query (`core.APIQueryRecord`); `Timestamp` is its
`UnixNano()`. -/
structure APIQueryRecord where
  ID : Str
  EndpointID : Str
  Method : Str
  Path : Str
  Body : AnyFields
  Status : Int
  Response : AnyFields
  Timestamp : Int
  ElapsedMs : Int
  Error : Str
  deriving DecidableEq, Inhabited

/-- `client.RunCmdsParams`. -/
structure RunCmdsParams where
  Version : Int
  Cmds : List Str
  Format : Str
  AutoComplete : Bool
  ExpandAliases : Bool
  deriving DecidableEq, Inhabited

/-- `client.JSONRPCRequest`. -/
structure JSONRPCRequest where
  JSONRPC : Str
  Method : Str
  Params : RunCmdsParams
  ID : Str
  deriving DecidableEq, Inhabited

/-- `client.JSONRPCError`. -/
structure JSONRPCError where
  Code : Int
  Message : Str
  Data : Any
  deriving DecidableEq, Inhabited

/-- `client.JSONRPCResponse`; `Error` is `none` for the nil pointer. -/
structure JSONRPCResponse where
  JSONRPC : Str
  Result : AnyList
  Error : Option JSONRPCError
  ID : Str
  deriving DecidableEq, Inhabited

/-- What `encoding/json` does with query records.  A record that was
marshalled is read back without error and with its strings, its numbers and
its time as they were; its body and its response are read back as JSON gives
them, which need not be the values that were marshalled. -/
structure RecordCodec where
  marshal : APIQueryRecord → Except Str Bytes
  unmarshal : Bytes → APIQueryRecord × Option Str
  roundtrip : ∀ (r : APIQueryRecord) (data : Bytes), marshal r = .ok data →
    ∃ r2, unmarshal data = (r2, none) ∧ r2.ID = r.ID ∧ r2.EndpointID = r.EndpointID ∧
      r2.Method = r.Method ∧ r2.Path = r.Path ∧ r2.Status = r.Status ∧
      r2.Timestamp = r.Timestamp ∧ r2.ElapsedMs = r.ElapsedMs ∧ r2.Error = r.Error

/-- A codec that reads back every record as it was marshalled, as a codec of
query records. -/
def JSONCodec.toRecordCodec (c : JSONCodec APIQueryRecord) : RecordCodec where
  marshal := c.marshal
  unmarshal := c.unmarshal
  roundtrip := fun r data h =>
    ⟨r, c.roundtrip r data h, rfl, rfl, rfl, rfl, rfl, rfl, rfl, rfl⟩

/-- What the Go runtime and `encoding/json` compute for the program: the
codecs of the stored records, `json.Marshal` of a request (its error is
ignored by the callers), `json.Unmarshal` of a JSON-RPC response, the decoding
of a response body into an `any`, and the conversion `int(x)` of a float64. -/
structure GoLib where
  endpoint : JSONCodec Endpoint
  record : RecordCodec
  marshalRPC : JSONRPCRequest → Bytes
  marshalBody : AnyFields → Bytes
  unmarshalRPC : Bytes → Except Str JSONRPCResponse
  decodeAny : Bytes → Except Str Any
  floatToInt : Nat → Int

/-- The database: its four buckets, `none` for one that was not created. -/
structure Store where
  endpoints : Option Bucket
  query_log : Option Bucket
  api_catalog : Option Bucket
  device_inventory : Option Bucket
  deriving DecidableEq, Inhabited

/-- `Store.initBuckets`: every bucket that is missing is created empty. -/
def Store.initBuckets (s : Store) : Store × Option Str :=
  ({ endpoints := some (s.endpoints.getD [])
     query_log := some (s.query_log.getD [])
     api_catalog := some (s.api_catalog.getD [])
     device_inventory := some (s.device_inventory.getD []) }, none)

/-- `NewStore` on a database file that holds `disk`, the directory and the
file being usable. -/
def NewStore (disk : Store) : Store := (disk.initBuckets).1

/-- `Store.SaveEndpoint`: the store after the call and the error. -/
def Store.SaveEndpoint (L : GoLib) (s : Store) (endpoint : Endpoint) : Store × Option Str :=
  match s.endpoints with
  | none => (s, some "endpoints bucket not found".toList)
  | some bucket =>
    match L.endpoint.marshal endpoint with
    | .error err => (s, some ("failed to marshal endpoint: ".toList ++ err))
    | .ok data =>
      match bucketPut bucket (toBytes endpoint.ID) data with
      | .error err => (s, some err)
      | .ok bucket => ({ s with endpoints := some bucket }, none)

/-- `Store.GetEndpoint`. -/
def Store.GetEndpoint (L : GoLib) (s : Store) (id : Str) : Endpoint × Option Str :=
  match s.endpoints with
  | none => (Endpoint.zero, some "endpoints bucket not found".toList)
  | some bucket =>
    match bucketGet bucket (toBytes id) with
    | none => (Endpoint.zero, some "endpoint not found".toList)
    | some data => L.endpoint.unmarshal data

/-- `Store.DeleteEndpoint`. -/
def Store.DeleteEndpoint (s : Store) (id : Str) : Store × Option Str :=
  match s.endpoints with
  | none => (s, some "endpoints bucket not found".toList)
  | some bucket => ({ s with endpoints := some (bucketDelete bucket (toBytes id)) }, none)

/-- The key of a query record: `fmt.Sprintf("%d_%s", UnixNano, ID)`. -/
def queryLogKey (record : APIQueryRecord) : Str :=
  formatInt record.Timestamp ++ "_".toList ++ record.ID

/-- `Store.SaveQueryRecord`. -/
def Store.SaveQueryRecord (L : GoLib) (s : Store) (record : APIQueryRecord) :
    Store × Option Str :=
  match s.query_log with
  | none => (s, some "query_log bucket not found".toList)
  | some bucket =>
    match L.record.marshal record with
    | .error err => (s, some ("failed to marshal query record: ".toList ++ err))
    | .ok data =>
      match bucketPut bucket (toBytes (queryLogKey record)) data with
      | .error err => (s, some err)
      | .ok bucket => ({ s with query_log := some bucket }, none)

/-- The loop `bucket.ForEach` of `GetQueryLog`: the entries are read in key
order, and the first one that cannot be unmarshalled ends the loop. -/
def forEachRecord (L : GoLib) : Bucket → List APIQueryRecord → List APIQueryRecord × Option Str
  | [], records => (records, none)
  | e :: b, records =>
    match L.record.unmarshal e.2 with
    | (_, some err) => (records, some err)
    | (record, none) => forEachRecord L b (records ++ [record])

/-- `Store.GetQueryLog`. -/
def Store.GetQueryLog (L : GoLib) (s : Store) : List APIQueryRecord × Option Str :=
  match s.query_log with
  | none => ([], some "query_log bucket not found".toList)
  | some bucket => forEachRecord L bucket []

/-- `App.DeleteEndpoint`: the store's error is logged and returned. -/
def App.DeleteEndpoint (s : Store) (endpointID : Str) : Store × Option Str :=
  match s.DeleteEndpoint endpointID with
  | (s, some err) => (s, some err)
  | (s, none) => (s, none)

/-- A codec that marshals the one value `a` to `data` and nothing else. -/
def JSONCodec.single {α : Type} [DecidableEq α] (zero a : α) (data : Bytes) : JSONCodec α where
  marshal := fun x => if x = a then .ok data else .error "unsupported value".toList
  unmarshal := fun b => if b = data then (a, none) else (zero, some "unexpected input".toList)
  roundtrip := by
    intro x b h
    dsimp only at h ⊢
    by_cases hx : x = a
    · rw [if_pos hx] at h
      cases h
      rw [if_pos rfl, hx]
    · rw [if_neg hx] at h
      cases h

/-! ## Requests to a remote side (`internal/client`, `internal/uiapi`, `app.go`)

`net/http` is a parameter: whether a request can be built, and what a round
trip gives, with the time it takes.  The deadline of the context is carried
in the request.  A function that would dereference a nil pointer returns
`none`.  Every function gives, with its results, the list of the calls it made
that the claims speak of (`Effect`).  The two readings of `time.Now()` in
`RunAPIRequest` are inputs. -/

/-- An HTTP response (`http.Response`), its body read to the end. -/
structure HTTPResponse where
  StatusCode : Int
  Header : List (Str × List Str)
  Body : Bytes
  deriving DecidableEq, Inhabited

/-- An HTTP request as the clients build it; `Timeout` is the time left to
the context, in nanoseconds. -/
structure HTTPRequest where
  Method : Str
  URL : Str
  ContentType : Option Str
  BasicAuth : Option (Str × Str)
  Authorization : Option Str
  Body : Option Bytes
  Timeout : Int
  deriving DecidableEq, Inhabited

/-- What `c.http.Do(req)` returns: an error, with a response or nil, or a
response and no error. -/
inductive DoResult where
  | failed (resp : Option HTTPResponse) (err : Str)
  | answered (resp : HTTPResponse)
  deriving DecidableEq

/-- The network: the error of `http.NewRequestWithContext(ctx, method, url, body)`
(`none` is nil), and the result of a round trip with the time it took, in
nanoseconds. -/
structure Net where
  newRequest : Str → Str → Option Str
  roundTrip : HTTPRequest → DoResult × Int

/-- The request of the UI (`core.ExplorerRequest`). -/
structure ExplorerRequest where
  EndpointID : Str
  Method : Str
  Path : Str
  Body : AnyFields
  TimeoutMs : Int
  deriving DecidableEq, Inhabited

/-- The response to the UI (`core.ExplorerResponse`). -/
structure ExplorerResponse where
  Status : Int
  Headers : List (Str × List Str)
  JSON : Any
  Text : Str
  ElapsedMs : Int
  EndpointID : Str
  LogID : Str
  Error : Str
  deriving DecidableEq, Inhabited

/-- The zero value `core.ExplorerResponse{}`. -/
def ExplorerResponse.zero : ExplorerResponse :=
  { Status := 0, Headers := [], JSON := Any.null, Text := [], ElapsedMs := 0, EndpointID := [],
    LogID := [], Error := [] }

/-- The result of a connection test (`core.ConnectionTestResult`). -/
structure ConnectionTestResult where
  Success : Bool
  Message : Str
  StatusCode : Int
  ElapsedMs : Int
  Details : Any
  deriving DecidableEq, Inhabited

/-- The zero value `core.ConnectionTestResult{}`. -/
def ConnectionTestResult.zero : ConnectionTestResult :=
  { Success := false, Message := [], StatusCode := 0, ElapsedMs := 0, Details := Any.null }

/-- The calls a request makes: to an adapter, and to the store. -/
inductive Effect where
  | runCmds (baseURL user pass : Str) (params : RunCmdsParams) (timeout : Int)
  | doREST (method url bearer : Str) (body : Option AnyFields) (timeout : Int)
  | saveQueryRecord (record : APIQueryRecord)
  | saveEndpoint (endpoint : Endpoint)
  | print (message : Str)
  deriving DecidableEq

/-- A Go int64 after an operation that may overflow. -/
def wrapInt64 (x : Int) : Int := (x + 2 ^ 63) % 2 ^ 64 - 2 ^ 63

/-- Go `d.Milliseconds()` of a `time.Duration` in nanoseconds. -/
def Milliseconds (d : Int) : Int := d.tdiv 1000000

/-- The request `EAPIClient.RunCmds` builds. -/
def runCmdsRequest (L : GoLib) (timeout : Int) (baseURL user pass : Str)
    (params : RunCmdsParams) : HTTPRequest :=
  let rpc : JSONRPCRequest :=
    { JSONRPC := "2.0".toList, Method := "runCmds".toList, Params := params, ID := "1".toList }
  let raw := L.marshalRPC rpc
  { Method := "POST".toList
    URL := baseURL ++ "/command-api".toList
    ContentType := some "application/json".toList
    BasicAuth := if user ≠ [] then some (user, pass) else none
    Authorization := none
    Body := some raw
    Timeout := timeout }

/-- `EAPIClient.RunCmds`: the decoded response, the HTTP response, the time
elapsed and the error. -/
def EAPIClient.RunCmds (L : GoLib) (N : Net) (timeout : Int) (baseURL user pass : Str)
    (params : RunCmdsParams) :
    Option JSONRPCResponse × Option HTTPResponse × Int × Option Str :=
  match N.newRequest "POST".toList (baseURL ++ "/command-api".toList) with
  | some err => (none, none, 0, some err)
  | none =>
    match N.roundTrip (runCmdsRequest L timeout baseURL user pass params) with
    | (DoResult.failed resp err, elapsed) => (none, resp, elapsed, some err)
    | (DoResult.answered resp, elapsed) =>
      match L.unmarshalRPC resp.Body with
      | .error err => (none, some resp, elapsed, some err)
      | .ok out =>
        match out.Error with
        | some e => (some out, some resp, elapsed, some e.Message)
        | none => (some out, some resp, elapsed, none)

/-- The request `CloudVisionClient.DoREST` builds; `body` is `none` for a
nil `any`. -/
def restRequest (L : GoLib) (timeout : Int) (method url bearer : Str)
    (body : Option AnyFields) : HTTPRequest :=
  let rdr : Option Bytes :=
    match body with
    | some b => some (L.marshalBody b)
    | none => none
  { Method := method
    URL := url
    ContentType := if body.isSome then some "application/json".toList else none
    BasicAuth := none
    Authorization := if bearer ≠ [] then some ("Bearer ".toList ++ bearer) else none
    Body := rdr
    Timeout := timeout }

/-- `CloudVisionClient.DoREST`. -/
def CloudVisionClient.DoREST (L : GoLib) (N : Net) (timeout : Int) (method url bearer : Str)
    (body : Option AnyFields) : Option HTTPResponse × Int × Option Str :=
  match N.newRequest method url with
  | some err => (none, 0, some err)
  | none =>
    match N.roundTrip (restRequest L timeout method url bearer body) with
    | (DoResult.failed resp err, elapsed) => (resp, elapsed, some err)
    | (DoResult.answered resp, elapsed) => (some resp, elapsed, none)

/-- The loop of `convertToRunCmdsParams` over the elements of "cmds": the
strings are appended, the other elements are passed over. -/
def appendCmds : List Str → AnyList → List Str
  | cmds, .nil => cmds
  | cmds, .cons (Any.str cmdStr) rest => appendCmds (cmds ++ [cmdStr]) rest
  | cmds, .cons _ rest => appendCmds cmds rest

/-- `ExplorerAPI.convertToRunCmdsParams`. -/
def convertToRunCmdsParams (L : GoLib) (body : AnyFields) : RunCmdsParams × Option Str :=
  let params : RunCmdsParams :=
    { Version := 1, Cmds := [], Format := "json".toList, AutoComplete := true,
      ExpandAliases := true }
  match body.get "cmds".toList with
  | some (Any.arr cmds) =>
    let params := { params with Cmds := appendCmds params.Cmds cmds }
    let params :=
      match body.get "version".toList with
      | some (Any.float version) => { params with Version := L.floatToInt version }
      | _ => params
    let params :=
      match body.get "format".toList with
      | some (Any.str format) => { params with Format := format }
      | _ => params
    let params :=
      match body.get "autoComplete".toList with
      | some (Any.bool autoComplete) => { params with AutoComplete := autoComplete }
      | _ => params
    let params :=
      match body.get "expandAliases".toList with
      | some (Any.bool expandAliases) => { params with ExpandAliases := expandAliases }
      | _ => params
    (params, none)
  | _ => (params, some "cmds field is required and must be an array of strings".toList)

/-- `ExplorerAPI.handleEAPIRequest`: the response and the error, or `none`
if it would read the status of a nil HTTP response; and the calls made. -/
def handleEAPIRequest (L : GoLib) (N : Net) (timeout : Int) (endpoint : Endpoint)
    (request : ExplorerRequest) : Option (ExplorerResponse × Option Str) × List Effect :=
  match convertToRunCmdsParams L request.Body with
  | (_, some err) =>
    (some (ExplorerResponse.zero, some ("failed to convert request body: ".toList ++ err)), [])
  | (params, none) =>
    let call := Effect.runCmds endpoint.URL endpoint.Username endpoint.Password params timeout
    match EAPIClient.RunCmds L N timeout endpoint.URL endpoint.Username endpoint.Password
        params with
    | (rpc, httpResp, elapsed, err) =>
      if err.isSome && rpc.isNone then (some (ExplorerResponse.zero, err), [call])
      else
        match httpResp with
        | none => (none, [call])
        | some httpResp =>
          let response : ExplorerResponse :=
            { ExplorerResponse.zero with
              Status := httpResp.StatusCode
              Headers := httpResp.Header
              ElapsedMs := Milliseconds elapsed
              EndpointID := endpoint.ID }
          let response :=
            match rpc with
            | some rpc =>
              match rpc.Error with
              | some e =>
                { response with
                  Error := e.Message
                  JSON :=
                    Any.obj
                      (AnyFields.cons "error".toList (Any.rpcError e.Code e.Message e.Data)
                        AnyFields.nil) }
              | none =>
                { response with
                  JSON :=
                    Any.obj (AnyFields.cons "result".toList (Any.arr rpc.Result) AnyFields.nil) }
            | none => response
          (some (response, err), [call])

/-- `ExplorerAPI.handleCloudVisionRequest`. -/
def handleCloudVisionRequest (L : GoLib) (N : Net) (timeout : Int) (endpoint : Endpoint)
    (request : ExplorerRequest) : Option (ExplorerResponse × Option Str) × List Effect :=
  let fullURL := endpoint.URL ++ request.Path
  let call := Effect.doREST request.Method fullURL endpoint.Token (some request.Body) timeout
  match CloudVisionClient.DoREST L N timeout request.Method fullURL endpoint.Token
      (some request.Body) with
  | (_, _, some err) => (some (ExplorerResponse.zero, some err), [call])
  | (none, _, none) => (none, [call])
  | (some resp, elapsed, none) =>
    let response : ExplorerResponse :=
      { ExplorerResponse.zero with
        Status := resp.StatusCode
        Headers := resp.Header
        ElapsedMs := Milliseconds elapsed
        EndpointID := endpoint.ID }
    let response :=
      match L.decodeAny resp.Body with
      | .error err => { response with Text := "Failed to parse JSON: ".toList ++ err }
      | .ok parsed => { response with JSON := parsed }
    (some (response, none), [call])

/-- What `RunAPIRequest` returns and does: the response, the error, the
store afterwards, and the calls made, in order. -/
structure RunOutcome where
  response : ExplorerResponse
  err : Option Str
  store : Store
  trace : List Effect
  deriving DecidableEq

/-- The timeout `RunAPIRequest` sets, in nanoseconds. -/
def requestTimeout (request : ExplorerRequest) : Int :=
  let timeout : Int := 30 * 1000000000
  if request.TimeoutMs > 0 then wrapInt64 (request.TimeoutMs * 1000000) else timeout

/-- The record `RunAPIRequest` logs; `nowID` and `nowStamp` are the two
readings of the clock. -/
def queryRecord (request : ExplorerRequest) (response : ExplorerResponse)
    (nowID nowStamp : Int) : APIQueryRecord :=
  { ID := "req_".toList ++ formatInt nowID
    EndpointID := request.EndpointID
    Method := request.Method
    Path := request.Path
    Body := request.Body
    Status := response.Status
    Response :=
      AnyFields.cons "json".toList response.JSON
        (AnyFields.cons "text".toList (Any.str response.Text) AnyFields.nil)
    Timestamp := nowStamp
    ElapsedMs := response.ElapsedMs
    Error := response.Error }

/-- The step `if err != nil { response.Error = err.Error() }`. -/
def withError (response : ExplorerResponse) (err : Option Str) : ExplorerResponse :=
  match err with
  | some e => { response with Error := e }
  | none => response

/-- What is printed when the query record cannot be saved. -/
def saveFailure (err : Option Str) : List Effect :=
  match err with
  | some e => [Effect.print ("Failed to save query record: ".toList ++ e ++ "\n".toList)]
  | none => []

/-- `ExplorerAPI.RunAPIRequest` on the store `s`; `none` if the call would
dereference a nil pointer. -/
def RunAPIRequest (L : GoLib) (N : Net) (s : Store) (request : ExplorerRequest)
    (nowID nowStamp : Int) : Option RunOutcome :=
  match s.GetEndpoint L request.EndpointID with
  | (_, some err) =>
    some
      { response := ExplorerResponse.zero
        err := some ("failed to get endpoint: ".toList ++ err)
        store := s
        trace := [] }
  | (endpoint, none) =>
    let timeout := requestTimeout request
    let handled : Option (Option (ExplorerResponse × Option Str) × List Effect) :=
      if endpoint.Type_ = "eapi".toList then some (handleEAPIRequest L N timeout endpoint request)
      else if endpoint.Type_ = "cloudvision".toList then
        some (handleCloudVisionRequest L N timeout endpoint request)
      else none
    match handled with
    | none =>
      some
        { response := ExplorerResponse.zero
          err := some ("unsupported endpoint type: ".toList ++ endpoint.Type_)
          store := s
          trace := [] }
    | some (none, _) => none
    | some (some (response, err), calls) =>
      let response := withError response err
      let record := queryRecord request response nowID nowStamp
      let saved := s.SaveQueryRecord L record
      let prints := saveFailure saved.2
      let response := { response with LogID := record.ID }
      some
        { response := response
          err := none
          store := saved.1
          trace := calls ++ [Effect.saveQueryRecord record] ++ prints }

/-- `EAPIClient.TestConnection`: success, message, time elapsed and error;
`none` if it would read the status of a nil response. -/
def EAPIClient.TestConnection (L : GoLib) (N : Net) (timeout : Int) (baseURL user pass : Str) :
    Option (Bool × Str × Int × Option Str) :=
  let params : RunCmdsParams :=
    { Version := 1, Cmds := ["show version".toList], Format := "json".toList,
      AutoComplete := true, ExpandAliases := false }
  match EAPIClient.RunCmds L N timeout baseURL user pass params with
  | (_, _, elapsed, some err) => some (false, err, elapsed, some err)
  | (_, none, _, none) => none
  | (_, some resp, elapsed, none) =>
    if resp.StatusCode = 200 then some (true, "Connection successful".toList, elapsed, none)
    else some (false, "Connection failed".toList, elapsed, some "non-200 status code".toList)

/-- `CloudVisionClient.TestConnection`. -/
def CloudVisionClient.TestConnection (L : GoLib) (N : Net) (timeout : Int)
    (baseURL token : Str) : Option (Bool × Str × Int × Option Str) :=
  let testURL := baseURL ++ "/api/resources/inventory/v1/Devices?limit=1".toList
  match CloudVisionClient.DoREST L N timeout "GET".toList testURL token none with
  | (_, elapsed, some err) => some (false, err, elapsed, some err)
  | (none, _, none) => none
  | (some resp, elapsed, none) =>
    if resp.StatusCode = 200 then some (true, "Connection successful".toList, elapsed, none)
    else some (false, "Connection failed".toList, elapsed, none)

/-- What `App.TestConnection` returns and does. -/
structure TestOutcome where
  result : ConnectionTestResult
  err : Option Str
  store : Store
  trace : List Effect
  deriving DecidableEq

/-- `App.TestConnection` on the store `s`. -/
def App.TestConnection (L : GoLib) (N : Net) (s : Store) (endpointID : Str) :
    Option TestOutcome :=
  match s.GetEndpoint L endpointID with
  | (_, some err) =>
    some { result := ConnectionTestResult.zero, err := some err, store := s, trace := [] }
  | (endpoint, none) =>
    let timeout : Int := 10 * 1000000000
    let tested : Option (Option (Bool × Str × Int × Option Str) × List Effect) :=
      if endpoint.Type_ = "eapi".toList then
        some
          (EAPIClient.TestConnection L N timeout endpoint.URL endpoint.Username endpoint.Password,
            [Effect.runCmds endpoint.URL endpoint.Username endpoint.Password
              { Version := 1, Cmds := ["show version".toList], Format := "json".toList,
                AutoComplete := true, ExpandAliases := false } timeout])
      else if endpoint.Type_ = "cloudvision".toList then
        some
          (CloudVisionClient.TestConnection L N timeout endpoint.URL endpoint.Token,
            [Effect.doREST "GET".toList
              (endpoint.URL ++ "/api/resources/inventory/v1/Devices?limit=1".toList)
              endpoint.Token none timeout])
      else none
    match tested with
    | none =>
      some
        { result := ConnectionTestResult.zero
          err := some ("unsupported endpoint type: ".toList ++ endpoint.Type_)
          store := s
          trace := [] }
    | some (none, _) => none
    | some (some (success, message, elapsed, err), calls) =>
      let result : ConnectionTestResult :=
        { ConnectionTestResult.zero with
          Success := success, Message := message, ElapsedMs := Milliseconds elapsed }
      let result :=
        match err with
        | some e => { result with Message := e }
        | none => result
      let endpoint := { endpoint with Status := "Connected".toList }
      let endpoint := if !success then { endpoint with Status := "Failed".toList } else endpoint
      let saved := s.SaveEndpoint L endpoint
      some
        { result := result
          err := none
          store := saved.1
          trace := calls ++ [Effect.saveEndpoint endpoint] }

/-- A library for trying the store out: the endpoint `e` and the record `r`
are marshalled (to `edata` and `rdata`), no other value is; no response body
can be decoded. -/
def GoLib.sample (e : Endpoint) (edata : Bytes) (r : APIQueryRecord) (rdata : Bytes) : GoLib where
  endpoint := JSONCodec.single Endpoint.zero e edata
  record := (JSONCodec.single default r rdata).toRecordCodec
  marshalRPC := fun _ => []
  marshalBody := fun _ => []
  unmarshalRPC := fun _ => .error "invalid character".toList
  decodeAny := fun _ => .error "invalid character".toList
  floatToInt := fun _ => 0

/-- An endpoint for trying the store out. -/
def Endpoint.sample : Endpoint :=
  { ID := "ep_1".toList, Name := "lab".toList, Type_ := "eapi".toList,
    URL := "http://h".toList, Username := "u".toList, Password := "p".toList, Token := [],
    Created := 1, Tags := [], TLSVerify := false, Status := [] }

/-- A network on which every request is answered with `resp` after
`elapsed` nanoseconds. -/
def Net.answering (resp : HTTPResponse) (elapsed : Int) : Net where
  newRequest := fun _ _ => none
  roundTrip := fun _ => (DoResult.answered resp, elapsed)

/-- A network on which every round trip fails. -/
def Net.offline : Net where
  newRequest := fun _ _ => none
  roundTrip := fun _ => (DoResult.failed none "connection refused".toList, 1000000)

/-- A store that holds the endpoint `e` as the bytes `edata`. -/
def Store.sample (e : Endpoint) (edata : Bytes) : Store :=
  { NewStore default with endpoints := some [(toBytes e.ID, edata)] }

/-- A library like `GoLib.sample`, in which every response body decodes to
a JSON-RPC envelope whose error has the message `message`. -/
def GoLib.sampleRemoteError (e : Endpoint) (edata : Bytes) (message : Str) : GoLib :=
  { GoLib.sample e edata default [] with
    unmarshalRPC := fun _ =>
      .ok
        { JSONRPC := "2.0".toList
          Result := AnyList.nil
          Error := some { Code := 1002, Message := message, Data := Any.null }
          ID := "1".toList } }

/-- A request that runs the one command `cmd`. -/
def ExplorerRequest.sample (cmd : Str) : ExplorerRequest :=
  { EndpointID := "ep_1".toList
    Method := "runCmds".toList
    Path := "/command-api".toList
    Body :=
      AnyFields.cons "cmds".toList (Any.arr (AnyList.cons (Any.str cmd) AnyList.nil))
        AnyFields.nil
    TimeoutMs := 0 }

/-- The string elements of a `[]any`, in their order. -/
def stringElements : AnyList → List Str
  | .nil => []
  | .cons (Any.str cmdStr) rest => cmdStr :: stringElements rest
  | .cons _ rest => stringElements rest

/-- Whether every element of a `[]any` is a string. -/
def allStrings : AnyList → Bool
  | .nil => true
  | .cons (Any.str _) rest => allStrings rest
  | .cons _ _ => false

/-- The definition of the line "get /<name>" under the category "Acl_v2". -/
def APIDefinition.sample (name : Str) : APIDefinition :=
  { ID := "Acl_v2_GET__".toList ++ name
    Service := "eos_rest".toList
    Method := "GET".toList
    Path := '/' :: name
    Description := "GET ".toList ++ name ++ " for Acl v2".toList
    Params := []
    Category := "Acl_v2".toList
    Tags := ["GET".toList, "acl_v2".toList] }

/-- A request body whose "cmds" holds a number, a string and a number. -/
def mixedCmdsBody : AnyFields :=
  AnyFields.cons "cmds".toList
    (Any.arr
      (AnyList.cons (Any.float 0)
        (AnyList.cons (Any.str "show version".toList)
          (AnyList.cons (Any.float 1) AnyList.nil))))
    AnyFields.nil

/-- A request body with two commands and all four optional fields. -/
def fullCmdsBody : AnyFields :=
  AnyFields.cons "cmds".toList
    (Any.arr
      (AnyList.cons (Any.str "enable".toList)
        (AnyList.cons (Any.str "show vlan".toList) AnyList.nil)))
    (AnyFields.cons "version".toList (Any.float 0)
      (AnyFields.cons "format".toList (Any.str "text".toList)
        (AnyFields.cons "autoComplete".toList (Any.bool false)
          (AnyFields.cons "expandAliases".toList (Any.str "yes".toList) AnyFields.nil))))

/-! ## The NetVisor database (`internal/netvisor/database.go`)

The SQLite database is the list of its tables in the order of their names,
the order in which `GetTables` reads them.  A table has the rows that
`PRAGMA table_info` gives for it and the rows that `SELECT *` gives; a cell is
NULL or the text that `%v` prints for its value.  Queries do not fail. -/

/-- The `APIDefinition` of package `netvisor`. -/
structure netvisor.APIDefinition where
  ID : Str
  Service : Str
  Method : Str
  Path : Str
  Description : Str
  Category : Str
  Tags : Str
  Parameters : Str
  Example : Str
  deriving DecidableEq, Inhabited

/-- The name and the declared type in a row of `PRAGMA table_info`. -/
structure netvisor.ColumnInfo where
  name : Str
  dataType : Str
  deriving DecidableEq

/-- A table of the database. -/
structure netvisor.Table where
  name : Str
  info : List netvisor.ColumnInfo
  rows : List (List (Option Str))

/-- A `NetVisorDB` over an open database. -/
structure netvisor.NetVisorDB where
  tables : List netvisor.Table

/-- `NetVisorDB.GetTables`. -/
def netvisor.NetVisorDB.GetTables (n : netvisor.NetVisorDB) : List Str × Option Str :=
  (n.tables.map fun t => t.name, none)

/-- `NetVisorDB.GetTableSchema`: one string "name type" for each column. -/
def netvisor.NetVisorDB.GetTableSchema (n : netvisor.NetVisorDB) (tableName : Str) :
    List Str × Option Str :=
  match n.tables.find? fun t => decide (t.name = tableName) with
  | some t => (t.info.map fun c => c.name ++ " ".toList ++ c.dataType, none)
  | none => ([], none)

/-- The loop of `GetAllAPIs` that looks for a common table name; the empty
string if there is none. -/
def netvisor.pickAPITable : List Str → Str
  | [] => []
  | table :: rest =>
    if table = "apis".toList ∨ table = "api_definitions".toList ∨ table = "endpoints".toList ∨
        table = "api_catalog".toList ∨ table = "netvisor_apis".toList then
      table
    else netvisor.pickAPITable rest

/-- The switch of `GetAllAPIs` on the schema string `col` of a column whose
value is not nil. -/
def netvisor.mapColumn (api : netvisor.APIDefinition) (col value : Str) :
    netvisor.APIDefinition :=
  if col = "id".toList ∨ col = "ID".toList then { api with ID := value }
  else if col = "service".toList ∨ col = "Service".toList then { api with Service := value }
  else if col = "method".toList ∨ col = "Method".toList then { api with Method := value }
  else if col = "path".toList ∨ col = "Path".toList then { api with Path := value }
  else if col = "description".toList ∨ col = "Description".toList then
    { api with Description := value }
  else if col = "category".toList ∨ col = "Category".toList then { api with Category := value }
  else if col = "tags".toList ∨ col = "Tags".toList then { api with Tags := value }
  else if col = "parameters".toList ∨ col = "Parameters".toList then
    { api with Parameters := value }
  else if col = "example".toList ∨ col = "Example".toList then { api with Example := value }
  else api

/-- The loop of `GetAllAPIs` over the columns of one row. -/
def netvisor.mapColumns : netvisor.APIDefinition → List Str → List (Option Str) →
    netvisor.APIDefinition
  | api, col :: cols, some value :: values =>
    netvisor.mapColumns (netvisor.mapColumn api col value) cols values
  | api, _ :: cols, none :: values => netvisor.mapColumns api cols values
  | api, _, _ => api

/-- The loop of `GetAllAPIs` over the rows: `Scan` fails on a row that has
not as many values as there are destinations. -/
def netvisor.scanRows (columns : List Str) :
    List netvisor.APIDefinition → List (List (Option Str)) →
      List netvisor.APIDefinition × Option Str
  | apis, [] => (apis, none)
  | apis, values :: rest =>
    if values.length ≠ columns.length then
      ([], some ("failed to scan API row: sql: expected ".toList ++ formatInt values.length ++
        " destination arguments in Scan, not ".toList ++ formatInt columns.length))
    else
      let api := netvisor.mapColumns default columns values
      let api :=
        if api.ID = [] then
          { api with ID := "netvisor_".toList ++ formatInt ((apis.length : Int) + 1) }
        else api
      netvisor.scanRows columns (apis ++ [api]) rest

/-- `NetVisorDB.GetAllAPIs`. -/
def netvisor.NetVisorDB.GetAllAPIs (n : netvisor.NetVisorDB) :
    List netvisor.APIDefinition × Option Str :=
  match n.GetTables with
  | (_, some err) => ([], some err)
  | (tables, none) =>
    let apiTable := netvisor.pickAPITable tables
    let chosen : Option Str :=
      if apiTable = [] then
        match tables with
        | first :: _ => some first
        | [] => none
      else some apiTable
    match chosen with
    | none => ([], some "no tables found in NetVisor database".toList)
    | some apiTable =>
      match n.GetTableSchema apiTable with
      | (_, some err) => ([], some err)
      | (columns, none) =>
        let rows :=
          match n.tables.find? fun t => decide (t.name = apiTable) with
          | some t => t.rows.take 100
          | none => []
        netvisor.scanRows columns [] rows

/-- `indexOf`: the loop from `i` with `fuel` rounds left. -/
def netvisor.indexOfLoop (s substr : Bytes) : Nat → Nat → Int
  | 0, _ => -1
  | fuel + 1, i =>
    if (s.drop i).take substr.length = substr then (i : Int)
    else netvisor.indexOfLoop s substr fuel (i + 1)

/-- `indexOf`: `i` runs from 0 to `len(s)-len(substr)`. -/
def netvisor.indexOf (s substr : Bytes) : Int :=
  netvisor.indexOfLoop s substr (s.length + 1 - substr.length) 0

/-- `contains`, on the bytes of the two strings. -/
def netvisor.contains (s substr : Str) : Bool :=
  let s := toBytes s
  let substr := toBytes substr
  decide (s.length ≥ substr.length) &&
    (decide (s = substr) ||
      decide (s.length > substr.length) &&
        (decide (s.take substr.length = substr) ||
          decide (s.drop (s.length - substr.length) = substr) ||
          decide (netvisor.indexOf s substr ≥ 0)))

/-- The part of `SearchAPIs` that follows the call of `GetAllAPIs`. -/
def netvisor.searchAPIs (apis : List netvisor.APIDefinition) (keyword : Str) :
    List netvisor.APIDefinition :=
  let keyword := "%".toList ++ keyword ++ "%".toList
  apis.filter fun api =>
    netvisor.contains api.Description keyword ||
      netvisor.contains api.Path keyword ||
      netvisor.contains api.Category keyword ||
      netvisor.contains api.Tags keyword

/-- `NetVisorDB.SearchAPIs`. -/
def netvisor.NetVisorDB.SearchAPIs (n : netvisor.NetVisorDB) (keyword : Str) :
    List netvisor.APIDefinition × Option Str :=
  match n.GetAllAPIs with
  | (_, some err) => ([], some err)
  | (apis, none) => (netvisor.searchAPIs apis keyword, none)

/-- A definition that has only the identifier `netvisor_<k>`. -/
def netvisor.generated (k : Nat) : netvisor.APIDefinition :=
  { (default : netvisor.APIDefinition) with
    ID := "netvisor_".toList ++ formatInt ((k : Int) + 1) }

/-- A database with the one table `apis (id TEXT, path TEXT, description
TEXT)` and the one row ("a1", "/vlans", "Show VLAN table"). -/
def netvisor.NetVisorDB.sample : netvisor.NetVisorDB where
  tables :=
    [{ name := "apis".toList
       info :=
        [{ name := "id".toList, dataType := "TEXT".toList },
         { name := "path".toList, dataType := "TEXT".toList },
         { name := "description".toList, dataType := "TEXT".toList }]
       rows := [[some "a1".toList, some "/vlans".toList, some "Show VLAN table".toList]] }]

/-- The definition that the row of the sample database stands for. -/
def netvisor.APIDefinition.sample : netvisor.APIDefinition :=
  { (default : netvisor.APIDefinition) with
    ID := "a1".toList, Path := "/vlans".toList, Description := "Show VLAN table".toList }

/-- A database with the one table `apis (id TEXT, path TEXT)` and the one
row ("a1", "/vlans"). -/
def netvisor.NetVisorDB.idPath : netvisor.NetVisorDB where
  tables :=
    [{ name := "apis".toList
       info :=
        [{ name := "id".toList, dataType := "TEXT".toList },
         { name := "path".toList, dataType := "TEXT".toList }]
       rows := [[some "a1".toList, some "/vlans".toList]] }]

/-! ## Registering endpoints (`app.go`, `internal/store/store.go`)

The readings of `time.Now()` in `AddEndpoint` are inputs; the codec of the
inventory records is a parameter like the ones of `GoLib`. -/

/-- A record of the device inventory (`core.DeviceInventory`); `Type_` is
its field `Type`, and a time is `none` for the zero `time.Time{}` and its
`UnixNano()` otherwise. -/
structure DeviceInventory where
  ID : Str
  Name : Str
  DeviceType : Str
  URL : Str
  Username : Str
  Password : Str
  Type_ : Str
  Status : Str
  AddedAt : Option Int
  LastTested : Option Int
  TestCount : Int
  SuccessCount : Int
  Notes : Str
  deriving DecidableEq, Inhabited

/-- The zero value `core.DeviceInventory{}`. -/
def DeviceInventory.zero : DeviceInventory :=
  { ID := [], Name := [], DeviceType := [], URL := [], Username := [], Password := [],
    Type_ := [], Status := [], AddedAt := none, LastTested := none, TestCount := 0,
    SuccessCount := 0, Notes := [] }

/-- `Store.AddDeviceToInventory`. -/
def Store.AddDeviceToInventory (J : JSONCodec DeviceInventory) (s : Store)
    (device : DeviceInventory) : Store × Option Str :=
  match s.device_inventory with
  | none => (s, some "device_inventory bucket not found".toList)
  | some bucket =>
    match J.marshal device with
    | .error err => (s, some err)
    | .ok data =>
      match bucketPut bucket (toBytes device.ID) data with
      | .error err => (s, some err)
      | .ok bucket => ({ s with device_inventory := some bucket }, none)

/-- `Store.GetDeviceInventoryByID`. -/
def Store.GetDeviceInventoryByID (J : JSONCodec DeviceInventory) (s : Store) (id : Str) :
    DeviceInventory × Option Str :=
  match s.device_inventory with
  | none => (DeviceInventory.zero, some "device_inventory bucket not found".toList)
  | some bucket =>
    match bucketGet bucket (toBytes id) with
    | none => (DeviceInventory.zero, some "device not found".toList)
    | some data => J.unmarshal data

/-- The inventory record that `App.AddEndpoint` builds for the endpoint it
has saved, `nowAdded` being the reading of the clock. -/
def inventoryDevice (endpoint : Endpoint) (nowAdded : Int) : DeviceInventory :=
  { ID := endpoint.ID
    Name := endpoint.Name
    DeviceType := endpoint.Type_
    URL := endpoint.URL
    Username := endpoint.Username
    Password := endpoint.Password
    Type_ := endpoint.Type_
    Status := "disconnected".toList
    AddedAt := some nowAdded
    LastTested := none
    TestCount := 0
    SuccessCount := 0
    Notes := "Added via Endpoint Manager - ".toList ++ endpoint.Type_ }

/-- The endpoint that `App.AddEndpoint` saves: the identifier is made of the
first reading of the clock and `Created` is the second. -/
def stamped (endpoint : Endpoint) (nowID nowCreated : Int) : Endpoint :=
  let endpoint := { endpoint with ID := "ep_".toList ++ formatInt nowID }
  { endpoint with Created := nowCreated }

/-- `App.AddEndpoint`: the error of the inventory is logged and dropped. -/
def App.AddEndpoint (L : GoLib) (J : JSONCodec DeviceInventory) (s : Store)
    (endpoint : Endpoint) (nowID nowCreated nowAdded : Int) : Store × Option Str :=
  let endpoint := stamped endpoint nowID nowCreated
  match s.SaveEndpoint L endpoint with
  | (s, some err) => (s, some err)
  | (s, none) =>
    let device := inventoryDevice endpoint nowAdded
    ((s.AddDeviceToInventory J device).1, none)

/-- `App.UpdateEndpoint`. -/
def App.UpdateEndpoint (L : GoLib) (s : Store) (endpoint : Endpoint) : Store × Option Str :=
  match s.SaveEndpoint L endpoint with
  | (s, some err) => (s, some err)
  | (s, none) => (s, none)

/-- A codec that marshals the two values `a1` and `a2`, to different bytes,
and nothing else. -/
def JSONCodec.double {α : Type} [DecidableEq α] (zero a1 : α) (d1 : Bytes) (a2 : α) (d2 : Bytes)
    (hne : d1 ≠ d2) : JSONCodec α where
  marshal := fun x =>
    if x = a1 then .ok d1 else if x = a2 then .ok d2 else .error "unsupported value".toList
  unmarshal := fun b =>
    if b = d1 then (a1, none) else if b = d2 then (a2, none)
    else (zero, some "unexpected input".toList)
  roundtrip := by
    intro x b h
    dsimp only at h ⊢
    by_cases hx : x = a1
    · rw [if_pos hx] at h
      cases h
      rw [if_pos rfl, hx]
    · rw [if_neg hx] at h
      by_cases hx2 : x = a2
      · rw [if_pos hx2] at h
        cases h
        rw [if_neg (Ne.symm hne), if_pos rfl, hx2]
      · rw [if_neg hx2] at h
        cases h

/-- A library for trying the connection test out: the endpoint
`Endpoint.sample` is marshalled to the byte 1 and the endpoint `e2` to the
byte 2, and every response body decodes to a JSON-RPC envelope with an empty
result and no error. -/
def GoLib.lab (e2 : Endpoint) : GoLib :=
  { GoLib.sample Endpoint.sample [1] default [] with
    endpoint := JSONCodec.double Endpoint.zero Endpoint.sample [1] e2 [2] (by decide)
    unmarshalRPC := fun _ =>
      .ok { JSONRPC := "2.0".toList, Result := AnyList.nil, Error := none, ID := "1".toList } }

/-- The codec of the inventory that marshals the record of
`Endpoint.sample` added at the time 3, to the byte 3. -/
def JSONCodec.labInventory : JSONCodec DeviceInventory :=
  JSONCodec.single DeviceInventory.zero (inventoryDevice Endpoint.sample 3) [3]

/-- The answer 200 with an empty body. -/
def HTTPResponse.ok : HTTPResponse :=
  { StatusCode := 200, Header := [], Body := [] }

/-! ## Runs of the query log -/

/-- The store after `SaveQueryRecord` was called for each of the records in
turn; a call that fails leaves the store as it was. -/
def saveRecords (L : GoLib) (s : Store) (records : List APIQueryRecord) : Store :=
  records.foldl (fun s record => (s.SaveQueryRecord L record).1) s

/-- What holds of the query log bucket after such a run: the keys are in
strictly increasing byte order, and every entry is the key and the marshalled
value of one of the records. -/
def LogInv (L : GoLib) (records : List APIQueryRecord) (b : Bucket) : Prop :=
  b.Pairwise (fun e1 e2 => bytesLt e1.1 e2.1 = true) ∧
    ∀ e ∈ b, ∃ r ∈ records, e.1 = toBytes (queryLogKey r) ∧ L.record.marshal r = .ok e.2

/-- A query record with the given ID and timestamp. -/
def APIQueryRecord.sample (id : Str) (stamp : Int) : APIQueryRecord :=
  { (default : APIQueryRecord) with ID := id, Timestamp := stamp }

/-- A library for trying the query log out: the record "a" of the time
1700000000000000001 is marshalled to the byte 1 and the record "b" of the time
1700000000000000000 to the byte 2. -/
def GoLib.logging : GoLib :=
  { GoLib.sample Endpoint.sample [1] default [] with
    record :=
      (JSONCodec.double default (APIQueryRecord.sample "a".toList 1700000000000000001) [1]
        (APIQueryRecord.sample "b".toList 1700000000000000000) [2]
        (by decide)).toRecordCodec }

/-! ## Facts about the string functions -/

theorem HasPrefix_iff (s p : Str) : HasPrefix s p = true ↔ p <+: s := by
  simp [HasPrefix]

theorem Contains_iff (s sub : Str) : Contains s sub = true ↔ sub <:+: s := by
  induction s with
  | nil =>
    simp [Contains, HasPrefix_iff]
  | cons c s ih =>
    simp only [Contains, Bool.or_eq_true, HasPrefix_iff, ih]
    exact List.infix_cons_iff.symm

theorem Contains_false_iff (s sub : Str) : Contains s sub = false ↔ ¬ sub <:+: s := by
  rw [← Contains_iff]; simp

theorem Contains_mid (a b sub : Str) : Contains (a ++ sub ++ b) sub = true :=
  (Contains_iff _ _).2 (List.infix_append a sub b)

theorem Contains_of_infix {s t sub : Str} (h : Contains s sub = true) (hst : s <:+: t) :
    Contains t sub = true :=
  (Contains_iff _ _).2 (((Contains_iff _ _).1 h).trans hst)

theorem utf8Size_ascii (c : Char) (h : c.toNat < 128) : c.utf8Size = 1 := by
  have h1 : c.val ≤ UInt32.ofNatCore 0x7F (by decide) := by
    show c.val.toNat ≤ 127
    have : c.val.toNat = c.toNat := rfl
    omega
  unfold Char.utf8Size
  exact if_pos h1

theorem len_ascii (s : Str) (h : ∀ c ∈ s, c.toNat < 128) : len s = s.length := by
  induction s with
  | nil => rfl
  | cons c s ih =>
    have hc := utf8Size_ascii c (h c (List.mem_cons_self _ _))
    have hs := ih fun d hd => h d (List.mem_cons_of_mem _ hd)
    simp only [len, List.map_cons, List.sum_cons, List.length_cons] at hs ⊢
    omega

/-! ## Service classification and tags -/

/-- C2: determineService returns one of the four service names, chosen by the
precedence cloudvision ("/api/" or "/resources/"), then telemetry
("/telemetry/" or "/streaming/"), then eapi ("/command-api"), then eos_rest;
so "/api/" together with "/telemetry/" gives cloudvision, and "/telemetry/"
together with "/command-api" gives telemetry when the path matches no
cloudvision pattern. -/
theorem determineService_precedence (path : Str) :
    determineService path =
        (if Contains path "/api/".toList = true ∨ Contains path "/resources/".toList = true then
          "cloudvision".toList
        else if Contains path "/telemetry/".toList = true ∨
            Contains path "/streaming/".toList = true then
          "telemetry".toList
        else if Contains path "/command-api".toList = true then "eapi".toList
        else "eos_rest".toList) ∧
      determineService path ∈
        ["cloudvision".toList, "telemetry".toList, "eapi".toList, "eos_rest".toList] ∧
      (Contains path "/api/".toList = true → Contains path "/telemetry/".toList = true →
        determineService path = "cloudvision".toList) ∧
      (Contains path "/telemetry/".toList = true → Contains path "/command-api".toList = true →
        Contains path "/api/".toList = false → Contains path "/resources/".toList = false →
        determineService path = "telemetry".toList) ∧
      determineService "/api/telemetry/x".toList = "cloudvision".toList ∧
      determineService "/telemetry/command-api".toList = "telemetry".toList := by
  refine ⟨?_, ?_, ?_, ?_, by decide, by decide⟩
  · unfold determineService
    by_cases h1 : Contains path "/api/".toList = true <;>
      by_cases h2 : Contains path "/resources/".toList = true <;>
      by_cases h3 : Contains path "/telemetry/".toList = true <;>
      by_cases h4 : Contains path "/streaming/".toList = true <;>
      by_cases h5 : Contains path "/command-api".toList = true <;>
      simp_all
  · unfold determineService
    split_ifs <;> simp
  · intro h1 _
    simp_all [determineService]
  · intro h3 _ h1 h2
    simp_all [determineService]

/-- C9: generateTags returns the method, then the lower-cased category, then
"statistics", "configuration", "status" and "maintenance" in this order, each
present exactly when the path contains "stats", "config", "status", "clear";
nothing else. -/
theorem generateTags_eq (U : RuneTables) (category path method : Str) :
    generateTags U category path method =
      method :: ToLower U category ::
        ((if Contains path "stats".toList = true then ["statistics".toList] else []) ++
          (if Contains path "config".toList = true then ["configuration".toList] else []) ++
          (if Contains path "status".toList = true then ["status".toList] else []) ++
          (if Contains path "clear".toList = true then ["maintenance".toList] else [])) := by
  unfold generateTags
  by_cases h1 : Contains path "stats".toList = true <;>
    by_cases h2 : Contains path "config".toList = true <;>
    by_cases h3 : Contains path "status".toList = true <;>
    by_cases h4 : Contains path "clear".toList = true <;>
    simp_all

/-! ## Category headers -/

/-- C5, as stated, fails at "get started": the line is trimmed, is not
skipped, holds no method word followed by a path (in any letter case), has 11
bytes, and is not a category header. -/
theorem isCategoryHeader_get_started_rejected :
    TrimSpace "get started".toList = "get started".toList ∧
      isSkipped "get started".toList = false ∧
      findEndpointMatch "get started".toList = none ∧
      findEndpointMatch ("GET started".toList.map asciiLower) = none ∧
      len "get started".toList = 11 ∧
      isCategoryHeader "get started".toList = false := by
  decide

/-- C5, amended: isCategoryHeader returns true exactly when the line contains
none of " /", "get ", "post ", "put ", "delete ", is at most 50 bytes long
and, if it contains a space, at most 30 bytes long.  A line that contains a
lower-case method word followed by a space is rejected whatever follows the
space. -/
theorem isCategoryHeader_iff (line : Str) :
    isCategoryHeader line = true ↔
      Contains line " /".toList = false ∧ Contains line "get ".toList = false ∧
        Contains line "post ".toList = false ∧ Contains line "put ".toList = false ∧
        Contains line "delete ".toList = false ∧ len line ≤ 50 ∧
        (Contains line " ".toList = true → len line ≤ 30) := by
  unfold isCategoryHeader
  by_cases h1 : Contains line " /".toList = true <;>
    by_cases h2 : Contains line "get ".toList = true <;>
    by_cases h3 : Contains line "post ".toList = true <;>
    by_cases h4 : Contains line "put ".toList = true <;>
    by_cases h5 : Contains line "delete ".toList = true <;>
    by_cases h6 : Contains line " ".toList = true <;>
    by_cases h7 : len line ≤ 50 <;>
    by_cases h8 : len line ≤ 30 <;>
    simp_all

/-- C6: on ASCII lines the two thresholds are applied literally: longer than
50 is rejected; with a space and longer than 30 is rejected; a line with none
of " /", "get ", "post ", "put ", "delete " is accepted when it has no space
and length at most 50, or a space and length at most 30.  Lengths 50 and 30
are accepted, 51 and 31 rejected. -/
theorem isCategoryHeader_thresholds (line : Str) (hascii : ∀ c ∈ line, c.toNat < 128) :
    (50 < line.length → isCategoryHeader line = false) ∧
      (Contains line " ".toList = true → 30 < line.length →
        isCategoryHeader line = false) ∧
      (Contains line " /".toList = false → Contains line "get ".toList = false →
        Contains line "post ".toList = false → Contains line "put ".toList = false →
        Contains line "delete ".toList = false →
        ((Contains line " ".toList = false ∧ line.length ≤ 50) ∨
          (Contains line " ".toList = true ∧ line.length ≤ 30)) →
        isCategoryHeader line = true) ∧
      isCategoryHeader (List.replicate 50 'x') = true ∧
      isCategoryHeader (List.replicate 51 'x') = false ∧
      isCategoryHeader ('x' :: ' ' :: List.replicate 28 'x') = true ∧
      isCategoryHeader ('x' :: ' ' :: List.replicate 29 'x') = false := by
  have hlen := len_ascii line hascii
  refine ⟨?_, ?_, ?_, by decide, by decide, by decide, by decide⟩
  · intro h
    cases hh : isCategoryHeader line
    · rfl
    · have := (isCategoryHeader_iff line).1 hh
      omega
  · intro hsp h
    cases hh : isCategoryHeader line
    · rfl
    · have := ((isCategoryHeader_iff line).1 hh).2.2.2.2.2.2 hsp
      omega
  · intro h1 h2 h3 h4 h5 h
    refine (isCategoryHeader_iff line).2 ⟨h1, h2, h3, h4, h5, ?_, ?_⟩
    · rcases h with h | h
      · omega
      · omega
    · intro hsp
      rcases h with h | h
      · rw [h.1] at hsp; cases hsp
      · omega

/-- C6 at the line "Access Lists". -/
theorem isCategoryHeader_thresholds_witness :
    (∀ c ∈ "Access Lists".toList, c.toNat < 128) ∧
      isCategoryHeader "Access Lists".toList = true :=
  ⟨by decide,
    (isCategoryHeader_thresholds "Access Lists".toList (by decide)).2.2.1
      (by decide) (by decide) (by decide) (by decide) (by decide)
      (Or.inr ⟨by decide, by decide⟩)⟩

/-! ## Placeholder extraction -/

theorem drop_length_takeWhile (p : Char → Bool) (l : Str) :
    l.drop (l.takeWhile p).length = l.dropWhile p := by
  induction l with
  | nil => rfl
  | cons a l ih =>
    by_cases h : p a = true
    · simp [List.takeWhile_cons, List.dropWhile_cons, h, ih]
    · simp [List.takeWhile_cons, List.dropWhile_cons, h]

theorem matchParamAt_some {s name : Str} (h : matchParamAt s = some name) :
    name ≠ [] ∧ '}' ∉ name ∧ ∃ rest, s = '{' :: name ++ '}' :: rest := by
  cases s with
  | nil => simp [matchParamAt] at h
  | cons c r =>
    simp only [matchParamAt] at h
    split_ifs at h with hc
    obtain ⟨hc1, hc2, hc3⟩ := hc
    have hn : r.takeWhile (fun x => x ≠ '}') = name := by simpa using h
    subst hc1
    refine ⟨by rw [← hn]; exact hc2, ?_, ?_⟩
    · intro hmem
      rw [← hn] at hmem
      have := List.mem_takeWhile_imp hmem
      simp at this
    · have hsplit := List.takeWhile_append_dropWhile (fun x => decide (x ≠ '}')) r
      rw [← drop_length_takeWhile, hn] at hsplit
      rw [hn] at hc3
      cases hd : r.drop name.length with
      | nil => rw [hd] at hc3; simp at hc3
      | cons d rest =>
        rw [hd] at hc3 hsplit
        simp only [List.head?_cons, Option.some.injEq] at hc3
        exact ⟨rest, by rw [← hsplit, hc3]; rfl⟩

theorem takeWhile_append_stop (p : Char → Bool) (a b : Str) (d : Char)
    (ha : ∀ c ∈ a, p c = true) (hd : p d = false) :
    (a ++ d :: b).takeWhile p = a := by
  induction a with
  | nil => simp [List.takeWhile_cons, hd]
  | cons c a ih =>
    have hc := ha c (List.mem_cons_self _ _)
    simp [List.takeWhile_cons, hc, ih fun x hx => ha x (List.mem_cons_of_mem _ hx)]

theorem matchParamAt_placeholder (name rest : Str) (hne : name ≠ []) (hclose : '}' ∉ name) :
    matchParamAt ('{' :: name ++ '}' :: rest) = some name := by
  have htw : (name ++ '}' :: rest).takeWhile (fun x => decide (x ≠ '}')) = name := by
    apply takeWhile_append_stop
    · intro c hc
      have : c ≠ '}' := fun h => hclose (h ▸ hc)
      simp [this]
    · simp
  simp only [matchParamAt, List.cons_append]
  rw [htw]
  simp [hne]

theorem findAllParams_skip (k : Nat) (s : Str) :
    findAllParams k s = findAllParams 0 (s.drop k) := by
  induction s generalizing k with
  | nil => simp [findAllParams]
  | cons c s ih =>
    cases k with
    | zero => rfl
    | succ k => simp only [findAllParams, List.drop_succ_cons]; exact ih k

theorem findAllParams_none {c : Char} {s : Str} (h : matchParamAt (c :: s) = none) :
    findAllParams 0 (c :: s) = findAllParams 0 s := by
  simp only [findAllParams, h]

theorem findAllParams_some {c : Char} {s name : Str} (h : matchParamAt (c :: s) = some name) :
    findAllParams 0 (c :: s) = name :: findAllParams (name.length + 1) s := by
  simp only [findAllParams, h]

theorem findAllParams_text (pre s : Str) (hpre : '{' ∉ pre) :
    findAllParams 0 (pre ++ s) = findAllParams 0 s := by
  induction pre with
  | nil => rfl
  | cons c pre ih =>
    have hc : c ≠ '{' := fun h => hpre (h ▸ List.mem_cons_self _ _)
    have hm : matchParamAt (c :: (pre ++ s)) = none := by simp [matchParamAt, hc]
    rw [List.cons_append, findAllParams_none hm]
    exact ih fun h => hpre (List.mem_cons_of_mem _ h)

theorem findAllParams_placeholder (name rest : Str) (hne : name ≠ []) (hclose : '}' ∉ name) :
    findAllParams 0 ('{' :: name ++ '}' :: rest) = name :: findAllParams 0 rest := by
  have hm := matchParamAt_placeholder name rest hne hclose
  rw [List.cons_append] at hm ⊢
  rw [findAllParams_some hm, findAllParams_skip]
  simp

theorem findAllParams_sound (s : Str) (k : Nat) :
    ∀ n ∈ findAllParams k s, n ≠ [] ∧ '}' ∉ n ∧ ('{' :: n ++ ['}']) <:+: s := by
  induction s generalizing k with
  | nil => simp [findAllParams]
  | cons c s ih =>
    intro n hn
    cases k with
    | succ k =>
      simp only [findAllParams] at hn
      obtain ⟨h1, h2, h3⟩ := ih k n hn
      exact ⟨h1, h2, List.infix_cons h3⟩
    | zero =>
      simp only [findAllParams] at hn
      cases hm : matchParamAt (c :: s) with
      | none =>
        rw [hm] at hn
        obtain ⟨h1, h2, h3⟩ := ih 0 n hn
        exact ⟨h1, h2, List.infix_cons h3⟩
      | some name =>
        rw [hm] at hn
        rcases List.mem_cons.1 hn with rfl | hn
        · obtain ⟨h1, h2, rest, h3⟩ := matchParamAt_some hm
          refine ⟨h1, h2, ?_⟩
          rw [h3]
          exact ⟨[], rest, by simp⟩
        · obtain ⟨h1, h2, h3⟩ := ih _ n hn
          exact ⟨h1, h2, List.infix_cons h3⟩

/-- C10: extractParameters returns, from left to right, the names between
braces: "/a/{id}/b/{name}" gives id and name; a path written as
text without an opening brace and placeholders with non-empty names free of
closing braces gives those names in order; every returned name is non-empty,
has no closing brace and stands between braces in the path; and a path
without a placeholder gives the empty list. -/
theorem extractParameters_spec (path : Str) :
    extractParameters "/a/{id}/b/{name}".toList = ["id".toList, "name".toList] ∧
      (∀ (segs : List (Str × Str)) (tail : Str),
        (∀ seg ∈ segs, '{' ∉ seg.1 ∧ seg.2 ≠ [] ∧ '}' ∉ seg.2) → '{' ∉ tail →
        extractParameters (withPlaceholders segs tail) = segs.map Prod.snd) ∧
      (∀ n ∈ extractParameters path,
        n ≠ [] ∧ '}' ∉ n ∧ ('{' :: n ++ ['}']) <:+: path) ∧
      ((¬ ∃ n : Str, n ≠ [] ∧ '}' ∉ n ∧ ('{' :: n ++ ['}']) <:+: path) →
        extractParameters path = []) := by
  refine ⟨by decide, ?_, findAllParams_sound path 0, ?_⟩
  · intro segs tail hsegs htail
    induction segs with
    | nil =>
      have := findAllParams_text tail [] htail
      simpa [extractParameters, withPlaceholders, findAllParams] using this
    | cons seg segs ih =>
      have hseg := hsegs seg (List.mem_cons_self _ _)
      have ih := ih fun x hx => hsegs x (List.mem_cons_of_mem _ hx)
      have e : withPlaceholders (seg :: segs) tail =
          seg.1 ++ ('{' :: seg.2 ++ '}' :: withPlaceholders segs tail) := by
        simp [withPlaceholders]
      simp only [extractParameters, List.map_cons] at ih ⊢
      rw [e, findAllParams_text _ _ hseg.1, findAllParams_placeholder _ _ hseg.2.1 hseg.2.2, ih]
  · intro hnone
    cases h : extractParameters path with
    | nil => rfl
    | cons n ns =>
      exfalso
      have hn : n ∈ extractParameters path := by rw [h]; exact List.mem_cons_self _ _
      exact hnone ⟨n, findAllParams_sound path 0 n hn⟩

/-! ## Search -/

theorem ToLower_ascii (U : RuneTables) (s : Str) (h : ∀ c ∈ s, c.toNat < 128) :
    ToLower U s = s.map asciiLower := by
  apply List.map_congr_left
  intro c hc
  exact U.toLower_ascii c (h c hc)

theorem ToUpper_ascii (U : RuneTables) (s : Str) (h : ∀ c ∈ s, c.toNat < 128) :
    ToUpper U s = s.map asciiUpper := by
  apply List.map_congr_left
  intro c hc
  exact U.toUpper_ascii c (h c hc)

theorem searchIn_eq (U : RuneTables) (m : DefMap) (query : Str) (acc : List APIDefinition) :
    searchIn U m query acc =
      acc ++ (m.map Prod.snd).filter fun d => matchesQuery U d query := by
  induction m generalizing acc with
  | nil => simp [searchIn]
  | cons e m ih =>
    simp only [searchIn, List.foldl_cons, List.map_cons] at ih ⊢
    rw [ih]
    by_cases h : matchesQuery U e.2 query = true
    · simp [h, List.filter_cons]
    · simp [h, List.filter_cons]

/-- The definitions of the four mappings of a parser, in the order
SearchEndpoints visits the mappings. -/
theorem SearchEndpoints_eq_filter (U : RuneTables) (p : APIParser) (query : Str) :
    SearchEndpoints U p query =
      ((p.catalog.EAPI ++ p.catalog.CloudVision ++ p.catalog.EOSREST ++
        p.catalog.Telemetry).map Prod.snd).filter
        fun d => matchesQuery U d (ToLower U query) := by
  simp only [SearchEndpoints, searchIn_eq, List.map_append, List.filter_append, List.nil_append,
    List.append_assoc]

/-- C8: SearchEndpoints returns exactly the definitions of the four mappings
for which the lower-cased query is a substring of the lower-cased text
"description path category method tags", the tags joined by spaces.  A
definition with method GET and path "/api/config/running" is returned for
every query whose lower-casing is "config" (such as "config", "CONFIG",
"Config"), and when no definition matches the result is empty. -/
theorem SearchEndpoints_spec (U : RuneTables) (p : APIParser) (query : Str) :
    SearchEndpoints U p query =
        ((p.catalog.EAPI ++ p.catalog.CloudVision ++ p.catalog.EOSREST ++
          p.catalog.Telemetry).map Prod.snd).filter
          (fun d => Contains
            (ToLower U (d.Description ++ " ".toList ++ d.Path ++ " ".toList ++ d.Category ++
              " ".toList ++ d.Method ++ " ".toList ++ Join d.Tags " ".toList))
            (ToLower U query)) ∧
      (∀ d, d ∈ SearchEndpoints U p query ↔
        (d ∈ (p.catalog.EAPI ++ p.catalog.CloudVision ++ p.catalog.EOSREST ++
            p.catalog.Telemetry).map Prod.snd ∧
          ToLower U query <:+:
            ToLower U (d.Description ++ " ".toList ++ d.Path ++ " ".toList ++ d.Category ++
              " ".toList ++ d.Method ++ " ".toList ++ Join d.Tags " ".toList))) ∧
      (∀ d, d ∈ (p.catalog.EAPI ++ p.catalog.CloudVision ++ p.catalog.EOSREST ++
            p.catalog.Telemetry).map Prod.snd →
        d.Method = "GET".toList → d.Path = "/api/config/running".toList →
        ToLower U query = "config".toList → d ∈ SearchEndpoints U p query) ∧
      (ToLower U "config".toList = "config".toList ∧
        ToLower U "CONFIG".toList = "config".toList ∧
        ToLower U "Config".toList = "config".toList) ∧
      ((∀ d ∈ (p.catalog.EAPI ++ p.catalog.CloudVision ++ p.catalog.EOSREST ++
            p.catalog.Telemetry).map Prod.snd,
          ¬ ToLower U query <:+:
            ToLower U (d.Description ++ " ".toList ++ d.Path ++ " ".toList ++ d.Category ++
              " ".toList ++ d.Method ++ " ".toList ++ Join d.Tags " ".toList)) →
        SearchEndpoints U p query = []) := by
  have hmem : ∀ d, d ∈ SearchEndpoints U p query ↔
      (d ∈ (p.catalog.EAPI ++ p.catalog.CloudVision ++ p.catalog.EOSREST ++
          p.catalog.Telemetry).map Prod.snd ∧
        ToLower U query <:+: ToLower U (searchText d)) := by
    intro d
    rw [SearchEndpoints_eq_filter, List.mem_filter, matchesQuery, Contains_iff]
  refine ⟨SearchEndpoints_eq_filter U p query, hmem, ?_, ⟨?_, ?_, ?_⟩, ?_⟩
  · intro d hd _ hpath hq
    refine (hmem d).2 ⟨hd, ?_⟩
    rw [hq]
    have hp : ToLower U d.Path = "/api/config/running".toList := by
      rw [hpath, ToLower_ascii U _ (by decide)]
      decide
    have h1 : "config".toList <:+: ToLower U d.Path := by
      rw [hp]
      exact (Contains_iff _ _).1 (by decide)
    refine h1.trans ?_
    simp only [searchText, ToLower, List.map_append]
    exact ⟨List.map U.toLower d.Description ++ List.map U.toLower " ".toList,
      List.map U.toLower " ".toList ++ List.map U.toLower d.Category ++
        List.map U.toLower " ".toList ++ List.map U.toLower d.Method ++
        List.map U.toLower " ".toList ++ List.map U.toLower (Join d.Tags " ".toList),
      by simp only [List.append_assoc]⟩
  · rw [ToLower_ascii U _ (by decide)]; decide
  · rw [ToLower_ascii U _ (by decide)]; decide
  · rw [ToLower_ascii U _ (by decide)]; decide
  · intro hnone
    rw [SearchEndpoints_eq_filter, List.filter_eq_nil_iff]
    intro d hd
    have := hnone d hd
    rw [← Contains_iff] at this
    simpa [matchesQuery, searchText] using this

/-! ## Endpoint lines -/

theorem isSpace_of_reSpace {c : Char} (h : reSpace c = true) : isSpace c = true := by
  simp only [reSpace, Bool.or_eq_true, decide_eq_true_eq] at h
  rcases h with (((h | h) | h) | h) | h <;> subst h <;> decide

theorem reSpace_false_of_isSpace {c : Char} (h : isSpace c = false) : reSpace c = false := by
  cases hc : reSpace c
  · rfl
  · rw [isSpace_of_reSpace hc] at h; cases h

theorem TrimSpace_eq_self (s : Str) (hhead : ∀ c ∈ s.head?, isSpace c = false)
    (hlast : ∀ c ∈ s.getLast?, isSpace c = false) : TrimSpace s = s := by
  have h1 : s.dropWhile isSpace = s := by
    cases s with
    | nil => rfl
    | cons c s =>
      have := hhead c (by simp)
      simp [List.dropWhile_cons, this]
  unfold TrimSpace
  rw [h1, List.rdropWhile_eq_self_iff]
  intro hl
  have := hlast (s.getLast hl) (by simp [List.getLast?_eq_getLast _ hl])
  simp [this]

theorem splitLines_single (s : Str) (h : '\n' ∉ s) : splitLines s = [s] := by
  induction s with
  | nil => rfl
  | cons c s ih =>
    have hc : c ≠ '\n' := fun e => h (e ▸ List.mem_cons_self _ _)
    simp [splitLines, hc, ih fun hmem => h (List.mem_cons_of_mem _ hmem)]

theorem takeWhile_all (p : Char → Bool) (s : Str) (h : ∀ c ∈ s, p c = true) :
    s.takeWhile p = s := by
  induction s with
  | nil => rfl
  | cons c s ih =>
    simp [List.takeWhile_cons, h c (List.mem_cons_self _ _),
      ih fun x hx => h x (List.mem_cons_of_mem _ hx)]

theorem matchEndpointAt_line (m b : Str) (hm : m ∈ methodWords) (hb : b ≠ [])
    (hws : ∀ c ∈ b, reSpace c = false) :
    matchEndpointAt (m ++ ' ' :: '/' :: b) = some (m, '/' :: b) := by
  have htw : b.takeWhile (fun c => !reSpace c) = b :=
    takeWhile_all _ b fun c hc => by simp [hws c hc]
  have hsp : reSpace ' ' = true := by decide
  have hsl : reSpace '/' = false := by decide
  simp only [methodWords, List.mem_cons, List.mem_singleton, List.not_mem_nil, or_false] at hm
  rcases hm with rfl | rfl | rfl | rfl <;>
    simp [matchEndpointAt, methodWords, HasPrefix, List.takeWhile_cons, List.dropWhile_cons,
      hsp, hsl, htw, hb]

theorem findEndpointMatch_of_matchAt {s : Str} {r : Str × Str}
    (h : matchEndpointAt s = some r) : findEndpointMatch s = some r := by
  cases s with
  | nil => simp [matchEndpointAt, methodWords, HasPrefix] at h
  | cons c s => simp [findEndpointMatch, h]

theorem mapGet_mapSet_self (m : DefMap) (k : Str) (v : APIDefinition) :
    mapGet (mapSet m k v) k = some v := by
  induction m with
  | nil => simp [mapGet, mapSet]
  | cons e m ih =>
    by_cases h : e.1 = k
    · simp [mapGet, mapSet, h]
    · simp only [mapGet, mapSet, h, if_false] at ih ⊢
      rw [List.find?_cons_of_neg _ (by simpa using h)]
      exact ih

theorem determineService_mem (path : Str) :
    determineService path ∈
      ["cloudvision".toList, "telemetry".toList, "eapi".toList, "eos_rest".toList] := by
  unfold determineService
  split_ifs <;> simp

theorem storeEndpoint_lookup (c : APICatalog) (service key : Str) (d : APIDefinition)
    (h : service ∈ ["cloudvision".toList, "telemetry".toList, "eapi".toList, "eos_rest".toList]) :
    mapGet (GetEndpointsByService { catalog := storeEndpoint c service key d } service) key
      = some d := by
  simp only [List.mem_cons, List.mem_singleton, List.not_mem_nil, or_false] at h
  rcases h with rfl | rfl | rfl | rfl <;>
    simp [GetEndpointsByService, storeEndpoint, mapGet_mapSet_self]

theorem parseLine_endpoint (U : RuneTables) (st : ParseState) (raw : Str) (d : APIDefinition)
    (hskip : isSkipped (TrimSpace raw) = false)
    (hsl : Contains (TrimSpace raw) " /".toList = true)
    (hd : parseEndpoint U (TrimSpace raw) st.currentCategory = some d) :
    parseLine U st raw =
      { st with
        parser :=
          { catalog :=
              storeEndpoint st.parser.catalog (determineService d.Path)
                (catalogKey (determineService d.Path) st.currentCategory d.Method)
                { d with Service := determineService d.Path, Category := st.currentCategory } } } := by
  have hhdr : isCategoryHeader (TrimSpace raw) = false := by
    cases h : isCategoryHeader (TrimSpace raw)
    · rfl
    · have := ((isCategoryHeader_iff _).1 h).1
      rw [hsl] at this; cases this
  simp only [parseLine, hskip, hhdr, hsl, hd, Bool.false_eq_true, if_false, if_true]

theorem parseEndpoint_none (U : RuneTables) (line category : Str)
    (h : findEndpointMatch line = none) : parseEndpoint U line category = none := by
  simp [parseEndpoint, h]

theorem parseLine_no_match (U : RuneTables) (st : ParseState) (raw : Str)
    (hhdr : isCategoryHeader (TrimSpace raw) = false)
    (hnone : findEndpointMatch (TrimSpace raw) = none) : parseLine U st raw = st := by
  have hd := parseEndpoint_none U (TrimSpace raw) st.currentCategory hnone
  simp only [parseLine, hhdr, hd, Bool.false_eq_true, if_false]
  split_ifs <;> rfl

theorem parseEndpoint_of_match (U : RuneTables) (line category m path : Str)
    (h : findEndpointMatch line = some (m, path)) :
    ∃ d, parseEndpoint U line category = some d ∧ d.Method = ToUpper U m ∧ d.Path = path ∧
      d.Category = category ∧ d.Params = extractParameters path ∧
      d.Tags = generateTags U category path (ToUpper U m) ∧
      d.Description = generateDescription U category path (ToUpper U m) ∧
      d.ID = category ++ "_".toList ++ ToUpper U m ++ "_".toList ++ ReplaceAll path '/' '_' := by
  simp [parseEndpoint, h]

/-- C1, as stated, fails: the line "GET /api/config/running", with the method
in upper case, gives no definition and leaves the parser as it was; so does
the line "get /", whose path is the single character "/". -/
theorem parseEndpoint_upper_case_dropped :
    (¬ ∃ (U : RuneTables) (category : Str),
        parseEndpoint U "GET /api/config/running".toList category ≠ none) ∧
      (¬ ∃ (U : RuneTables) (p : APIParser),
        (parseContent U p "GET /api/config/running".toList).1 ≠ p) ∧
      (¬ ∃ (U : RuneTables) (category : Str),
        parseEndpoint U "get /".toList category ≠ none) := by
  have h1 : findEndpointMatch "GET /api/config/running".toList = none := by decide
  have h2 : findEndpointMatch "get /".toList = none := by decide
  refine ⟨?_, ?_, ?_⟩
  · rintro ⟨U, category, h⟩
    exact h (parseEndpoint_none U _ _ h1)
  · rintro ⟨U, p, h⟩
    apply h
    have hs : splitLines "GET /api/config/running".toList = ["GET /api/config/running".toList] := by
      decide
    have ht : TrimSpace "GET /api/config/running".toList = "GET /api/config/running".toList := by
      decide
    simp only [parseContent, parseLines, hs, List.foldl_cons, List.foldl_nil]
    rw [parseLine_no_match U _ _ (by rw [ht]; decide) (by rw [ht]; exact h1)]
  · rintro ⟨U, category, h⟩
    exact h (parseEndpoint_none U _ _ h2)

theorem methodWord_facts {m : Str} (hm : m ∈ methodWords) :
    (∀ c ∈ m, c.toNat < 128 ∧ isSpace c = false) ∧ m ≠ [] ∧
      (∀ t : Str, isSkipped (m ++ t) = false) := by
  simp only [methodWords, List.mem_cons, List.mem_singleton, List.not_mem_nil, or_false] at hm
  rcases hm with rfl | rfl | rfl | rfl <;>
    exact ⟨by decide, by decide, fun t => by simp [isSkipped, HasPrefix, List.isPrefixOf]⟩

theorem lower_case_line_facts (m b : Str) (hm : m ∈ methodWords) (hb : b ≠ [])
    (hws : ∀ c ∈ b, isSpace c = false) :
    TrimSpace (m ++ ' ' :: '/' :: b) = m ++ ' ' :: '/' :: b ∧
      isSkipped (m ++ ' ' :: '/' :: b) = false ∧
      Contains (m ++ ' ' :: '/' :: b) " /".toList = true ∧
      findEndpointMatch (m ++ ' ' :: '/' :: b) = some (m, '/' :: b) ∧
      splitLines (m ++ ' ' :: '/' :: b) = [m ++ ' ' :: '/' :: b] := by
  obtain ⟨hm1, hm2, hm3⟩ := methodWord_facts hm
  refine ⟨?_, hm3 _, ?_, ?_, ?_⟩
  · apply TrimSpace_eq_self
    · intro c hc
      cases m with
      | nil => exact absurd rfl hm2
      | cons x m =>
        simp only [List.cons_append, List.head?_cons, Option.mem_def, Option.some.injEq] at hc
        exact hc ▸ (hm1 x (List.mem_cons_self _ _)).2
    · intro c hc
      have e : m ++ ' ' :: '/' :: b = (m ++ [' ', '/']) ++ b := by simp
      rw [e, List.getLast?_append_of_ne_nil _ hb] at hc
      exact hws c (List.mem_of_mem_getLast? hc)
  · have := Contains_mid m b " /".toList
    simpa using this
  · exact findEndpointMatch_of_matchAt
      (matchEndpointAt_line m b hm hb fun c hc => reSpace_false_of_isSpace (hws c hc))
  · apply splitLines_single
    intro hmem
    have hnl : isSpace '\n' = true := by decide
    simp only [List.mem_append, List.mem_cons] at hmem
    rcases hmem with h | h | h | h
    · have := (hm1 _ h).2; rw [hnl] at this; cases this
    · cases h
    · cases h
    · have := hws _ h; rw [hnl] at this; cases this

/-- C1, amended: for every line made of a lower-case method word (get, post,
put, delete), one space and a path that is "/" followed by at least one
character, none of them white space, parseEndpoint returns a definition whose
Method is the upper-cased word and whose Path is that path; the loop of
parseContent stores it, with its service and the current category, under its
composite key in the mapping of its service, and parseContent on the
one-line document does so and returns no error. -/
theorem parseEndpoint_lower_case_line (U : RuneTables) (m b : Str) (hm : m ∈ methodWords)
    (hb : b ≠ []) (hws : ∀ c ∈ b, isSpace c = false) :
    (∀ category : Str, ∃ d,
        parseEndpoint U (m ++ ' ' :: '/' :: b) category = some d ∧
          d.Method = ToUpper U m ∧ d.Method = m.map asciiUpper ∧ d.Path = '/' :: b) ∧
      (∀ st : ParseState, ∃ d,
        parseEndpoint U (m ++ ' ' :: '/' :: b) st.currentCategory = some d ∧
          mapGet
              (GetEndpointsByService (parseLine U st (m ++ ' ' :: '/' :: b)).parser
                (determineService ('/' :: b)))
              (catalogKey (determineService ('/' :: b)) st.currentCategory (ToUpper U m)) =
            some { d with
              Service := determineService ('/' :: b), Category := st.currentCategory }) ∧
      (∀ p : APIParser, ∃ d,
        parseEndpoint U (m ++ ' ' :: '/' :: b) [] = some d ∧
          (parseContent U p (m ++ ' ' :: '/' :: b)).2 = none ∧
          mapGet
              (GetEndpointsByService (parseContent U p (m ++ ' ' :: '/' :: b)).1
                (determineService ('/' :: b)))
              (catalogKey (determineService ('/' :: b)) [] (ToUpper U m)) =
            some { d with Service := determineService ('/' :: b), Category := [] }) := by
  obtain ⟨htrim, hskip, hsl, hmatch, hsplit⟩ := lower_case_line_facts m b hm hb hws
  have hstore : ∀ st : ParseState, ∃ d,
      parseEndpoint U (m ++ ' ' :: '/' :: b) st.currentCategory = some d ∧
        mapGet
            (GetEndpointsByService (parseLine U st (m ++ ' ' :: '/' :: b)).parser
              (determineService ('/' :: b)))
            (catalogKey (determineService ('/' :: b)) st.currentCategory (ToUpper U m)) =
          some { d with
            Service := determineService ('/' :: b), Category := st.currentCategory } := by
    intro st
    obtain ⟨d, hd, hmeth, hpath, -⟩ :=
      parseEndpoint_of_match U _ st.currentCategory m ('/' :: b) hmatch
    refine ⟨d, hd, ?_⟩
    rw [parseLine_endpoint U st _ d (by rw [htrim]; exact hskip) (by rw [htrim]; exact hsl)
      (by rw [htrim]; exact hd), hpath, hmeth]
    exact storeEndpoint_lookup _ _ _ _ (determineService_mem _)
  refine ⟨?_, hstore, ?_⟩
  · intro category
    obtain ⟨d, hd, hmeth, hpath, -⟩ :=
      parseEndpoint_of_match U _ category m ('/' :: b) hmatch
    refine ⟨d, hd, hmeth, ?_, hpath⟩
    rw [hmeth]
    exact ToUpper_ascii U m fun c hc => ((methodWord_facts hm).1 c hc).1
  · intro p
    obtain ⟨d, hd, hget⟩ := hstore { currentCategory := [], parser := p }
    refine ⟨d, hd, rfl, ?_⟩
    simp only [parseContent, parseLines, hsplit, List.foldl_cons, List.foldl_nil]
    exact hget

/-- C1, amended, at the line "get /api/config/running". -/
theorem parseEndpoint_lower_case_line_witness :
    (∃ d, parseEndpoint asciiTables "get /api/config/running".toList [] = some d ∧
        d.Method = "GET".toList ∧ d.Path = "/api/config/running".toList) ∧
      mapGet
          (parseContent asciiTables (NewAPIParser 0)
            "get /api/config/running".toList).1.catalog.CloudVision
          "cloudvision__GET".toList ≠ none := by
  have h := parseEndpoint_lower_case_line asciiTables "get".toList "api/config/running".toList
    (by decide) (by decide) (by decide)
  refine ⟨?_, by decide⟩
  obtain ⟨d, hd, -, hmeth, hpath⟩ := h.1 []
  exact ⟨d, hd, hmeth, hpath⟩

/-! ## The loop of parseContent -/

theorem matchEndpointAt_some {s m path : Str} (h : matchEndpointAt s = some (m, path)) :
    m ∈ methodWords ∧ ∃ b, path = '/' :: b ∧ b ≠ [] ∧ ∀ c ∈ b, reSpace c = false := by
  unfold matchEndpointAt at h
  split at h
  · cases h
  · rename_i w hw
    simp only at h
    split_ifs at h with hc
    simp only [Option.some.injEq, Prod.mk.injEq] at h
    obtain ⟨rfl, rfl⟩ := h
    refine ⟨List.mem_of_find?_eq_some hw, _, rfl, hc.2.2, ?_⟩
    intro c hc'
    have := List.mem_takeWhile_imp hc'
    simpa using this

theorem findEndpointMatch_some {s m path : Str} (h : findEndpointMatch s = some (m, path)) :
    m ∈ methodWords ∧ ∃ b, path = '/' :: b ∧ b ≠ [] ∧ ∀ c ∈ b, reSpace c = false := by
  induction s with
  | nil => simp [findEndpointMatch] at h
  | cons c s ih =>
    simp only [findEndpointMatch] at h
    cases hm : matchEndpointAt (c :: s) with
    | none => rw [hm] at h; exact ih h
    | some r =>
      rw [hm] at h
      simp only [Option.some.injEq] at h
      subst h
      exact matchEndpointAt_some hm

theorem ToUpper_methodWord (U : RuneTables) {m : Str} (hm : m ∈ methodWords) :
    ToUpper U m ∈ upperMethods := by
  rw [ToUpper_ascii U m fun c hc => ((methodWord_facts hm).1 c hc).1]
  simp only [methodWords, List.mem_cons, List.mem_singleton, List.not_mem_nil, or_false] at hm
  rcases hm with rfl | rfl | rfl | rfl <;> decide

theorem lineDefinition_some {U : RuneTables} {category raw : Str} {d : APIDefinition}
    (h : lineDefinition U category raw = some d) :
    isHeaderLine raw = false ∧ isSkipped (TrimSpace raw) = false ∧
      Contains (TrimSpace raw) " /".toList = true ∧
      (∃ e, parseEndpoint U (TrimSpace raw) category = some e ∧
        d = { e with Service := determineService e.Path, Category := category }) ∧
      d.Service = determineService d.Path ∧ d.Category = category ∧
      d.Method ∈ upperMethods ∧
      (∃ b, d.Path = '/' :: b ∧ b ≠ [] ∧ ∀ c ∈ b, reSpace c = false) := by
  unfold lineDefinition at h
  simp only at h
  split_ifs at h with hc
  simp only [Bool.or_eq_true, Bool.not_eq_true', not_or, Bool.not_eq_true,
    Bool.not_eq_false] at hc
  obtain ⟨⟨hskip, hhdr⟩, hsl⟩ := hc
  cases he : parseEndpoint U (TrimSpace raw) category with
  | none => rw [he] at h; cases h
  | some e =>
    rw [he] at h
    simp only [Option.map_some', Option.some.injEq] at h
    subst h
    have hfm : ∃ m path, findEndpointMatch (TrimSpace raw) = some (m, path) := by
      cases hf : findEndpointMatch (TrimSpace raw) with
      | none => rw [parseEndpoint_none U _ _ hf] at he; cases he
      | some r => exact ⟨r.1, r.2, rfl⟩
    obtain ⟨m, path, hf⟩ := hfm
    obtain ⟨hm, hpath⟩ := findEndpointMatch_some hf
    obtain ⟨e', he', hmeth, hp, -⟩ := parseEndpoint_of_match U _ category m path hf
    rw [he] at he'
    simp only [Option.some.injEq] at he'
    subst he'
    refine ⟨by simp [isHeaderLine, hhdr], hskip, hsl, ⟨e, rfl, rfl⟩, rfl, rfl, ?_, ?_⟩
    · show e.Method ∈ upperMethods
      rw [hmeth]
      exact ToUpper_methodWord U hm
    · show ∃ b, e.Path = '/' :: b ∧ _
      rw [hp]
      exact hpath

theorem parseLine_cases (U : RuneTables) (st : ParseState) (raw : Str) :
    (isHeaderLine raw = true ∧
        parseLine U st raw = { st with currentCategory := TrimSpace raw }) ∨
      (isHeaderLine raw = false ∧ lineDefinition U st.currentCategory raw = none ∧
        parseLine U st raw = st) ∨
      (isHeaderLine raw = false ∧ ∃ d, lineDefinition U st.currentCategory raw = some d ∧
        parseLine U st raw =
          { st with
            parser :=
              { catalog :=
                  storeEndpoint st.parser.catalog d.Service
                    (catalogKey d.Service d.Category d.Method) d } }) := by
  by_cases hskip : isSkipped (TrimSpace raw) = true
  · right; left
    simp [isHeaderLine, lineDefinition, parseLine, hskip]
  · by_cases hhdr : isCategoryHeader (TrimSpace raw) = true
    · left
      simp [isHeaderLine, parseLine, hskip, hhdr]
    · by_cases hsl : Contains (TrimSpace raw) " /".toList = true
      · cases he : parseEndpoint U (TrimSpace raw) st.currentCategory with
        | none =>
          right; left
          simp_all [isHeaderLine, lineDefinition, parseLine]
        | some e =>
          right; right
          simp only [Bool.not_eq_true] at hskip hhdr
          refine ⟨by simp [isHeaderLine, hhdr],
            { e with Service := determineService e.Path, Category := st.currentCategory },
            ?_, ?_⟩
          · simp only [lineDefinition, hskip, hhdr, hsl, he, Bool.or_false, Bool.not_true,
              Bool.false_eq_true, if_false, Option.map_some']
          · rw [parseLine_endpoint U st raw e hskip hsl he]
      · right; left
        simp_all [isHeaderLine, lineDefinition, parseLine]

/-! ## Determinism -/

theorem storeEndpoint_withTime (t : Int) (c : APICatalog) (service key : Str)
    (d : APIDefinition) :
    storeEndpoint { c with LastUpdated := t } service key d =
      { storeEndpoint c service key d with LastUpdated := t } := by
  unfold storeEndpoint
  split_ifs <;> rfl

theorem parseLine_withTime (U : RuneTables) (t : Int) (st : ParseState) (raw : Str) :
    parseLine U (st.withTime t) raw = (parseLine U st raw).withTime t := by
  unfold parseLine
  simp only [ParseState.withTime]
  split_ifs
  · rfl
  · rfl
  · cases parseEndpoint U (TrimSpace raw) st.currentCategory with
    | none => rfl
    | some e => simp only [storeEndpoint_withTime]
  · rfl

theorem parseLines_withTime (U : RuneTables) (t : Int) (st : ParseState) (lines : List Str) :
    parseLines U (st.withTime t) lines = (parseLines U st lines).withTime t := by
  induction lines generalizing st with
  | nil => rfl
  | cons l lines ih =>
    simp only [parseLines, List.foldl_cons] at ih ⊢
    rw [parseLine_withTime, ih]

/-- C4: for every document, parseContent on two freshly created parsers
gives catalogs with equal EAPI, CloudVision, EOSREST and Telemetry mappings
(and the same nil error); each catalog keeps the LastUpdated of its own
creation, the only field in which they can differ. -/
theorem parseContent_deterministic (U : RuneTables) (content : Str) (t1 t2 : Int) :
    (parseContent U (NewAPIParser t1) content).1.catalog.EAPI =
        (parseContent U (NewAPIParser t2) content).1.catalog.EAPI ∧
      (parseContent U (NewAPIParser t1) content).1.catalog.CloudVision =
        (parseContent U (NewAPIParser t2) content).1.catalog.CloudVision ∧
      (parseContent U (NewAPIParser t1) content).1.catalog.EOSREST =
        (parseContent U (NewAPIParser t2) content).1.catalog.EOSREST ∧
      (parseContent U (NewAPIParser t1) content).1.catalog.Telemetry =
        (parseContent U (NewAPIParser t2) content).1.catalog.Telemetry ∧
      (parseContent U (NewAPIParser t1) content).1.catalog.LastUpdated = t1 ∧
      (parseContent U (NewAPIParser t2) content).1.catalog.LastUpdated = t2 ∧
      (parseContent U (NewAPIParser t1) content).2 = none ∧
      (parseContent U (NewAPIParser t2) content).2 = none := by
  have key : ∀ t : Int,
      (parseContent U (NewAPIParser t) content).1 =
        ((parseLines U { currentCategory := [], parser := NewAPIParser 0 }
          (splitLines content)).withTime t).parser := by
    intro t
    rw [← parseLines_withTime]
    rfl
  rw [key t1, key t2]
  exact ⟨rfl, rfl, rfl, rfl, rfl, rfl, rfl, rfl⟩

/-! ## The catalog after parsing -/

theorem mem_mapSet {m : DefMap} {k : Str} {v : APIDefinition} {e : Str × APIDefinition}
    (h : e ∈ mapSet m k v) : e = (k, v) ∨ e ∈ m := by
  induction m with
  | nil => simpa [mapSet] using h
  | cons a m ih =>
    by_cases ha : a.1 = k
    · simp only [mapSet, ha, if_true, List.mem_cons] at h
      rcases h with h | h
      · exact Or.inl h
      · exact Or.inr (List.mem_cons_of_mem _ h)
    · simp only [mapSet, ha, if_false, List.mem_cons] at h
      rcases h with h | h
      · exact Or.inr (h ▸ List.mem_cons_self _ _)
      · rcases ih h with h | h
        · exact Or.inl h
        · exact Or.inr (List.mem_cons_of_mem _ h)

theorem keys_mapSet (m : DefMap) (k : Str) (v : APIDefinition) :
    (mapSet m k v).map Prod.fst =
      if k ∈ m.map Prod.fst then m.map Prod.fst else m.map Prod.fst ++ [k] := by
  induction m with
  | nil => simp [mapSet]
  | cons a m ih =>
    by_cases ha : a.1 = k
    · simp [mapSet, ha]
    · have hne : ¬ k = a.1 := fun h => ha h.symm
      simp only [mapSet, ha, if_false, List.map_cons, ih, List.mem_cons, hne, false_or]
      split_ifs <;> simp

theorem keys_nodup_mapSet {m : DefMap} (k : Str) (v : APIDefinition)
    (h : (m.map Prod.fst).Nodup) : ((mapSet m k v).map Prod.fst).Nodup := by
  rw [keys_mapSet]
  split_ifs with hk
  · exact h
  · exact List.Nodup.append h (List.nodup_singleton k) (by simpa using hk)

theorem mapGet_mapSet_ne (m : DefMap) {k k2 : Str} (v : APIDefinition) (h : k2 ≠ k) :
    mapGet (mapSet m k v) k2 = mapGet m k2 := by
  induction m with
  | nil =>
    have : ¬ k = k2 := fun e => h e.symm
    simp [mapGet, mapSet, this]
  | cons a m ih =>
    by_cases ha : a.1 = k
    · have h1 : ¬ a.1 = k2 := fun e => h (e.symm.trans ha)
      have h2 : ¬ k = k2 := fun e => h e.symm
      simp [mapGet, mapSet, ha, h1, h2, List.find?_cons]
    · by_cases hb : a.1 = k2
      · simp only [mapGet, mapSet, ha, if_false]
        rw [List.find?_cons_of_pos _ (by simpa using hb),
          List.find?_cons_of_pos _ (by simpa using hb)]
      · simp only [mapGet, mapSet, ha, if_false] at ih ⊢
        rw [List.find?_cons_of_neg _ (by simpa using hb),
          List.find?_cons_of_neg _ (by simpa using hb)]
        exact ih

theorem GetEndpointsByService_store_same (c : APICatalog) (service key : Str)
    (d : APIDefinition)
    (h : service ∈ ["cloudvision".toList, "telemetry".toList, "eapi".toList, "eos_rest".toList]) :
    GetEndpointsByService { catalog := storeEndpoint c service key d } service =
      mapSet (GetEndpointsByService { catalog := c } service) key d := by
  simp only [List.mem_cons, List.mem_singleton, List.not_mem_nil, or_false] at h
  rcases h with rfl | rfl | rfl | rfl <;> simp [GetEndpointsByService, storeEndpoint]

theorem GetEndpointsByService_store_other (c : APICatalog) (service other key : Str)
    (d : APIDefinition) (h : other ≠ service) :
    GetEndpointsByService { catalog := storeEndpoint c service key d } other =
      GetEndpointsByService { catalog := c } other := by
  unfold GetEndpointsByService storeEndpoint
  split_ifs <;> first | rfl | (exfalso; simp_all)

theorem lastHeader_snoc (done : List Str) (l : Str) :
    lastHeader (done ++ [l]) = if isHeaderLine l = true then TrimSpace l else lastHeader done := by
  by_cases h : isHeaderLine l = true
  · simp [lastHeader, List.reverse_append, List.find?_cons, h]
  · simp [lastHeader, List.reverse_append, List.find?_cons, h]

theorem parseLines_snoc (U : RuneTables) (st : ParseState) (done : List Str) (l : Str) :
    parseLines U st (done ++ [l]) = parseLine U (parseLines U st done) l := by
  simp [parseLines, List.foldl_append]

theorem ParseInv_step {U : RuneTables} {done : List Str} {st : ParseState}
    (h : ParseInv U done st) (l : Str) : ParseInv U (done ++ [l]) (parseLine U st l) := by
  obtain ⟨hcat, hmaps⟩ := h
  have hold : ∀ service key d, (key, d) ∈ GetEndpointsByService st.parser service →
      d.Service = service ∧ key = catalogKey service d.Category d.Method ∧
        ∃ pre line rest, done ++ [l] = pre ++ line :: rest ∧
          lineDefinition U (lastHeader pre) line = some d := by
    intro service key d hmem
    obtain ⟨h1, h2, pre, line, rest, h3, h4⟩ := (hmaps service).2 key d hmem
    exact ⟨h1, h2, pre, line, rest ++ [l], by rw [h3]; simp, h4⟩
  rcases parseLine_cases U st l with ⟨hh, he⟩ | ⟨hh, -, he⟩ | ⟨hh, d, hd, he⟩
  · rw [he]
    exact ⟨by rw [lastHeader_snoc, if_pos hh], fun service =>
      ⟨(hmaps service).1, hold service⟩⟩
  · rw [he]
    refine ⟨by rw [lastHeader_snoc, hcat]; simp [hh], fun service =>
      ⟨(hmaps service).1, hold service⟩⟩
  · rw [he]
    obtain ⟨-, -, -, -, hsvc, -, -, -⟩ := lineDefinition_some hd
    have hfour := determineService_mem d.Path
    rw [← hsvc] at hfour
    refine ⟨by rw [lastHeader_snoc, hcat]; simp [hh], fun service => ?_⟩
    by_cases hs : service = d.Service
    · subst hs
      show (List.map Prod.fst (GetEndpointsByService
          { catalog := storeEndpoint st.parser.catalog d.Service _ d } d.Service)).Nodup ∧ _
      rw [GetEndpointsByService_store_same _ _ _ _ hfour]
      refine ⟨keys_nodup_mapSet _ _ (hmaps d.Service).1, ?_⟩
      intro key d2 hmem
      rcases mem_mapSet hmem with heq | hmem
      · simp only [Prod.mk.injEq] at heq
        obtain ⟨rfl, rfl⟩ := heq
        exact ⟨rfl, rfl, done, l, [], rfl, by rw [← hcat]; exact hd⟩
      · exact hold _ key d2 hmem
    · show (List.map Prod.fst (GetEndpointsByService
          { catalog := storeEndpoint st.parser.catalog d.Service _ d } service)).Nodup ∧ _
      rw [GetEndpointsByService_store_other _ _ _ _ _ hs]
      exact ⟨(hmaps service).1, hold service⟩

theorem ParseInv_parseLines (U : RuneTables) (now : Int) (lines : List Str) :
    ParseInv U lines
      (parseLines U { currentCategory := [], parser := NewAPIParser now } lines) := by
  induction lines using List.reverseRecOn with
  | nil =>
    refine ⟨rfl, fun service => ?_⟩
    have : GetEndpointsByService (NewAPIParser now) service = [] := by
      unfold GetEndpointsByService NewAPIParser
      split_ifs <;> rfl
    simp [parseLines, this]
  | append_singleton done l ih =>
    rw [parseLines_snoc]
    exact ParseInv_step ih l

theorem lineDefinition_path_clean {U : RuneTables} {category raw : Str} {d : APIDefinition}
    (h : lineDefinition U category raw = some d) :
    HasPrefix d.Path "/".toList = true ∧ ∀ c ∈ d.Path, reSpace c = false := by
  obtain ⟨-, -, -, -, -, -, -, b, hb, -, hclean⟩ := lineDefinition_some h
  rw [hb]
  refine ⟨by simp [HasPrefix], ?_⟩
  intro c hc
  rcases List.mem_cons.1 hc with rfl | hc
  · decide
  · exact hclean c hc

theorem mappings_eq (p : APIParser) :
    mappings p.catalog =
      [("eapi".toList, GetEndpointsByService p "eapi".toList),
        ("cloudvision".toList, GetEndpointsByService p "cloudvision".toList),
        ("eos_rest".toList, GetEndpointsByService p "eos_rest".toList),
        ("telemetry".toList, GetEndpointsByService p "telemetry".toList)] := by
  simp [mappings, GetEndpointsByService]

/-- C7, as stated, fails at the one-line documents made of "get /api/a",
a no-break space (U+00A0) or a vertical tab (U+000B), and "b": the whole of
it after "get " is stored as the path, and the path holds a white space
character. -/
theorem parseContent_path_white_space :
    ((parseContent asciiTables (NewAPIParser 0)
          ("get /api/a".toList ++ Char.ofNat 160 :: "b".toList)).1.catalog.CloudVision).map
        (fun e => (e.1, e.2.Method, e.2.Path)) =
        [("cloudvision__GET".toList, "GET".toList,
          "/api/a".toList ++ Char.ofNat 160 :: "b".toList)] ∧
      isSpace (Char.ofNat 160) = true ∧
      ((parseContent asciiTables (NewAPIParser 0)
          ("get /api/a".toList ++ Char.ofNat 11 :: "b".toList)).1.catalog.CloudVision).map
        (fun e => (e.1, e.2.Method, e.2.Path)) =
        [("cloudvision__GET".toList, "GET".toList,
          "/api/a".toList ++ Char.ofNat 11 :: "b".toList)] ∧
      isSpace (Char.ofNat 11) = true :=
  ⟨by decide, by decide, by decide, by decide⟩

/-- C7, amended: after parseContent on a freshly created parser, every entry
of each of the four mappings has the service name of its mapping, a method
among GET, POST, PUT, DELETE, a path that starts with "/" and holds no space,
tab, line feed, form feed or carriage return (the class of white space of the
endpoint pattern; other white space can occur in a path), the most recent
category header before its line as category (empty if none), and
service_category_method as key. -/
theorem parseContent_entries (U : RuneTables) (content : Str) (now : Int)
    (sm : Str × DefMap) (e : Str × APIDefinition)
    (hsm : sm ∈ mappings (parseContent U (NewAPIParser now) content).1.catalog)
    (he : e ∈ sm.2) :
    e.2.Service = sm.1 ∧
      e.2.Method ∈ ["GET".toList, "POST".toList, "PUT".toList, "DELETE".toList] ∧
      HasPrefix e.2.Path "/".toList = true ∧ (∀ c ∈ e.2.Path, reSpace c = false) ∧
      (∃ pre line rest, splitLines content = pre ++ line :: rest ∧
        e.2.Category = lastHeader pre ∧
        lineDefinition U (lastHeader pre) line = some e.2) ∧
      e.1 = e.2.Service ++ "_".toList ++ e.2.Category ++ "_".toList ++ e.2.Method := by
  have hinv := ParseInv_parseLines U now (splitLines content)
  have hmem : e ∈ GetEndpointsByService (parseContent U (NewAPIParser now) content).1 sm.1 := by
    rw [mappings_eq] at hsm
    simp only [List.mem_cons, List.mem_singleton, List.not_mem_nil, or_false] at hsm
    rcases hsm with rfl | rfl | rfl | rfl <;> exact he
  obtain ⟨hsvc, hkey, pre, line, rest, hsplit, hdef⟩ := (hinv.2 sm.1).2 e.1 e.2 hmem
  obtain ⟨-, -, -, -, -, hcat, hmeth, -⟩ := lineDefinition_some hdef
  obtain ⟨hp1, hp2⟩ := lineDefinition_path_clean hdef
  refine ⟨hsvc, hmeth, hp1, hp2, ⟨pre, line, rest, hsplit, hcat, hdef⟩, ?_⟩
  rw [hkey, hsvc]
  rfl

/-- C7, amended, at the document "AccessLists", "get /api/acl/{id}". -/
theorem parseContent_entries_witness :
    ("cloudvision_AccessLists_GET".toList,
        ({ ID := "AccessLists_GET__api_acl_{id}".toList
           Service := "cloudvision".toList
           Method := "GET".toList
           Path := "/api/acl/{id}".toList
           Description := "GET api acl {id} for AccessLists".toList
           Params := ["id".toList]
           Category := "AccessLists".toList
           Tags := ["GET".toList, "accesslists".toList] } : APIDefinition)) ∈
        (parseContent asciiTables (NewAPIParser 0)
          "AccessLists\nget /api/acl/{id}".toList).1.catalog.CloudVision ∧
      (∃ pre line rest,
        splitLines "AccessLists\nget /api/acl/{id}".toList = pre ++ line :: rest ∧
          "AccessLists".toList = lastHeader pre ∧
          (lineDefinition asciiTables (lastHeader pre) line).map APIDefinition.Path =
            some "/api/acl/{id}".toList) :=
  have h := parseContent_entries asciiTables "AccessLists\nget /api/acl/{id}".toList 0
    ("cloudvision".toList,
      (parseContent asciiTables (NewAPIParser 0)
        "AccessLists\nget /api/acl/{id}".toList).1.catalog.CloudVision)
    ("cloudvision_AccessLists_GET".toList,
      { ID := "AccessLists_GET__api_acl_{id}".toList
        Service := "cloudvision".toList
        Method := "GET".toList
        Path := "/api/acl/{id}".toList
        Description := "GET api acl {id} for AccessLists".toList
        Params := ["id".toList]
        Category := "AccessLists".toList
        Tags := ["GET".toList, "accesslists".toList] })
    (by decide) (by decide)
  ⟨by decide, h.2.2.2.2.1.elim fun pre hpre => hpre.elim fun line hline =>
    hline.elim fun rest hrest => ⟨pre, line, rest, hrest.1, hrest.2.1, by rw [hrest.2.2]; rfl⟩⟩

/-! ## Composite keys -/

theorem catalogKey_inj {service c1 c2 m1 m2 : Str} (h1 : m1 ∈ upperMethods)
    (h2 : m2 ∈ upperMethods)
    (h : catalogKey service c1 m1 = catalogKey service c2 m2) : c1 = c2 ∧ m1 = m2 := by
  have h3 : (c1 ++ '_' :: m1).reverse = (c2 ++ '_' :: m2).reverse := by
    have : service ++ "_".toList ++ (c1 ++ '_' :: m1) =
        service ++ "_".toList ++ (c2 ++ '_' :: m2) := by
      simpa [catalogKey] using h
    rw [List.append_cancel_left this]
  simp only [upperMethods, List.mem_cons, List.mem_singleton, List.not_mem_nil, or_false]
    at h1 h2
  rcases h1 with rfl | rfl | rfl | rfl <;> rcases h2 with rfl | rfl | rfl | rfl <;>
    simp [List.reverse_append] at h3 ⊢ <;> exact h3

theorem catalogKey_service {s1 s2 c1 c2 m1 m2 : Str}
    (h1 : s1 ∈ ["cloudvision".toList, "telemetry".toList, "eapi".toList, "eos_rest".toList])
    (h2 : s2 ∈ ["cloudvision".toList, "telemetry".toList, "eapi".toList, "eos_rest".toList])
    (h : catalogKey s1 c1 m1 = catalogKey s2 c2 m2) : s1 = s2 := by
  simp only [List.mem_cons, List.mem_singleton, List.not_mem_nil, or_false] at h1 h2
  rcases h1 with rfl | rfl | rfl | rfl <;> rcases h2 with rfl | rfl | rfl | rfl <;>
    first | rfl | (exfalso; simp [catalogKey] at h)

/-! ## Colliding lines -/

theorem parseLines_append (U : RuneTables) (st : ParseState) (a b : List Str) :
    parseLines U st (a ++ b) = parseLines U (parseLines U st a) b := by
  simp [parseLines, List.foldl_append]

theorem parseLine_category (U : RuneTables) (st : ParseState) (done : List Str) (l : Str)
    (h : st.currentCategory = lastHeader done) :
    (parseLine U st l).currentCategory = lastHeader (done ++ [l]) := by
  rw [lastHeader_snoc]
  rcases parseLine_cases U st l with ⟨hh, he⟩ | ⟨hh, -, he⟩ | ⟨hh, d, -, he⟩
  · rw [he, if_pos hh]
  · rw [he, h]; simp [hh]
  · rw [he, h]; simp [hh]

theorem parseLines_keep (U : RuneTables) (service key : Str) (v : APIDefinition)
    (post : List Str) :
    ∀ (done : List Str) (st : ParseState), st.currentCategory = lastHeader done →
      mapGet (GetEndpointsByService st.parser service) key = some v →
      (∀ post1 l post2 d, post = post1 ++ l :: post2 →
        lineDefinition U (lastHeader (done ++ post1)) l = some d →
        ¬ (d.Service = service ∧ catalogKey d.Service d.Category d.Method = key)) →
      mapGet (GetEndpointsByService (parseLines U st post).parser service) key = some v := by
  induction post with
  | nil => intro done st _ hget _; exact hget
  | cons l post ih =>
    intro done st hcat hget hno
    have hstep : mapGet (GetEndpointsByService (parseLine U st l).parser service) key =
        some v := by
      rcases parseLine_cases U st l with ⟨-, he⟩ | ⟨-, -, he⟩ | ⟨-, d, hd, he⟩
      · rw [he]; exact hget
      · rw [he]; exact hget
      · rw [he]
        have hnot := hno [] l post d rfl (by rw [List.append_nil, ← hcat]; exact hd)
        obtain ⟨-, -, -, -, hsvc, -, -, -⟩ := lineDefinition_some hd
        have hfour := determineService_mem d.Path
        rw [← hsvc] at hfour
        by_cases hs : service = d.Service
        · subst hs
          show mapGet (GetEndpointsByService
            { catalog := storeEndpoint st.parser.catalog d.Service _ d } d.Service) key = _
          rw [GetEndpointsByService_store_same _ _ _ _ hfour,
            mapGet_mapSet_ne _ _ fun e => hnot ⟨rfl, e.symm⟩]
          exact hget
        · show mapGet (GetEndpointsByService
            { catalog := storeEndpoint st.parser.catalog d.Service _ d } service) key = _
          rw [GetEndpointsByService_store_other _ _ _ _ _ hs]
          exact hget
    have := ih (done ++ [l]) (parseLine U st l) (parseLine_category U st done l hcat) hstep
      (fun post1 l2 post2 d hpost hd =>
        hno (l :: post1) l2 post2 d (by rw [hpost]; rfl) (by simpa using hd))
    simpa [parseLines] using this

theorem mapGet_some_mem {m : DefMap} {k : Str} {v : APIDefinition}
    (h : mapGet m k = some v) : k ∈ m.map Prod.fst := by
  unfold mapGet at h
  cases hf : m.find? (fun e => decide (e.1 = k)) with
  | none => rw [hf] at h; cases h
  | some e =>
    have h1 := List.find?_some hf
    have h2 := List.mem_of_find?_eq_some hf
    simp only [decide_eq_true_eq] at h1
    exact List.mem_map.2 ⟨e, h2, h1⟩

theorem parseLine_store_lookup (U : RuneTables) (st : ParseState) (l : Str)
    (d : APIDefinition) (h : lineDefinition U st.currentCategory l = some d) :
    mapGet (GetEndpointsByService (parseLine U st l).parser d.Service)
      (catalogKey d.Service d.Category d.Method) = some d := by
  obtain ⟨hnh, -, -, -, hsvc, -, -, -⟩ := lineDefinition_some h
  have hfour := determineService_mem d.Path
  rw [← hsvc] at hfour
  rcases parseLine_cases U st l with ⟨hh, -⟩ | ⟨-, hn, -⟩ | ⟨-, d2, hd, hst⟩
  · rw [hnh] at hh; cases hh
  · rw [h] at hn; cases hn
  · rw [h] at hd
    simp only [Option.some.injEq] at hd
    subst hd
    rw [hst]
    exact storeEndpoint_lookup _ _ _ _ hfour

theorem filter_key_length (m : DefMap) (k : Str) (hn : (m.map Prod.fst).Nodup) :
    (m.filter fun e => decide (e.1 = k)).length = if k ∈ m.map Prod.fst then 1 else 0 := by
  induction m with
  | nil => simp
  | cons a m ih =>
    rw [List.map_cons, List.nodup_cons] at hn
    have ih := ih hn.2
    by_cases ha : a.1 = k
    · have hk : k ∉ m.map Prod.fst := ha ▸ hn.1
      rw [if_neg hk] at ih
      simp [List.filter_cons, ha, ih]
    · have hne : ¬ k = a.1 := fun e => ha e.symm
      simp only [List.filter_cons, ha, decide_False, Bool.false_eq_true, if_false,
        List.map_cons, List.mem_cons, hne, false_or]
      exact ih

theorem count_key_mapping (U : RuneTables) (lines : List Str) (st : ParseState)
    (hinv : ParseInv U lines st) (service other category method : Str) (v : APIDefinition)
    (hget : mapGet (GetEndpointsByService st.parser service)
      (catalogKey service category method) = some v)
    (hs : service ∈
      ["cloudvision".toList, "telemetry".toList, "eapi".toList, "eos_rest".toList])
    (ho : other ∈
      ["cloudvision".toList, "telemetry".toList, "eapi".toList, "eos_rest".toList]) :
    ((GetEndpointsByService st.parser other).filter fun e =>
        decide (e.1 = catalogKey service category method)).length =
      if other = service then 1 else 0 := by
  rw [filter_key_length _ _ (hinv.2 other).1]
  split_ifs with h1 h2 h2
  · rfl
  · exfalso
    obtain ⟨e, he, hk⟩ := List.mem_map.1 h1
    obtain ⟨-, hkey, -⟩ := (hinv.2 other).2 e.1 e.2 he
    rw [hkey] at hk
    exact h2 (catalogKey_service ho hs hk)
  · subst h2
    exact absurd (mapGet_some_mem hget) h1
  · rfl

/-- C3: when a document holds two endpoint lines whose definitions share
service, category and method, and no later line gives a definition with that
service, category and method, the catalog produced by parseContent on a fresh
parser holds under that composite key exactly one definition, in one
mapping, and it is the definition of the later line: its Path, ID, Params,
Description and Tags are those parseEndpoint gives for the later line.  The
earlier definition, which the key held once its line was read, is gone. -/
theorem parseContent_collision (U : RuneTables) (content : Str) (now : Int)
    (pre mid post : List Str) (l1 l2 : Str) (d1 d2 : APIDefinition)
    (hdoc : splitLines content = pre ++ l1 :: mid ++ l2 :: post)
    (h1 : lineDefinition U (lastHeader pre) l1 = some d1)
    (h2 : lineDefinition U (lastHeader (pre ++ l1 :: mid)) l2 = some d2)
    (hsame : d1.Service = d2.Service ∧ d1.Category = d2.Category ∧ d1.Method = d2.Method)
    (hlast : ∀ post1 l post2 d, post = post1 ++ l :: post2 →
      lineDefinition U (lastHeader (pre ++ l1 :: mid ++ l2 :: post1)) l = some d →
      ¬ (d.Service = d2.Service ∧ d.Category = d2.Category ∧ d.Method = d2.Method)) :
    mapGet
        (GetEndpointsByService (parseContent U (NewAPIParser now) content).1 d2.Service)
        (catalogKey d2.Service d2.Category d2.Method) = some d2 ∧
      (((mappings (parseContent U (NewAPIParser now) content).1.catalog).map fun sm =>
        (sm.2.filter fun e =>
          decide (e.1 = catalogKey d2.Service d2.Category d2.Method)).length).sum = 1) ∧
      catalogKey d1.Service d1.Category d1.Method =
        catalogKey d2.Service d2.Category d2.Method ∧
      mapGet
        (GetEndpointsByService
          (parseLines U { currentCategory := [], parser := NewAPIParser now }
            (pre ++ [l1])).parser d1.Service)
        (catalogKey d1.Service d1.Category d1.Method) = some d1 ∧
      ∃ e, parseEndpoint U (TrimSpace l2) (lastHeader (pre ++ l1 :: mid)) = some e ∧
        d2.Path = e.Path ∧ d2.ID = e.ID ∧ d2.Params = e.Params ∧
        d2.Description = e.Description ∧ d2.Tags = e.Tags := by
  obtain ⟨-, -, -, ⟨e, he, hde⟩, hsvc, -, hmeth, -⟩ := lineDefinition_some h2
  have hfour := determineService_mem d2.Path
  rw [← hsvc] at hfour
  have hget : mapGet
      (GetEndpointsByService (parseContent U (NewAPIParser now) content).1 d2.Service)
      (catalogKey d2.Service d2.Category d2.Method) = some d2 := by
    simp only [parseContent, hdoc]
    rw [parseLines_append]
    have hinv := ParseInv_parseLines U now (pre ++ l1 :: mid)
    generalize parseLines U { currentCategory := [], parser := NewAPIParser now }
      (pre ++ l1 :: mid) = st1 at hinv ⊢
    have hcons : parseLines U st1 (l2 :: post) = parseLines U (parseLine U st1 l2) post := rfl
    rw [hcons]
    apply parseLines_keep U _ _ _ post ((pre ++ l1 :: mid) ++ [l2]) _
      (parseLine_category U st1 _ l2 hinv.1)
    · exact parseLine_store_lookup U st1 l2 d2 (by rw [hinv.1]; exact h2)
    · intro post1 l post2 d hpost hd hbad
      have hd2 : lineDefinition U (lastHeader (pre ++ l1 :: mid ++ l2 :: post1)) l = some d := by
        simpa using hd
      obtain ⟨-, -, -, -, -, -, hm, -⟩ := lineDefinition_some hd
      have hk := hbad.2
      rw [hbad.1] at hk
      obtain ⟨hc, hme⟩ := catalogKey_inj hm hmeth hk
      exact hlast post1 l post2 d hpost hd2 ⟨hbad.1, hc, hme⟩
  refine ⟨hget, ?_, by rw [hsame.1, hsame.2.1, hsame.2.2], ?_, e, he, ?_⟩
  · have hinv := ParseInv_parseLines U now (splitLines content)
    have hcount := fun other ho =>
      count_key_mapping U _ _ hinv d2.Service other d2.Category d2.Method d2 hget hfour ho
    have e1 := hcount "eapi".toList (by simp)
    have e2 := hcount "cloudvision".toList (by simp)
    have e3 := hcount "eos_rest".toList (by simp)
    have e4 := hcount "telemetry".toList (by simp)
    rw [mappings_eq]
    simp only [List.map_cons, List.map_nil, List.sum_cons, List.sum_nil]
    have hp : (parseContent U (NewAPIParser now) content).1 =
        (parseLines U { currentCategory := [], parser := NewAPIParser now }
          (splitLines content)).parser := rfl
    rw [hp, e1, e2, e3, e4]
    simp only [List.mem_cons, List.mem_singleton, List.not_mem_nil, or_false] at hfour
    rcases hfour with h | h | h | h <;> rw [h] <;> decide
  · rw [parseLines_snoc]
    exact parseLine_store_lookup U _ l1 d1
      (by rw [(ParseInv_parseLines U now pre).1]; exact h1)
  · rw [hde]
    exact ⟨rfl, rfl, rfl, rfl, rfl⟩

/-- C3 at the document "Acl", "get /api/a", "get /api/b", "post /api/c":
the key cloudvision_Acl_GET holds the definition of "get /api/b". -/
theorem parseContent_collision_witness :
    (mapGet
        (parseContent asciiTables (NewAPIParser 0)
          "Acl\nget /api/a\nget /api/b\npost /api/c".toList).1.catalog.CloudVision
        "cloudvision_Acl_GET".toList).map APIDefinition.Path = some "/api/b".toList ∧
      ((mappings (parseContent asciiTables (NewAPIParser 0)
          "Acl\nget /api/a\nget /api/b\npost /api/c".toList).1.catalog).map fun sm =>
        (sm.2.filter fun e => decide (e.1 = "cloudvision_Acl_GET".toList)).length).sum = 1 :=
  have h := parseContent_collision asciiTables
    "Acl\nget /api/a\nget /api/b\npost /api/c".toList 0
    ["Acl".toList] [] ["post /api/c".toList] "get /api/a".toList "get /api/b".toList
    { ID := "Acl_GET__api_a".toList
      Service := "cloudvision".toList
      Method := "GET".toList
      Path := "/api/a".toList
      Description := "GET api a for Acl".toList
      Params := []
      Category := "Acl".toList
      Tags := ["GET".toList, "acl".toList] }
    { ID := "Acl_GET__api_b".toList
      Service := "cloudvision".toList
      Method := "GET".toList
      Path := "/api/b".toList
      Description := "GET api b for Acl".toList
      Params := []
      Category := "Acl".toList
      Tags := ["GET".toList, "acl".toList] }
    (by decide) (by decide) (by decide) (by decide)
    (by
      intro post1 l post2 d hpost hd
      cases post1 with
      | nil =>
        simp only [List.nil_append, List.cons.injEq] at hpost
        obtain ⟨rfl, -⟩ := hpost
        have hc : lineDefinition asciiTables
            (lastHeader (["Acl".toList] ++ "get /api/a".toList :: [] ++
              "get /api/b".toList :: [])) "post /api/c".toList =
            some
              { ID := "Acl_POST__api_c".toList
                Service := "cloudvision".toList
                Method := "POST".toList
                Path := "/api/c".toList
                Description := "POST api c for Acl".toList
                Params := []
                Category := "Acl".toList
                Tags := ["POST".toList, "acl".toList] } := by decide
        rw [hc] at hd
        simp only [Option.some.injEq] at hd
        subst hd
        decide
      | cons x post1 =>
        simp at hpost)
  ⟨by rw [show (parseContent asciiTables (NewAPIParser 0)
        "Acl\nget /api/a\nget /api/b\npost /api/c".toList).1.catalog.CloudVision =
        GetEndpointsByService (parseContent asciiTables (NewAPIParser 0)
          "Acl\nget /api/a\nget /api/b\npost /api/c".toList).1 "cloudvision".toList from rfl,
      show "cloudvision_Acl_GET".toList =
        catalogKey "cloudvision".toList "Acl".toList "GET".toList from by decide, h.1]; rfl,
    h.2.1⟩

/-! ## Parsing again, and lines that are dropped -/

theorem parseLine_eq (U : RuneTables) (st : ParseState) (raw : Str) :
    parseLine U st raw =
      if isHeaderLine raw = true then { st with currentCategory := TrimSpace raw }
      else
        match lineDefinition U st.currentCategory raw with
        | none => st
        | some d =>
          { st with
            parser :=
              { catalog :=
                  storeEndpoint st.parser.catalog d.Service
                    (catalogKey d.Service d.Category d.Method) d } } := by
  rcases parseLine_cases U st raw with ⟨hh, he⟩ | ⟨hh, hn, he⟩ | ⟨hh, d, hd, he⟩
  · rw [he, if_pos hh]
  · rw [he, hh, hn]; rfl
  · rw [he, hh, hd]; rfl

theorem parseLines_merge (U : RuneTables) (p0 : APIParser) (lines : List Str) :
    ∀ st1 st2 : ParseState, st1.currentCategory = st2.currentCategory →
      (∀ service key,
        mapGet (GetEndpointsByService st1.parser service) key =
          match mapGet (GetEndpointsByService st2.parser service) key with
          | some d => some d
          | none => mapGet (GetEndpointsByService p0 service) key) →
      ∀ service key,
        mapGet (GetEndpointsByService (parseLines U st1 lines).parser service) key =
          match mapGet (GetEndpointsByService (parseLines U st2 lines).parser service) key with
          | some d => some d
          | none => mapGet (GetEndpointsByService p0 service) key := by
  induction lines with
  | nil => intro st1 st2 _ h; exact h
  | cons l lines ih =>
    intro st1 st2 hcat h
    have hstep : parseLines U st1 (l :: lines) = parseLines U (parseLine U st1 l) lines := rfl
    have hstep2 : parseLines U st2 (l :: lines) = parseLines U (parseLine U st2 l) lines := rfl
    rw [hstep, hstep2]
    rw [parseLine_eq U st1 l, parseLine_eq U st2 l, hcat]
    by_cases hh : isHeaderLine l = true
    · rw [if_pos hh, if_pos hh]
      exact ih _ _ rfl h
    · rw [if_neg hh, if_neg hh]
      cases hd : lineDefinition U st2.currentCategory l with
      | none => exact ih _ _ hcat h
      | some d =>
        obtain ⟨-, -, -, -, hsvc, -, -, -⟩ := lineDefinition_some hd
        have hfour := determineService_mem d.Path
        rw [← hsvc] at hfour
        dsimp only
        apply ih
          { currentCategory := st2.currentCategory
            parser := { catalog := storeEndpoint st1.parser.catalog d.Service _ d } }
          { currentCategory := st2.currentCategory
            parser := { catalog := storeEndpoint st2.parser.catalog d.Service _ d } } rfl
        intro service key
        by_cases hs : service = d.Service
        · subst hs
          show mapGet (GetEndpointsByService
              { catalog := storeEndpoint st1.parser.catalog d.Service _ d } d.Service) key =
            match mapGet (GetEndpointsByService
              { catalog := storeEndpoint st2.parser.catalog d.Service _ d } d.Service) key with
            | some d => some d
            | none => _
          rw [GetEndpointsByService_store_same _ _ _ _ hfour,
            GetEndpointsByService_store_same _ _ _ _ hfour]
          by_cases hk : key = catalogKey d.Service d.Category d.Method
          · rw [hk, mapGet_mapSet_self, mapGet_mapSet_self]
          · rw [mapGet_mapSet_ne _ _ hk, mapGet_mapSet_ne _ _ hk]
            exact h _ key
        · show mapGet (GetEndpointsByService
              { catalog := storeEndpoint st1.parser.catalog d.Service _ d } service) key =
            match mapGet (GetEndpointsByService
              { catalog := storeEndpoint st2.parser.catalog d.Service _ d } service) key with
            | some d => some d
            | none => _
          rw [GetEndpointsByService_store_other _ _ _ _ _ hs,
            GetEndpointsByService_store_other _ _ _ _ _ hs]
          exact h service key

theorem GetEndpointsByService_fresh (now : Int) (service : Str) :
    GetEndpointsByService (NewAPIParser now) service = [] := by
  unfold GetEndpointsByService NewAPIParser
  split_ifs <;> rfl

theorem lineDefinition_lower_case (U : RuneTables) (category m b : Str)
    (hm : m ∈ methodWords) (hb : b ≠ []) (hws : ∀ c ∈ b, isSpace c = false) :
    ∃ d, lineDefinition U category (m ++ ' ' :: '/' :: b) = some d ∧
      d.Method = m.map asciiUpper ∧ d.Path = '/' :: b ∧
      d.Service = determineService ('/' :: b) ∧ d.Category = category := by
  obtain ⟨htrim, hskip, hsl, hmatch, -⟩ := lower_case_line_facts m b hm hb hws
  obtain ⟨e, he, hmeth, hpath, -⟩ := parseEndpoint_of_match U _ category m ('/' :: b) hmatch
  have hhdr : isCategoryHeader (m ++ ' ' :: '/' :: b) = false := by
    cases h : isCategoryHeader (m ++ ' ' :: '/' :: b)
    · rfl
    · have := ((isCategoryHeader_iff _).1 h).1
      rw [hsl] at this; cases this
  refine ⟨{ e with Service := determineService e.Path, Category := category }, ?_, ?_, hpath,
    by rw [hpath], rfl⟩
  · simp only [lineDefinition, htrim, hskip, hhdr, hsl, he, Bool.or_false, Bool.not_true,
      Bool.false_eq_true, if_false, Option.map_some']
  · show e.Method = _
    rw [hmeth]
    exact ToUpper_ascii U m fun c hc => ((methodWord_facts hm).1 c hc).1

theorem parseContent_one_line (U : RuneTables) (p : APIParser) (m b : Str)
    (hm : m ∈ methodWords) (hb : b ≠ []) (hws : ∀ c ∈ b, isSpace c = false) :
    ∃ d, d.Method = m.map asciiUpper ∧ d.Category = [] ∧
      d.Service = determineService ('/' :: b) ∧
      (parseContent U p (m ++ ' ' :: '/' :: b)).1 =
        { catalog :=
            storeEndpoint p.catalog d.Service (catalogKey d.Service d.Category d.Method) d } := by
  obtain ⟨-, -, -, -, hsplit⟩ := lower_case_line_facts m b hm hb hws
  obtain ⟨d, hd, hmeth, -, hsvc, hcat⟩ := lineDefinition_lower_case U [] m b hm hb hws
  have hnh := (lineDefinition_some hd).1
  refine ⟨d, hmeth, hcat, hsvc, ?_⟩
  simp only [parseContent, parseLines, hsplit, List.foldl_cons, List.foldl_nil]
  rw [parseLine_eq, hnh]
  simp only [Bool.false_eq_true, if_false, hd]

/-- C11, as stated, fails: after parsing "get /api/a" and then "post /api/b"
with the same parser, the CloudVision mapping is not the one obtained by
parsing "post /api/b" alone on a fresh parser; it still holds the definition
of "get /api/a". -/
theorem parseContent_twice_keeps_first :
    ¬ ∃ (U : RuneTables) (now : Int),
      (parseContent U (parseContent U (NewAPIParser now) "get /api/a".toList).1
          "post /api/b".toList).1.catalog.CloudVision =
        (parseContent U (NewAPIParser now) "post /api/b".toList).1.catalog.CloudVision := by
  rintro ⟨U, now, h⟩
  obtain ⟨dA, hAm, hAc, hAs, hA⟩ :=
    parseContent_one_line U (NewAPIParser now) "get".toList "api/a".toList
      (by decide) (by decide) (by decide)
  have hB := fun p =>
    parseContent_one_line U p "post".toList "api/b".toList (by decide) (by decide) (by decide)
  obtain ⟨dB1, hB1m, hB1c, hB1s, hB1⟩ := hB (NewAPIParser now)
  obtain ⟨dB2, hB2m, hB2c, hB2s, hB2⟩ :=
    hB (parseContent U (NewAPIParser now) "get /api/a".toList).1
  have e1 : "get".toList ++ ' ' :: '/' :: "api/a".toList = "get /api/a".toList := by decide
  have e2 : "post".toList ++ ' ' :: '/' :: "api/b".toList = "post /api/b".toList := by decide
  rw [e1] at hA
  rw [e2] at hB1 hB2
  rw [hB1, hB2, hA, hAs, hAc, hAm, hB1s, hB1c, hB1m, hB2s, hB2c, hB2m] at h
  have hsA : determineService ('/' :: "api/a".toList) = "cloudvision".toList := by decide
  have hsB : determineService ('/' :: "api/b".toList) = "cloudvision".toList := by decide
  rw [hsA, hsB] at h
  have hlen := congrArg List.length h
  simp [storeEndpoint, NewAPIParser, mapSet, catalogKey, asciiUpper] at hlen

/-- C11, amended: parsing A and then B with the same parser leaves, in every
mapping and under every key, the definition that parsing B alone on a fresh
parser gives when it gives one, and otherwise the definition left by A: the
definitions of B replace those of A key by key, and a definition whose key
comes only from A survives. -/
theorem parseContent_twice_merges (U : RuneTables) (A B : Str) (now : Int)
    (service key : Str) :
    mapGet
        (GetEndpointsByService
          (parseContent U (parseContent U (NewAPIParser now) A).1 B).1 service) key =
      match mapGet (GetEndpointsByService (parseContent U (NewAPIParser now) B).1 service) key
      with
      | some d => some d
      | none => mapGet (GetEndpointsByService (parseContent U (NewAPIParser now) A).1 service) key := by
  apply parseLines_merge U (parseContent U (NewAPIParser now) A).1 (splitLines B)
    { currentCategory := [], parser := (parseContent U (NewAPIParser now) A).1 }
    { currentCategory := [], parser := NewAPIParser now } rfl
  intro service key
  show _ = match mapGet (GetEndpointsByService (NewAPIParser now) service) key with
    | some d => some d
    | none => _
  rw [GetEndpointsByService_fresh]
  rfl

/-- C12: parseContent returns no error for every content, and a document
with one more line, which once trimmed is no category header and does not
match the endpoint pattern, gives the same parser as the document without
it: the loop leaves its state, current category included, as it was. -/
theorem parseContent_drops_line (U : RuneTables) (p : APIParser) (content inserted : Str)
    (pre post : List Str) (l : Str)
    (hdoc : splitLines content = pre ++ post)
    (hins : splitLines inserted = pre ++ l :: post)
    (hhdr : isCategoryHeader (TrimSpace l) = false)
    (hnone : findEndpointMatch (TrimSpace l) = none) :
    (∀ c : Str, (parseContent U p c).2 = none) ∧
      parseContent U p inserted = parseContent U p content ∧
      ∀ st : ParseState, parseLine U st l = st := by
  refine ⟨fun _ => rfl, ?_, fun st => parseLine_no_match U st l hhdr hnone⟩
  simp only [parseContent, hdoc, hins]
  rw [parseLines_append, parseLines_append]
  have : parseLines U (parseLines U { currentCategory := [], parser := p } pre) (l :: post) =
      parseLines U (parseLine U (parseLines U { currentCategory := [], parser := p } pre) l)
        post := rfl
  rw [this, parseLine_no_match U _ l hhdr hnone]

/-- C12 at the documents "Acl", "get /api/a" and "Acl", "get started",
"get /api/a". -/
theorem parseContent_drops_line_witness :
    parseContent asciiTables (NewAPIParser 0) "Acl\nget started\nget /api/a".toList =
      parseContent asciiTables (NewAPIParser 0) "Acl\nget /api/a".toList :=
  (parseContent_drops_line asciiTables (NewAPIParser 0) "Acl\nget /api/a".toList
    "Acl\nget started\nget /api/a".toList ["Acl".toList] ["get /api/a".toList]
    "get started".toList (by decide) (by decide) (by decide) (by decide)).2.1

/-! ## The record store -/

theorem bucketGet_insert (b : Bucket) (key value : Bytes) :
    bucketGet (bucketInsert b key value) key = some value := by
  induction b with
  | nil => simp [bucketGet, bucketInsert]
  | cons e b ih =>
    unfold bucketInsert
    split_ifs with h1 h2
    · simp [bucketGet]
    · simp [bucketGet]
    · simp only [bucketGet] at ih ⊢
      rw [List.find?_cons_of_neg _ (by simpa using h1)]
      exact ih

theorem bucketDelete_absent (b : Bucket) (key : Bytes) (h : bucketGet b key = none) :
    bucketDelete b key = b := by
  induction b with
  | nil => rfl
  | cons e b ih =>
    by_cases he : e.1 = key
    · simp [bucketGet, List.find?_cons, he] at h
    · simp only [bucketGet] at h ih
      rw [List.find?_cons_of_neg _ (by simpa using he)] at h
      simp only [bucketDelete, List.filter_cons, ne_eq, he, not_false_eq_true, decide_True,
        if_true, List.cons.injEq, true_and]
      exact ih h

theorem bucketGet_delete (b : Bucket) (key : Bytes) :
    bucketGet (bucketDelete b key) key = none := by
  induction b with
  | nil => rfl
  | cons e b ih =>
    by_cases he : e.1 = key
    · simpa [bucketDelete, List.filter_cons, he] using ih
    · simp only [bucketGet, bucketDelete, List.filter_cons, ne_eq, he, not_false_eq_true,
        decide_True, if_true] at ih ⊢
      rw [List.find?_cons_of_neg _ (by simpa using he)]
      exact ih

theorem SaveEndpoint_ok {L : GoLib} {s s2 : Store} {E : Endpoint}
    (h : s.SaveEndpoint L E = (s2, none)) :
    ∃ bucket data, s.endpoints = some bucket ∧ L.endpoint.marshal E = .ok data ∧
      toBytes E.ID ≠ [] ∧
      s2 = { s with endpoints := some (bucketInsert bucket (toBytes E.ID) data) } := by
  unfold Store.SaveEndpoint at h
  cases hb : s.endpoints with
  | none => simp [hb] at h
  | some bucket =>
    cases hm : L.endpoint.marshal E with
    | error err => simp [hb, hm] at h
    | ok data =>
      simp only [hb, hm, bucketPut] at h
      split_ifs at h with h1 h2 h3
      · simp at h
      · simp at h
      · simp at h
      · simp only [Prod.mk.injEq, and_true] at h
        exact ⟨bucket, data, rfl, rfl, fun e => h1 (by rw [e]; rfl), h.symm⟩

/-- C13: when SaveEndpoint(E) succeeds, on any store state and whatever was
stored under E.ID before, GetEndpoint(E.ID) on the resulting store returns E
and no error; a successful save has a non-empty ID. -/
theorem GetEndpoint_after_SaveEndpoint (L : GoLib) (s s2 : Store) (E : Endpoint)
    (hsave : s.SaveEndpoint L E = (s2, none)) :
    s2.GetEndpoint L E.ID = (E, none) ∧ E.ID ≠ [] := by
  obtain ⟨bucket, data, -, hm, hkey, rfl⟩ := SaveEndpoint_ok hsave
  refine ⟨?_, fun e => hkey (by rw [e]; rfl)⟩
  simp only [Store.GetEndpoint, bucketGet_insert]
  exact L.endpoint.roundtrip E data hm

/-- C13 at a fresh store and the endpoint "ep_1", and at a store that
already holds another value under "ep_1". -/
theorem GetEndpoint_after_SaveEndpoint_witness :
    (Store.SaveEndpoint (GoLib.sample Endpoint.sample [123, 125] default []) (NewStore default)
        Endpoint.sample).2 = none ∧
      Store.GetEndpoint (GoLib.sample Endpoint.sample [123, 125] default [])
        (Store.SaveEndpoint (GoLib.sample Endpoint.sample [123, 125] default [])
          { NewStore default with endpoints := some [(toBytes "ep_1".toList, [0])] }
          Endpoint.sample).1 "ep_1".toList = (Endpoint.sample, none) :=
  ⟨by decide,
    (GetEndpoint_after_SaveEndpoint (GoLib.sample Endpoint.sample [123, 125] default [])
      { NewStore default with endpoints := some [(toBytes "ep_1".toList, [0])] }
      (Store.SaveEndpoint (GoLib.sample Endpoint.sample [123, 125] default [])
        { NewStore default with endpoints := some [(toBytes "ep_1".toList, [0])] }
        Endpoint.sample).1 Endpoint.sample (by decide)).1⟩

/-- C14: on a store whose endpoints bucket exists, DeleteEndpoint returns no
error; on an identifier that is not stored it leaves the store as it was, so
a second delete of the same identifier changes nothing; after a delete
GetEndpoint reports "endpoint not found"; App.DeleteEndpoint returns what the
store returns. -/
theorem DeleteEndpoint_idempotent (L : GoLib) (s : Store) (id : Str) (bucket : Bucket)
    (hb : s.endpoints = some bucket) :
    (bucketGet bucket (toBytes id) = none → s.DeleteEndpoint id = (s, none)) ∧
      (s.DeleteEndpoint id).2 = none ∧
      (s.DeleteEndpoint id).1.DeleteEndpoint id = ((s.DeleteEndpoint id).1, none) ∧
      (s.DeleteEndpoint id).1.GetEndpoint L id =
        (Endpoint.zero, some "endpoint not found".toList) ∧
      App.DeleteEndpoint s id = s.DeleteEndpoint id ∧
      (App.DeleteEndpoint (App.DeleteEndpoint s id).1 id).1 = (App.DeleteEndpoint s id).1 := by
  have hdel : s.DeleteEndpoint id =
      ({ s with endpoints := some (bucketDelete bucket (toBytes id)) }, none) := by
    simp only [Store.DeleteEndpoint, hb]
  have htwice : (s.DeleteEndpoint id).1.DeleteEndpoint id = ((s.DeleteEndpoint id).1, none) := by
    rw [hdel]
    simp only [Store.DeleteEndpoint]
    rw [bucketDelete_absent _ _ (bucketGet_delete bucket (toBytes id))]
  have happ : ∀ t : Store, App.DeleteEndpoint t id = t.DeleteEndpoint id := by
    intro t
    unfold App.DeleteEndpoint
    rcases h : t.DeleteEndpoint id with ⟨t2, _ | err⟩ <;> rfl
  refine ⟨?_, by rw [hdel], htwice, ?_, happ s, ?_⟩
  · intro hnone
    rw [hdel, bucketDelete_absent _ _ hnone]
    cases s
    simp only at hb
    rw [hb]
  · rw [hdel]
    simp only [Store.GetEndpoint, bucketGet_delete]
  · rw [happ, happ, htwice]

/-- C14 at a store that holds one endpoint, "ep_1". -/
theorem DeleteEndpoint_idempotent_witness :
    Store.DeleteEndpoint
        (Store.DeleteEndpoint
          { NewStore default with endpoints := some [(toBytes "ep_1".toList, [0])] }
          "ep_1".toList).1 "ep_1".toList =
      (NewStore default, none) :=
  (DeleteEndpoint_idempotent (GoLib.sample Endpoint.sample [123, 125] default [])
    { NewStore default with endpoints := some [(toBytes "ep_1".toList, [0])] } "ep_1".toList
    [(toBytes "ep_1".toList, [0])] rfl).2.2.1

theorem SaveQueryRecord_ok {L : GoLib} {s s2 : Store} {r : APIQueryRecord}
    (h : s.SaveQueryRecord L r = (s2, none)) :
    ∃ bucket data, s.query_log = some bucket ∧ L.record.marshal r = .ok data ∧
      s2 = { s with query_log := some (bucketInsert bucket (toBytes (queryLogKey r)) data) } := by
  unfold Store.SaveQueryRecord at h
  cases hb : s.query_log with
  | none => simp [hb] at h
  | some bucket =>
    cases hm : L.record.marshal r with
    | error err => simp [hb, hm] at h
    | ok data =>
      simp only [hb, hm, bucketPut] at h
      split_ifs at h with h1 h2 h3
      · simp at h
      · simp at h
      · simp at h
      · simp only [Prod.mk.injEq, and_true] at h
        exact ⟨bucket, data, rfl, rfl, h.symm⟩

/-- C15, as stated, fails at the records with ID "a" and timestamps 999 and
1000 nanoseconds after the epoch: the key of the later record, "1000_a", is
smaller in byte order than the key of the earlier one, "999_a", and once both
are saved in a fresh store GetQueryLog returns the later record first. -/
theorem queryLogKey_not_chronological :
    queryLogKey { (default : APIQueryRecord) with ID := "a".toList, Timestamp := 999 } =
        "999_a".toList ∧
      queryLogKey { (default : APIQueryRecord) with ID := "a".toList, Timestamp := 1000 } =
        "1000_a".toList ∧
      bytesLt (toBytes "1000_a".toList) (toBytes "999_a".toList) = true ∧
      ∀ (L : GoLib) (r1 r2 : APIQueryRecord) (s1 s2 : Store),
        r1.ID = "a".toList → r1.Timestamp = 999 → r2.ID = "a".toList → r2.Timestamp = 1000 →
        Store.SaveQueryRecord L (NewStore default) r1 = (s1, none) →
        s1.SaveQueryRecord L r2 = (s2, none) →
        (s2.GetQueryLog L).2 = none ∧
          (s2.GetQueryLog L).1.map (fun r => (r.ID, r.Timestamp)) =
            [("a".toList, 1000), ("a".toList, 999)] := by
  refine ⟨by decide, by decide, by decide, ?_⟩
  intro L r1 r2 s1 s2 hid1 ht1 hid2 ht2 h1 h2
  obtain ⟨b1, d1, hb1, hm1, rfl⟩ := SaveQueryRecord_ok h1
  obtain ⟨b2, d2, hb2, hm2, rfl⟩ := SaveQueryRecord_ok h2
  have hb1e : b1 = [] := by
    have : (NewStore default).query_log = some [] := rfl
    rw [this] at hb1
    exact (Option.some.inj hb1).symm
  subst hb1e
  simp only [Option.some.injEq] at hb2
  subst hb2
  have hk1 : toBytes (queryLogKey r1) = toBytes "999_a".toList := by
    simp only [queryLogKey, hid1, ht1]; decide
  have hk2 : toBytes (queryLogKey r2) = toBytes "1000_a".toList := by
    simp only [queryLogKey, hid2, ht2]; decide
  have hins : bucketInsert (bucketInsert [] (toBytes (queryLogKey r1)) d1)
      (toBytes (queryLogKey r2)) d2 =
      [(toBytes "1000_a".toList, d2), (toBytes "999_a".toList, d1)] := by
    rw [hk1, hk2]
    have hne : ¬ toBytes "999_a".toList = toBytes "1000_a".toList := by decide
    have hlt : bytesLt (toBytes "1000_a".toList) (toBytes "999_a".toList) = true := by decide
    simp only [bucketInsert, hne, if_false, hlt, if_true]
  obtain ⟨q1, hq1, hi1, -, -, -, -, hs1, -, -⟩ := L.record.roundtrip r1 d1 hm1
  obtain ⟨q2, hq2, hi2, -, -, -, -, hs2, -, -⟩ := L.record.roundtrip r2 d2 hm2
  simp only [Store.GetQueryLog, hins, forEachRecord, hq1, hq2, List.nil_append,
    List.singleton_append, List.map_cons, List.map_nil, hi1, hi2, hs1, hs2, hid1, hid2, ht1, ht2,
    and_self]

/-! ## Dispatch -/

theorem RunCmds_cases (L : GoLib) (N : Net) (timeout : Int) (baseURL user pass : Str)
    (params : RunCmdsParams) :
    (∃ resp elapsed err,
        EAPIClient.RunCmds L N timeout baseURL user pass params =
          (none, resp, elapsed, some err)) ∨
      ∃ out resp elapsed,
        EAPIClient.RunCmds L N timeout baseURL user pass params =
          (some out, some resp, elapsed, out.Error.map JSONRPCError.Message) := by
  unfold EAPIClient.RunCmds
  cases N.newRequest "POST".toList (baseURL ++ "/command-api".toList) with
  | some err => exact Or.inl ⟨_, _, _, rfl⟩
  | none =>
    rcases N.roundTrip (runCmdsRequest L timeout baseURL user pass params) with
      ⟨⟨resp, err⟩ | resp, elapsed⟩
    · exact Or.inl ⟨_, _, _, rfl⟩
    · dsimp only
      cases L.unmarshalRPC resp.Body with
      | error err => exact Or.inl ⟨_, _, _, rfl⟩
      | ok out =>
        dsimp only
        cases h : out.Error with
        | none => exact Or.inr ⟨out, resp, elapsed, by simp [h]⟩
        | some e => exact Or.inr ⟨out, resp, elapsed, by simp [h]⟩

theorem DoREST_cases (L : GoLib) (N : Net) (timeout : Int) (method url bearer : Str)
    (body : Option AnyFields) :
    (∃ resp elapsed err,
        CloudVisionClient.DoREST L N timeout method url bearer body =
          (resp, elapsed, some err)) ∨
      ∃ resp elapsed,
        CloudVisionClient.DoREST L N timeout method url bearer body =
          (some resp, elapsed, none) := by
  unfold CloudVisionClient.DoREST
  cases N.newRequest method url with
  | some err => exact Or.inl ⟨_, _, _, rfl⟩
  | none =>
    rcases N.roundTrip (restRequest L timeout method url bearer body) with
      ⟨⟨resp, err⟩ | resp, elapsed⟩
    · exact Or.inl ⟨_, _, _, rfl⟩
    · exact Or.inr ⟨_, _, rfl⟩

theorem handleEAPIRequest_total (L : GoLib) (N : Net) (timeout : Int) (endpoint : Endpoint)
    (request : ExplorerRequest) :
    ∃ response err calls,
      handleEAPIRequest L N timeout endpoint request = (some (response, err), calls) ∧
        ∀ e ∈ calls, ∃ params,
          e = Effect.runCmds endpoint.URL endpoint.Username endpoint.Password params
            timeout := by
  unfold handleEAPIRequest
  rcases hc : convertToRunCmdsParams L request.Body with ⟨params, _ | cerr⟩
  · dsimp only
    rcases RunCmds_cases L N timeout endpoint.URL endpoint.Username endpoint.Password params
      with ⟨resp, elapsed, err, h⟩ | ⟨out, resp, elapsed, h⟩
    · rw [h]
      exact ⟨_, _, _, rfl, fun e he => ⟨params, by simpa using he⟩⟩
    · rw [h]
      cases hE : out.Error with
      | none => exact ⟨_, _, _, rfl, fun e he => ⟨params, by simpa using he⟩⟩
      | some e0 => exact ⟨_, _, _, rfl, fun e he => ⟨params, by simpa using he⟩⟩
  · exact ⟨_, _, _, rfl, fun e he => by simp at he⟩

theorem handleCloudVisionRequest_total (L : GoLib) (N : Net) (timeout : Int)
    (endpoint : Endpoint) (request : ExplorerRequest) :
    ∃ response err,
      handleCloudVisionRequest L N timeout endpoint request =
        (some (response, err),
          [Effect.doREST request.Method (endpoint.URL ++ request.Path) endpoint.Token
            (some request.Body) timeout]) := by
  unfold handleCloudVisionRequest
  rcases DoREST_cases L N timeout request.Method (endpoint.URL ++ request.Path) endpoint.Token
    (some request.Body) with ⟨resp, elapsed, err, h⟩ | ⟨resp, elapsed, h⟩
  · simp only [h]
    exact ⟨_, _, rfl⟩
  · simp only [h]
    exact ⟨_, _, rfl⟩

/-- C16: for a registered endpoint whose kind is neither "eapi" nor
"cloudvision", RunAPIRequest returns the error "unsupported endpoint type:
<kind>" with an empty response, makes no call to an adapter or to
SaveQueryRecord, and leaves the store, and so the query log, as it was. -/
theorem RunAPIRequest_unsupported_kind (L : GoLib) (N : Net) (s : Store)
    (request : ExplorerRequest) (nowID nowStamp : Int) (endpoint : Endpoint)
    (hget : s.GetEndpoint L request.EndpointID = (endpoint, none))
    (h1 : endpoint.Type_ ≠ "eapi".toList) (h2 : endpoint.Type_ ≠ "cloudvision".toList) :
    RunAPIRequest L N s request nowID nowStamp =
        some
          { response := ExplorerResponse.zero
            err := some ("unsupported endpoint type: ".toList ++ endpoint.Type_)
            store := s
            trace := [] } ∧
      ∀ out, RunAPIRequest L N s request nowID nowStamp = some out →
        out.err ≠ none ∧ out.trace = [] ∧ out.store.query_log = s.query_log ∧
          out.store.GetQueryLog L = s.GetQueryLog L := by
  have h : RunAPIRequest L N s request nowID nowStamp =
      some
        { response := ExplorerResponse.zero
          err := some ("unsupported endpoint type: ".toList ++ endpoint.Type_)
          store := s
          trace := [] } := by
    simp only [RunAPIRequest, hget, h1, h2, if_false]
  refine ⟨h, ?_⟩
  intro out hout
  rw [h] at hout
  cases hout
  exact ⟨by simp, rfl, rfl, rfl⟩

/-- C16 at a store that holds a "telemetry" endpoint. -/
theorem RunAPIRequest_unsupported_kind_witness :
    RunAPIRequest
        (GoLib.sample { Endpoint.sample with Type_ := "telemetry".toList } [123, 125] default [])
        Net.offline
        (Store.sample { Endpoint.sample with Type_ := "telemetry".toList } [123, 125])
        { EndpointID := "ep_1".toList, Method := "GET".toList, Path := "/x".toList,
          Body := AnyFields.nil, TimeoutMs := 0 } 1 2 =
      some
        { response := ExplorerResponse.zero
          err := some "unsupported endpoint type: telemetry".toList
          store := Store.sample { Endpoint.sample with Type_ := "telemetry".toList } [123, 125]
          trace := [] } :=
  (RunAPIRequest_unsupported_kind
    (GoLib.sample { Endpoint.sample with Type_ := "telemetry".toList } [123, 125] default [])
    Net.offline
    (Store.sample { Endpoint.sample with Type_ := "telemetry".toList } [123, 125])
    { EndpointID := "ep_1".toList, Method := "GET".toList, Path := "/x".toList,
      Body := AnyFields.nil, TimeoutMs := 0 } 1 2
    { Endpoint.sample with Type_ := "telemetry".toList }
    (by decide) (by decide) (by decide)).1

theorem RunAPIRequest_handled (L : GoLib) (N : Net) (s : Store) (request : ExplorerRequest)
    (nowID nowStamp : Int) (endpoint : Endpoint)
    (hget : s.GetEndpoint L request.EndpointID = (endpoint, none))
    (hkind : endpoint.Type_ = "eapi".toList ∨ endpoint.Type_ = "cloudvision".toList) :
    ∃ response err calls,
      (if endpoint.Type_ = "eapi".toList then
          handleEAPIRequest L N (requestTimeout request) endpoint request
        else handleCloudVisionRequest L N (requestTimeout request) endpoint request) =
          (some (response, err), calls) ∧
        (∀ e ∈ calls, ∀ r, e ≠ Effect.saveQueryRecord r) ∧
        RunAPIRequest L N s request nowID nowStamp =
          some
            { response :=
                { withError response err with LogID := "req_".toList ++ formatInt nowID }
              err := none
              store :=
                (s.SaveQueryRecord L
                  (queryRecord request (withError response err) nowID nowStamp)).1
              trace :=
                calls ++
                  [Effect.saveQueryRecord
                    (queryRecord request (withError response err) nowID nowStamp)] ++
                  saveFailure
                    (s.SaveQueryRecord L
                      (queryRecord request (withError response err) nowID nowStamp)).2 } := by
  by_cases hk : endpoint.Type_ = "eapi".toList
  · obtain ⟨response, err, calls, hh, hcalls⟩ :=
      handleEAPIRequest_total L N (requestTimeout request) endpoint request
    refine ⟨response, err, calls, by rw [if_pos hk]; exact hh, ?_, ?_⟩
    · intro e he r hr
      obtain ⟨params, hp⟩ := hcalls e he
      rw [hp] at hr
      cases hr
    · simp only [RunAPIRequest, hget, hk, if_true, hh]
      rfl
  · have hcv : endpoint.Type_ = "cloudvision".toList := hkind.resolve_left hk
    obtain ⟨response, err, hh⟩ :=
      handleCloudVisionRequest_total L N (requestTimeout request) endpoint request
    refine ⟨response, err, _, by rw [if_neg hk]; exact hh, ?_, ?_⟩
    · intro e he r hr
      simp only [List.mem_singleton] at he
      rw [he] at hr
      cases hr
    · simp only [RunAPIRequest, hget, hk, if_false, hcv, if_true, hh]
      rfl

theorem saveFailure_no_save (err : Option Str) :
    ∀ e ∈ saveFailure err, ∀ r, e ≠ Effect.saveQueryRecord r := by
  intro e he r hr
  cases err with
  | none => simp [saveFailure] at he
  | some msg =>
    simp only [saveFailure, List.mem_singleton] at he
    rw [he] at hr
    cases hr

/-- C17: for a registered endpoint of kind "eapi" or "cloudvision",
whatever the adapter does, RunAPIRequest returns a nil error; it calls
SaveQueryRecord once, after the adapter, with a record that carries the
request's endpoint id, method, path and body and the response's status,
elapsed time and error text; the response's LogID is the record's ID; and the
response is the same for every state of the query log and every way
SaveQueryRecord can succeed or fail. -/
theorem RunAPIRequest_logs (L : GoLib) (N : Net) (s : Store) (request : ExplorerRequest)
    (nowID nowStamp : Int) (endpoint : Endpoint)
    (hget : s.GetEndpoint L request.EndpointID = (endpoint, none))
    (hkind : endpoint.Type_ = "eapi".toList ∨ endpoint.Type_ = "cloudvision".toList) :
    ∃ out record calls prints,
      RunAPIRequest L N s request nowID nowStamp = some out ∧
        out.err = none ∧
        out.trace = calls ++ [Effect.saveQueryRecord record] ++ prints ∧
        (∀ e ∈ calls, ∀ r, e ≠ Effect.saveQueryRecord r) ∧
        (∀ e ∈ prints, ∀ r, e ≠ Effect.saveQueryRecord r) ∧
        out.store = (s.SaveQueryRecord L record).1 ∧
        record.EndpointID = request.EndpointID ∧ record.Method = request.Method ∧
        record.Path = request.Path ∧ record.Body = request.Body ∧
        record.Status = out.response.Status ∧ record.ElapsedMs = out.response.ElapsedMs ∧
        record.Error = out.response.Error ∧
        out.response.LogID = record.ID ∧
        ∀ (s2 : Store) (codec : RecordCodec), s2.endpoints = s.endpoints →
          (RunAPIRequest { L with record := codec } N s2 request nowID nowStamp).map
            RunOutcome.response = some out.response := by
  obtain ⟨response, err, calls, hh, hcalls, hrun⟩ :=
    RunAPIRequest_handled L N s request nowID nowStamp endpoint hget hkind
  refine ⟨_, _, calls, _, hrun, rfl, rfl, hcalls, saveFailure_no_save _, rfl, rfl, rfl, rfl,
    rfl, rfl, rfl, rfl, rfl, ?_⟩
  intro s2 codec hs2
  have hget2 : s2.GetEndpoint { L with record := codec } request.EndpointID =
      (endpoint, none) := by
    rw [← hget]
    simp only [Store.GetEndpoint, hs2]
  obtain ⟨response2, err2, calls2, hh2, -, hrun2⟩ :=
    RunAPIRequest_handled { L with record := codec } N s2 request nowID nowStamp endpoint
      hget2 hkind
  have hsame :
      (if endpoint.Type_ = "eapi".toList then
        handleEAPIRequest { L with record := codec } N (requestTimeout request) endpoint
          request
      else
        handleCloudVisionRequest { L with record := codec } N (requestTimeout request)
          endpoint request) =
      (if endpoint.Type_ = "eapi".toList then
        handleEAPIRequest L N (requestTimeout request) endpoint request
      else handleCloudVisionRequest L N (requestTimeout request) endpoint request) := rfl
  rw [hsame, hh] at hh2
  simp only [Prod.mk.injEq, Option.some.injEq] at hh2
  obtain ⟨⟨rfl, rfl⟩, rfl⟩ := hh2
  rw [hrun2]
  rfl

/-- C17 at a store that holds the "eapi" endpoint "ep_1", on a network where
every round trip fails. -/
theorem RunAPIRequest_logs_witness :
    (∃ out, RunAPIRequest (GoLib.sample Endpoint.sample [123, 125] default []) Net.offline
        (Store.sample Endpoint.sample [123, 125])
        { EndpointID := "ep_1".toList, Method := "runCmds".toList,
          Path := "/command-api".toList,
          Body :=
            AnyFields.cons "cmds".toList
              (Any.arr (AnyList.cons (Any.str "show version".toList) AnyList.nil))
              AnyFields.nil,
          TimeoutMs := 0 } 1 2 = some out ∧ out.err = none) ∧
      (RunAPIRequest (GoLib.sample Endpoint.sample [123, 125] default []) Net.offline
        (Store.sample Endpoint.sample [123, 125])
        { EndpointID := "ep_1".toList, Method := "runCmds".toList,
          Path := "/command-api".toList,
          Body :=
            AnyFields.cons "cmds".toList
              (Any.arr (AnyList.cons (Any.str "show version".toList) AnyList.nil))
              AnyFields.nil,
          TimeoutMs := 0 } 1 2).map (fun out => (out.response.Error, out.response.LogID)) =
        some ("connection refused".toList, "req_1".toList) := by
  refine ⟨?_, by decide⟩
  obtain ⟨out, -, -, -, h1, h2, -⟩ :=
    RunAPIRequest_logs (GoLib.sample Endpoint.sample [123, 125] default []) Net.offline
      (Store.sample Endpoint.sample [123, 125])
      { EndpointID := "ep_1".toList, Method := "runCmds".toList,
        Path := "/command-api".toList,
        Body :=
          AnyFields.cons "cmds".toList
            (Any.arr (AnyList.cons (Any.str "show version".toList) AnyList.nil))
            AnyFields.nil,
        TimeoutMs := 0 } 1 2 Endpoint.sample (by decide) (Or.inl (by decide))
  exact ⟨out, h1, h2⟩

/-! ## Connection tests -/

theorem EAPIClient_TestConnection_total (L : GoLib) (N : Net) (timeout : Int)
    (baseURL user pass : Str) :
    ∃ success message elapsed err,
      EAPIClient.TestConnection L N timeout baseURL user pass =
        some (success, message, elapsed, err) := by
  unfold EAPIClient.TestConnection
  dsimp only
  rcases RunCmds_cases L N timeout baseURL user pass
      { Version := 1, Cmds := ["show version".toList], Format := "json".toList,
        AutoComplete := true, ExpandAliases := false }
    with ⟨resp, elapsed, err, h⟩ | ⟨out, resp, elapsed, h⟩
  · rw [h]; cases resp <;> exact ⟨_, _, _, _, rfl⟩
  · rw [h]
    cases out.Error with
    | none =>
      simp only [Option.map_none']
      split_ifs <;> exact ⟨_, _, _, _, rfl⟩
    | some e => exact ⟨_, _, _, _, rfl⟩

theorem CloudVisionClient_TestConnection_total (L : GoLib) (N : Net) (timeout : Int)
    (baseURL token : Str) :
    ∃ success message elapsed err,
      CloudVisionClient.TestConnection L N timeout baseURL token =
        some (success, message, elapsed, err) := by
  unfold CloudVisionClient.TestConnection
  dsimp only
  rcases DoREST_cases L N timeout "GET".toList
      (baseURL ++ "/api/resources/inventory/v1/Devices?limit=1".toList) token none
    with ⟨resp, elapsed, err, h⟩ | ⟨resp, elapsed, h⟩
  · rw [h]; cases resp <;> exact ⟨_, _, _, _, rfl⟩
  · rw [h]
    dsimp only
    split_ifs <;> exact ⟨_, _, _, _, rfl⟩

/-- C18, as stated, fails: for an identifier that is not registered
App.TestConnection returns the error of the store, and for a registered
endpoint of kind "telemetry" it returns an unsupported-type error; in both
cases the result is the zero value and the error is not nil. -/
theorem TestConnection_returns_error :
    (¬ ∃ (L : GoLib) (N : Net) (out : TestOutcome),
        App.TestConnection L N (NewStore default) "ep_x".toList = some out ∧ out.err = none) ∧
      (¬ ∃ (L : GoLib) (N : Net) (s : Store) (id : Str) (endpoint : Endpoint)
          (out : TestOutcome),
        s.GetEndpoint L id = (endpoint, none) ∧ endpoint.Type_ = "telemetry".toList ∧
          App.TestConnection L N s id = some out ∧ out.err = none) ∧
      App.TestConnection
          (GoLib.sample { Endpoint.sample with Type_ := "telemetry".toList } [123, 125] default [])
          Net.offline
          (Store.sample { Endpoint.sample with Type_ := "telemetry".toList } [123, 125])
          "ep_1".toList =
        some
          { result := ConnectionTestResult.zero
            err := some "unsupported endpoint type: telemetry".toList
            store := Store.sample { Endpoint.sample with Type_ := "telemetry".toList } [123, 125]
            trace := [] } := by
  refine ⟨?_, ?_, by decide⟩
  · rintro ⟨L, N, out, h, herr⟩
    have hget : (NewStore default).GetEndpoint L "ep_x".toList =
        (Endpoint.zero, some "endpoint not found".toList) := rfl
    simp only [App.TestConnection, hget, Option.some.injEq] at h
    rw [← h] at herr
    cases herr
  · rintro ⟨L, N, s, id, endpoint, out, hget, hkind, h, herr⟩
    have h1 : ¬ endpoint.Type_ = "eapi".toList := by rw [hkind]; decide
    have h2 : ¬ endpoint.Type_ = "cloudvision".toList := by rw [hkind]; decide
    simp only [App.TestConnection, hget, h1, h2, if_false, Option.some.injEq] at h
    rw [← h] at herr
    cases herr

/-- C18, amended: for a registered endpoint of kind "eapi" or "cloudvision"
App.TestConnection returns a result and a nil error, whatever the adapter
does; for an identifier the store cannot give it returns the zero result and
the store's error, and for a registered endpoint of another kind the zero
result and the error "unsupported endpoint type: <kind>", without calling an
adapter or the store. -/
theorem TestConnection_outcomes (L : GoLib) (N : Net) (s : Store) (endpointID : Str) :
    (∀ endpoint, s.GetEndpoint L endpointID = (endpoint, none) →
        (endpoint.Type_ = "eapi".toList ∨ endpoint.Type_ = "cloudvision".toList) →
        ∃ out, App.TestConnection L N s endpointID = some out ∧ out.err = none) ∧
      (∀ endpoint err, s.GetEndpoint L endpointID = (endpoint, some err) →
        App.TestConnection L N s endpointID =
          some { result := ConnectionTestResult.zero, err := some err, store := s, trace := [] }) ∧
      (∀ endpoint, s.GetEndpoint L endpointID = (endpoint, none) →
        endpoint.Type_ ≠ "eapi".toList → endpoint.Type_ ≠ "cloudvision".toList →
        App.TestConnection L N s endpointID =
          some
            { result := ConnectionTestResult.zero
              err := some ("unsupported endpoint type: ".toList ++ endpoint.Type_)
              store := s
              trace := [] }) := by
  refine ⟨?_, ?_, ?_⟩
  · intro endpoint hget hkind
    by_cases hk : endpoint.Type_ = "eapi".toList
    · obtain ⟨success, message, elapsed, err, h⟩ :=
        EAPIClient_TestConnection_total L N (10 * 1000000000) endpoint.URL endpoint.Username
          endpoint.Password
      simp only [App.TestConnection, hget, hk, if_true, h]
      exact ⟨_, rfl, rfl⟩
    · have hcv : endpoint.Type_ = "cloudvision".toList := hkind.resolve_left hk
      obtain ⟨success, message, elapsed, err, h⟩ :=
        CloudVisionClient_TestConnection_total L N (10 * 1000000000) endpoint.URL
          endpoint.Token
      simp only [App.TestConnection, hget, hk, if_false, hcv, if_true, h]
      exact ⟨_, rfl, rfl⟩
  · intro endpoint err hget
    simp only [App.TestConnection, hget]
  · intro endpoint hget h1 h2
    simp only [App.TestConnection, hget, h1, h2, if_false]

/-! ## Remote errors and bodies that are not JSON -/

theorem RunAPIRequest_of_handler (L : GoLib) (N : Net) (s : Store) (request : ExplorerRequest)
    (nowID nowStamp : Int) (endpoint : Endpoint) (response : ExplorerResponse)
    (err : Option Str) (calls : List Effect)
    (hget : s.GetEndpoint L request.EndpointID = (endpoint, none))
    (hkind : endpoint.Type_ = "eapi".toList ∨ endpoint.Type_ = "cloudvision".toList)
    (hh : (if endpoint.Type_ = "eapi".toList then
          handleEAPIRequest L N (requestTimeout request) endpoint request
        else handleCloudVisionRequest L N (requestTimeout request) endpoint request) =
          (some (response, err), calls)) :
    ∃ out, RunAPIRequest L N s request nowID nowStamp = some out ∧ out.err = none ∧
      out.response =
        { withError response err with LogID := "req_".toList ++ formatInt nowID } := by
  obtain ⟨response2, err2, calls2, hh2, -, hrun⟩ :=
    RunAPIRequest_handled L N s request nowID nowStamp endpoint hget hkind
  rw [hh] at hh2
  simp only [Prod.mk.injEq, Option.some.injEq] at hh2
  obtain ⟨⟨rfl, rfl⟩, rfl⟩ := hh2
  exact ⟨_, hrun, rfl, rfl⟩

theorem RunCmds_answered (L : GoLib) (N : Net) (timeout : Int) (baseURL user pass : Str)
    (params : RunCmdsParams) (resp : HTTPResponse) (elapsed : Int)
    (hreq : N.newRequest "POST".toList (baseURL ++ "/command-api".toList) = none)
    (hdo : N.roundTrip (runCmdsRequest L timeout baseURL user pass params) =
      (DoResult.answered resp, elapsed)) :
    EAPIClient.RunCmds L N timeout baseURL user pass params =
      match L.unmarshalRPC resp.Body with
      | .error err => (none, some resp, elapsed, some err)
      | .ok out =>
        match out.Error with
        | some e => (some out, some resp, elapsed, some e.Message)
        | none => (some out, some resp, elapsed, none) := by
  simp only [EAPIClient.RunCmds, hreq, hdo]

theorem handleCloudVisionRequest_answered (L : GoLib) (N : Net) (timeout : Int)
    (endpoint : Endpoint) (request : ExplorerRequest) (resp : HTTPResponse) (elapsed : Int)
    (hreq : N.newRequest request.Method (endpoint.URL ++ request.Path) = none)
    (hdo : N.roundTrip
        (restRequest L timeout request.Method (endpoint.URL ++ request.Path) endpoint.Token
          (some request.Body)) = (DoResult.answered resp, elapsed)) :
    handleCloudVisionRequest L N timeout endpoint request =
      (some
        ((match L.decodeAny resp.Body with
          | .error err =>
            { ExplorerResponse.zero with
              Status := resp.StatusCode, Headers := resp.Header,
              ElapsedMs := Milliseconds elapsed, EndpointID := endpoint.ID,
              Text := "Failed to parse JSON: ".toList ++ err }
          | .ok parsed =>
            { ExplorerResponse.zero with
              Status := resp.StatusCode, Headers := resp.Header,
              ElapsedMs := Milliseconds elapsed, EndpointID := endpoint.ID,
              JSON := parsed }), none),
        [Effect.doREST request.Method (endpoint.URL ++ request.Path) endpoint.Token
          (some request.Body) timeout]) := by
  simp only [handleCloudVisionRequest, CloudVisionClient.DoREST, hreq, hdo]

/-- C19: when the device answers the call of RunCmds with HTTP 200 and a
body that decodes to an envelope whose error field is present, RunCmds
returns the envelope, the HTTP response and an error whose text is the
envelope's error message, and RunAPIRequest returns, with a nil error, a
response with Status 200 and Error equal to that message. -/
theorem RunCmds_remote_error (L : GoLib) (N : Net) (s : Store) (request : ExplorerRequest)
    (nowID nowStamp : Int) (endpoint : Endpoint) (params : RunCmdsParams)
    (resp : HTTPResponse) (elapsed : Int) (out : JSONRPCResponse) (e : JSONRPCError)
    (hget : s.GetEndpoint L request.EndpointID = (endpoint, none))
    (hkind : endpoint.Type_ = "eapi".toList)
    (hconv : convertToRunCmdsParams L request.Body = (params, none))
    (hreq : N.newRequest "POST".toList (endpoint.URL ++ "/command-api".toList) = none)
    (hdo : N.roundTrip
        (runCmdsRequest L (requestTimeout request) endpoint.URL endpoint.Username
          endpoint.Password params) = (DoResult.answered resp, elapsed))
    (hstatus : resp.StatusCode = 200)
    (hdec : L.unmarshalRPC resp.Body = .ok out) (herr : out.Error = some e) :
    EAPIClient.RunCmds L N (requestTimeout request) endpoint.URL endpoint.Username
          endpoint.Password params =
        (some out, some resp, elapsed, some e.Message) ∧
      ∃ o, RunAPIRequest L N s request nowID nowStamp = some o ∧ o.err = none ∧
        o.response.Status = 200 ∧ o.response.Error = e.Message := by
  have hrun : EAPIClient.RunCmds L N (requestTimeout request) endpoint.URL endpoint.Username
      endpoint.Password params = (some out, some resp, elapsed, some e.Message) := by
    rw [RunCmds_answered L N _ _ _ _ _ resp elapsed hreq hdo, hdec]
    simp only [herr]
  refine ⟨hrun, ?_⟩
  have hh : (if endpoint.Type_ = "eapi".toList then
        handleEAPIRequest L N (requestTimeout request) endpoint request
      else handleCloudVisionRequest L N (requestTimeout request) endpoint request) =
      (some
        ({ ExplorerResponse.zero with
            Status := resp.StatusCode, Headers := resp.Header,
            ElapsedMs := Milliseconds elapsed, EndpointID := endpoint.ID,
            Error := e.Message,
            JSON :=
              Any.obj
                (AnyFields.cons "error".toList (Any.rpcError e.Code e.Message e.Data)
                  AnyFields.nil) }, some e.Message),
        [Effect.runCmds endpoint.URL endpoint.Username endpoint.Password params
          (requestTimeout request)]) := by
    rw [if_pos hkind]
    simp only [handleEAPIRequest, hconv, hrun, herr]
    rfl
  obtain ⟨o, ho, herr2, hresp⟩ :=
    RunAPIRequest_of_handler L N s request nowID nowStamp endpoint _ _ _ hget
      (Or.inl hkind) hh
  refine ⟨o, ho, herr2, ?_, ?_⟩
  · rw [hresp]; exact hstatus
  · rw [hresp]; rfl

/-- C19 at the "eapi" endpoint "ep_1", the command "show foo" and a device
that answers 200 with an envelope whose error message is "invalid command". -/
theorem RunCmds_remote_error_witness :
    (RunAPIRequest (GoLib.sampleRemoteError Endpoint.sample [123, 125] "invalid command".toList)
        (Net.answering { StatusCode := 200, Header := [], Body := [] } 5000000)
        (Store.sample Endpoint.sample [123, 125]) (ExplorerRequest.sample "show foo".toList)
        1 2).map (fun o => (o.err, o.response.Status, o.response.Error)) =
      some (none, 200, "invalid command".toList) := by
  obtain ⟨o, ho, h1, h2, h3⟩ :=
    (RunCmds_remote_error
      (GoLib.sampleRemoteError Endpoint.sample [123, 125] "invalid command".toList)
      (Net.answering { StatusCode := 200, Header := [], Body := [] } 5000000)
      (Store.sample Endpoint.sample [123, 125]) (ExplorerRequest.sample "show foo".toList) 1 2
      Endpoint.sample
      { Version := 1, Cmds := ["show foo".toList], Format := "json".toList,
        AutoComplete := true, ExpandAliases := true }
      { StatusCode := 200, Header := [], Body := [] } 5000000
      { JSONRPC := "2.0".toList
        Result := AnyList.nil
        Error := some { Code := 1002, Message := "invalid command".toList, Data := Any.null }
        ID := "1".toList }
      { Code := 1002, Message := "invalid command".toList, Data := Any.null }
      (by decide) (by decide) (by decide) rfl rfl rfl rfl rfl).2
  rw [ho, Option.map_some', h1, h2, h3]

theorem toBytes_append (a b : Str) : toBytes (a ++ b) = toBytes a ++ toBytes b := by
  simp [toBytes]

theorem handleEAPIRequest_undecodable (L : GoLib) (N : Net) (timeout : Int)
    (endpoint : Endpoint) (request : ExplorerRequest) (params : RunCmdsParams)
    (resp : HTTPResponse) (elapsed : Int) (err : Str)
    (hconv : convertToRunCmdsParams L request.Body = (params, none))
    (hreq : N.newRequest "POST".toList (endpoint.URL ++ "/command-api".toList) = none)
    (hdo : N.roundTrip
        (runCmdsRequest L timeout endpoint.URL endpoint.Username endpoint.Password params) =
          (DoResult.answered resp, elapsed))
    (hdec : L.unmarshalRPC resp.Body = .error err) :
    handleEAPIRequest L N timeout endpoint request =
      (some (ExplorerResponse.zero, some err),
        [Effect.runCmds endpoint.URL endpoint.Username endpoint.Password params timeout]) := by
  have hrun := RunCmds_answered L N timeout endpoint.URL endpoint.Username endpoint.Password
    params resp elapsed hreq hdo
  rw [hdec] at hrun
  simp only [handleEAPIRequest, hconv, hrun]
  rfl

theorem undecodable_cloudvision (L : GoLib) (N : Net) (s : Store) (request : ExplorerRequest)
    (nowID nowStamp : Int) (endpoint : Endpoint) (resp : HTTPResponse) (elapsed : Int)
    (err : Str)
    (hget : s.GetEndpoint L request.EndpointID = (endpoint, none))
    (hkind : endpoint.Type_ = "cloudvision".toList)
    (hreq : N.newRequest request.Method (endpoint.URL ++ request.Path) = none)
    (hdo : N.roundTrip
        (restRequest L (requestTimeout request) request.Method (endpoint.URL ++ request.Path)
          endpoint.Token (some request.Body)) = (DoResult.answered resp, elapsed))
    (hdec : L.decodeAny resp.Body = .error err) :
    ∃ out, RunAPIRequest L N s request nowID nowStamp = some out ∧ out.err = none ∧
      out.response =
        { ExplorerResponse.zero with
          Status := resp.StatusCode, Headers := resp.Header,
          ElapsedMs := Milliseconds elapsed, EndpointID := endpoint.ID,
          Text := "Failed to parse JSON: ".toList ++ err,
          LogID := "req_".toList ++ formatInt nowID } := by
  have hne : ¬ endpoint.Type_ = "eapi".toList := by rw [hkind]; decide
  have hh := handleCloudVisionRequest_answered L N (requestTimeout request) endpoint request
    resp elapsed hreq hdo
  rw [hdec] at hh
  obtain ⟨out, ho, herr, hresp⟩ :=
    RunAPIRequest_of_handler L N s request nowID nowStamp endpoint _ _ _ hget (Or.inr hkind)
      (by rw [if_neg hne]; exact hh)
  exact ⟨out, ho, herr, by rw [hresp]; rfl⟩

theorem undecodable_eapi (L : GoLib) (N : Net) (s : Store) (request : ExplorerRequest)
    (nowID nowStamp : Int) (endpoint : Endpoint) (params : RunCmdsParams)
    (resp : HTTPResponse) (elapsed : Int) (err : Str)
    (hget : s.GetEndpoint L request.EndpointID = (endpoint, none))
    (hkind : endpoint.Type_ = "eapi".toList)
    (hconv : convertToRunCmdsParams L request.Body = (params, none))
    (hreq : N.newRequest "POST".toList (endpoint.URL ++ "/command-api".toList) = none)
    (hdo : N.roundTrip
        (runCmdsRequest L (requestTimeout request) endpoint.URL endpoint.Username
          endpoint.Password params) = (DoResult.answered resp, elapsed))
    (hdec : L.unmarshalRPC resp.Body = .error err) :
    ∃ out, RunAPIRequest L N s request nowID nowStamp = some out ∧ out.err = none ∧
      out.response =
        { ExplorerResponse.zero with
          Error := err, LogID := "req_".toList ++ formatInt nowID } := by
  have hh := handleEAPIRequest_undecodable L N (requestTimeout request) endpoint request
    params resp elapsed err hconv hreq hdo hdec
  obtain ⟨out, ho, herr, hresp⟩ :=
    RunAPIRequest_of_handler L N s request nowID nowStamp endpoint _ _ _ hget (Or.inl hkind)
      (by rw [if_pos hkind]; exact hh)
  exact ⟨out, ho, herr, by rw [hresp]; rfl⟩

/-- C20, as stated, fails at a response with status 200 and the body "oops",
which is not JSON.  Through the CloudVision adapter the response's Text is
"Failed to parse JSON: " followed by the decoder's message, not the body;
through the eAPI adapter the response has status 0 and an empty Text. -/
theorem undecodable_body_is_not_text :
    (¬ ∃ (L : GoLib) (N : Net) (s : Store) (request : ExplorerRequest) (nowID nowStamp : Int)
        (endpoint : Endpoint) (resp : HTTPResponse) (elapsed : Int) (err : Str)
        (out : RunOutcome),
        s.GetEndpoint L request.EndpointID = (endpoint, none) ∧
          endpoint.Type_ = "cloudvision".toList ∧
          N.newRequest request.Method (endpoint.URL ++ request.Path) = none ∧
          N.roundTrip
              (restRequest L (requestTimeout request) request.Method
                (endpoint.URL ++ request.Path) endpoint.Token (some request.Body)) =
            (DoResult.answered resp, elapsed) ∧
          resp.StatusCode = 200 ∧ resp.Body = toBytes "oops".toList ∧
          L.decodeAny resp.Body = .error err ∧
          RunAPIRequest L N s request nowID nowStamp = some out ∧
          toBytes out.response.Text = resp.Body) ∧
      (¬ ∃ (L : GoLib) (N : Net) (s : Store) (request : ExplorerRequest) (nowID nowStamp : Int)
        (endpoint : Endpoint) (params : RunCmdsParams) (resp : HTTPResponse) (elapsed : Int)
        (err : Str) (out : RunOutcome),
        s.GetEndpoint L request.EndpointID = (endpoint, none) ∧
          endpoint.Type_ = "eapi".toList ∧
          convertToRunCmdsParams L request.Body = (params, none) ∧
          N.newRequest "POST".toList (endpoint.URL ++ "/command-api".toList) = none ∧
          N.roundTrip
              (runCmdsRequest L (requestTimeout request) endpoint.URL endpoint.Username
                endpoint.Password params) = (DoResult.answered resp, elapsed) ∧
          resp.StatusCode = 200 ∧ resp.Body = toBytes "oops".toList ∧
          L.unmarshalRPC resp.Body = .error err ∧
          RunAPIRequest L N s request nowID nowStamp = some out ∧
          (out.response.Status = resp.StatusCode ∨ toBytes out.response.Text = resp.Body)) := by
  refine ⟨?_, ?_⟩
  · rintro ⟨L, N, s, request, nowID, nowStamp, endpoint, resp, elapsed, err, out, hget, hkind,
      hreq, hdo, -, hbody, hdec, hout, htext⟩
    obtain ⟨out2, ho, -, hresp⟩ :=
      undecodable_cloudvision L N s request nowID nowStamp endpoint resp elapsed err hget
        hkind hreq hdo hdec
    rw [hout] at ho
    cases ho
    rw [hresp, hbody] at htext
    simp only [toBytes_append] at htext
    have h1 : toBytes "Failed to parse JSON: ".toList =
        70 :: (toBytes "ailed to parse JSON: ".toList) := by decide
    have h2 : toBytes "oops".toList = 111 :: toBytes "ops".toList := by decide
    rw [h1, h2] at htext
    simp at htext
  · rintro ⟨L, N, s, request, nowID, nowStamp, endpoint, params, resp, elapsed, err, out, hget,
      hkind, hconv, hreq, hdo, hstatus, hbody, hdec, hout, h⟩
    obtain ⟨out2, ho, -, hresp⟩ :=
      undecodable_eapi L N s request nowID nowStamp endpoint params resp elapsed err hget
        hkind hconv hreq hdo hdec
    rw [hout] at ho
    cases ho
    rw [hresp, hstatus, hbody] at h
    rcases h with h | h
    · simp [ExplorerResponse.zero] at h
    · have h2 : toBytes "oops".toList = 111 :: toBytes "ops".toList := by decide
      rw [h2] at h
      simp [ExplorerResponse.zero, toBytes] at h

/-- C20, amended: when the remote response body is present but cannot be
decoded as JSON, RunAPIRequest returns a nil error for both adapters.  For a
"cloudvision" endpoint the response keeps the HTTP status, the headers and
the elapsed time and has no JSON value and no Error.  For an "eapi" endpoint
the response is the empty one, with status 0, no Text and no JSON value, and
its Error is the decoder's message. -/
theorem undecodable_body_outcome (L : GoLib) (N : Net) (s : Store) (request : ExplorerRequest)
    (nowID nowStamp : Int) (endpoint : Endpoint) (resp : HTTPResponse) (elapsed : Int)
    (err : Str)
    (hget : s.GetEndpoint L request.EndpointID = (endpoint, none)) :
    (endpoint.Type_ = "cloudvision".toList →
        N.newRequest request.Method (endpoint.URL ++ request.Path) = none →
        N.roundTrip
            (restRequest L (requestTimeout request) request.Method
              (endpoint.URL ++ request.Path) endpoint.Token (some request.Body)) =
          (DoResult.answered resp, elapsed) →
        L.decodeAny resp.Body = .error err →
        ∃ out, RunAPIRequest L N s request nowID nowStamp = some out ∧ out.err = none ∧
          out.response.Status = resp.StatusCode ∧ out.response.Headers = resp.Header ∧
          out.response.ElapsedMs = Milliseconds elapsed ∧ out.response.JSON = Any.null ∧
          out.response.Error = []) ∧
      (endpoint.Type_ = "eapi".toList →
        ∀ params, convertToRunCmdsParams L request.Body = (params, none) →
        N.newRequest "POST".toList (endpoint.URL ++ "/command-api".toList) = none →
        N.roundTrip
            (runCmdsRequest L (requestTimeout request) endpoint.URL endpoint.Username
              endpoint.Password params) = (DoResult.answered resp, elapsed) →
        L.unmarshalRPC resp.Body = .error err →
        ∃ out, RunAPIRequest L N s request nowID nowStamp = some out ∧ out.err = none ∧
          out.response.Status = 0 ∧ out.response.Text = [] ∧
          out.response.JSON = Any.null ∧ out.response.Error = err) := by
  refine ⟨?_, ?_⟩
  · intro hkind hreq hdo hdec
    obtain ⟨out, ho, herr, hresp⟩ :=
      undecodable_cloudvision L N s request nowID nowStamp endpoint resp elapsed err hget
        hkind hreq hdo hdec
    exact ⟨out, ho, herr, by rw [hresp], by rw [hresp], by rw [hresp], by rw [hresp]; rfl,
      by rw [hresp]; rfl⟩
  · intro hkind params hconv hreq hdo hdec
    obtain ⟨out, ho, herr, hresp⟩ :=
      undecodable_eapi L N s request nowID nowStamp endpoint params resp elapsed err hget
        hkind hconv hreq hdo hdec
    exact ⟨out, ho, herr, by rw [hresp]; rfl, by rw [hresp]; rfl, by rw [hresp]; rfl,
      by rw [hresp]⟩

/-- C20, amended, at the "eapi" endpoint "ep_1" and a device that answers
200 with a body that is not JSON. -/
theorem undecodable_body_outcome_witness :
    (RunAPIRequest (GoLib.sample Endpoint.sample [123, 125] default [])
        (Net.answering { StatusCode := 200, Header := [], Body := toBytes "oops".toList }
          5000000)
        (Store.sample Endpoint.sample [123, 125]) (ExplorerRequest.sample "show version".toList)
        1 2).map (fun o => (o.err, o.response.Status, o.response.Text, o.response.Error)) =
      some (none, 0, [], "invalid character".toList) := by
  obtain ⟨o, ho, h1, h2, h3, -, h4⟩ :=
    (undecodable_body_outcome (GoLib.sample Endpoint.sample [123, 125] default [])
      (Net.answering { StatusCode := 200, Header := [], Body := toBytes "oops".toList } 5000000)
      (Store.sample Endpoint.sample [123, 125]) (ExplorerRequest.sample "show version".toList)
      1 2 Endpoint.sample { StatusCode := 200, Header := [], Body := toBytes "oops".toList }
      5000000 "invalid character".toList (by decide)).2 (by decide)
      { Version := 1, Cmds := ["show version".toList], Format := "json".toList,
        AutoComplete := true, ExpandAliases := true } (by decide) rfl rfl rfl
  rw [ho, Option.map_some', h1, h2, h3, h4]

/-! ## Composite keys are injective -/

/-- C29: two definitions that parseContent stores under the same composite
key service_category_method have the same service, the same category and the
same method, whatever underscores the categories hold: an entry of a mapping
is overwritten only by a definition with its service, category and method. -/
theorem catalogKey_injective (U : RuneTables) (cat1 cat2 raw1 raw2 : Str)
    (d1 d2 : APIDefinition)
    (h1 : lineDefinition U cat1 raw1 = some d1) (h2 : lineDefinition U cat2 raw2 = some d2)
    (hk : d1.Service ++ "_".toList ++ d1.Category ++ "_".toList ++ d1.Method =
      d2.Service ++ "_".toList ++ d2.Category ++ "_".toList ++ d2.Method) :
    d1.Service = d2.Service ∧ d1.Category = d2.Category ∧ d1.Method = d2.Method := by
  obtain ⟨-, -, -, -, hs1, -, hm1, -⟩ := lineDefinition_some h1
  obtain ⟨-, -, -, -, hs2, -, hm2, -⟩ := lineDefinition_some h2
  have hf1 := determineService_mem d1.Path
  have hf2 := determineService_mem d2.Path
  rw [← hs1] at hf1
  rw [← hs2] at hf2
  have hk2 : catalogKey d1.Service d1.Category d1.Method =
      catalogKey d2.Service d2.Category d2.Method := hk
  have hs := catalogKey_service hf1 hf2 hk2
  rw [hs] at hk2
  exact ⟨hs, catalogKey_inj hm1 hm2 hk2⟩

/-- C29 at the lines "get /x1" and "get /x2" under the category "Acl_v2". -/
theorem catalogKey_injective_witness :
    lineDefinition asciiTables "Acl_v2".toList "get /x1".toList =
        some (APIDefinition.sample "x1".toList) ∧
      catalogKey "eos_rest".toList "Acl_v2".toList "GET".toList =
        "eos_rest_Acl_v2_GET".toList ∧
      (APIDefinition.sample "x1".toList).Category =
        (APIDefinition.sample "x2".toList).Category :=
  ⟨by decide, by decide,
    (catalogKey_injective asciiTables "Acl_v2".toList "Acl_v2".toList "get /x1".toList
      "get /x2".toList (APIDefinition.sample "x1".toList) (APIDefinition.sample "x2".toList)
      (by decide) (by decide) (by decide)).2.1⟩

/-! ## The timeout of a request -/

/-- C24, as stated, fails at TimeoutMs = 9223372036855: the product with
one million does not fit a 64-bit duration, and the timeout that
RunAPIRequest sets is negative. -/
theorem requestTimeout_overflow :
    requestTimeout { (default : ExplorerRequest) with TimeoutMs := 9223372036855 } =
        -9223372036854551616 ∧
      ¬ (0 : Int) <
        requestTimeout { (default : ExplorerRequest) with TimeoutMs := 9223372036855 } := by
  decide

theorem RunAPIRequest_timeout (L : GoLib) (N : Net) (s : Store) (request : ExplorerRequest)
    (nowID nowStamp : Int) (endpoint : Endpoint)
    (hget : s.GetEndpoint L request.EndpointID = (endpoint, none))
    (hkind : endpoint.Type_ = "eapi".toList ∨ endpoint.Type_ = "cloudvision".toList) :
    ∃ out, RunAPIRequest L N s request nowID nowStamp = some out ∧
      ∀ e ∈ out.trace,
        (∀ baseURL user pass params timeout,
          e = Effect.runCmds baseURL user pass params timeout →
            timeout = requestTimeout request) ∧
        (∀ method url bearer body timeout,
          e = Effect.doREST method url bearer body timeout →
            timeout = requestTimeout request) := by
  obtain ⟨response, err, calls, hh, -, hrun⟩ :=
    RunAPIRequest_handled L N s request nowID nowStamp endpoint hget hkind
  have hcalls : ∀ e ∈ calls,
      (∀ baseURL user pass params timeout,
        e = Effect.runCmds baseURL user pass params timeout →
          timeout = requestTimeout request) ∧
      (∀ method url bearer body timeout,
        e = Effect.doREST method url bearer body timeout →
          timeout = requestTimeout request) := by
    by_cases hk : endpoint.Type_ = "eapi".toList
    · obtain ⟨response2, err2, calls2, hh2, hc⟩ :=
        handleEAPIRequest_total L N (requestTimeout request) endpoint request
      rw [if_pos hk, hh2] at hh
      simp only [Prod.mk.injEq] at hh
      obtain ⟨-, rfl⟩ := hh
      intro e he
      obtain ⟨params, rfl⟩ := hc e he
      refine ⟨?_, ?_⟩
      · intro _ _ _ _ _ h; cases h; rfl
      · intro _ _ _ _ _ h; cases h
    · obtain ⟨response2, err2, hh2⟩ :=
        handleCloudVisionRequest_total L N (requestTimeout request) endpoint request
      rw [if_neg hk, hh2] at hh
      simp only [Prod.mk.injEq] at hh
      obtain ⟨-, rfl⟩ := hh
      intro e he
      simp only [List.mem_singleton] at he
      subst he
      refine ⟨?_, ?_⟩
      · intro _ _ _ _ _ h; cases h
      · intro _ _ _ _ _ h; cases h; rfl
  refine ⟨_, hrun, ?_⟩
  intro e he
  simp only [List.mem_append, List.mem_singleton] at he
  rcases he with (he | he) | he
  · exact hcalls e he
  · subst he
    refine ⟨?_, ?_⟩
    · intro _ _ _ _ _ h; cases h
    · intro _ _ _ _ _ h; cases h
  · refine ⟨?_, ?_⟩
    · intro _ _ _ _ _ h
      cases hs : (s.SaveQueryRecord L
        (queryRecord request (withError response err) nowID nowStamp)).2 with
      | none => rw [hs] at he; simp [saveFailure] at he
      | some msg =>
        rw [hs] at he
        simp only [saveFailure, List.mem_singleton] at he
        rw [he] at h; cases h
    · intro _ _ _ _ _ h
      cases hs : (s.SaveQueryRecord L
        (queryRecord request (withError response err) nowID nowStamp)).2 with
      | none => rw [hs] at he; simp [saveFailure] at he
      | some msg =>
        rw [hs] at he
        simp only [saveFailure, List.mem_singleton] at he
        rw [he] at h; cases h

/-- C24, amended: the timeout RunAPIRequest sets, which every adapter call
of a dispatched request carries, is TimeoutMs milliseconds when TimeoutMs is
greater than 0 and at most 9223372036854, the largest number of milliseconds
a duration holds, and the default of 30 seconds when TimeoutMs is 0 or
negative; in both cases it is strictly positive. -/
theorem requestTimeout_spec (request : ExplorerRequest) :
    (0 < request.TimeoutMs → request.TimeoutMs ≤ 9223372036854 →
        requestTimeout request = request.TimeoutMs * 1000000 ∧
          Milliseconds (requestTimeout request) = request.TimeoutMs ∧
          0 < requestTimeout request) ∧
      (request.TimeoutMs ≤ 0 →
        requestTimeout request = 30 * 1000000000 ∧ 0 < requestTimeout request) ∧
      (∀ (L : GoLib) (N : Net) (s : Store) (nowID nowStamp : Int) (endpoint : Endpoint),
        s.GetEndpoint L request.EndpointID = (endpoint, none) →
        (endpoint.Type_ = "eapi".toList ∨ endpoint.Type_ = "cloudvision".toList) →
        ∃ out, RunAPIRequest L N s request nowID nowStamp = some out ∧
          ∀ e ∈ out.trace,
            (∀ baseURL user pass params timeout,
              e = Effect.runCmds baseURL user pass params timeout →
                timeout = requestTimeout request) ∧
            (∀ method url bearer body timeout,
              e = Effect.doREST method url bearer body timeout →
                timeout = requestTimeout request)) := by
  refine ⟨?_, ?_, fun L N s nowID nowStamp endpoint hget hkind =>
    RunAPIRequest_timeout L N s request nowID nowStamp endpoint hget hkind⟩
  · intro h1 h2
    have h : requestTimeout request = request.TimeoutMs * 1000000 := by
      simp only [requestTimeout, gt_iff_lt, h1, if_true, wrapInt64]
      omega
    refine ⟨h, ?_, by rw [h]; omega⟩
    rw [h, Milliseconds]
    exact Int.tdiv_eq_of_eq_mul_left (by decide) rfl
  · intro h
    have h2 : ¬ request.TimeoutMs > 0 := by omega
    simp only [requestTimeout, h2, if_false]
    exact ⟨trivial, by decide⟩

/-! ## The envelope of a command request -/

theorem appendCmds_eq : ∀ (xs : AnyList) (acc : List Str),
    appendCmds acc xs = acc ++ stringElements xs
  | .nil, acc => by simp [appendCmds, stringElements]
  | .cons (Any.str cmdStr) rest, acc => by
    simp [appendCmds, stringElements, appendCmds_eq rest]
  | .cons Any.null rest, acc => by simp [appendCmds, stringElements, appendCmds_eq rest]
  | .cons (Any.bool _) rest, acc => by simp [appendCmds, stringElements, appendCmds_eq rest]
  | .cons (Any.float _) rest, acc => by simp [appendCmds, stringElements, appendCmds_eq rest]
  | .cons (Any.arr _) rest, acc => by simp [appendCmds, stringElements, appendCmds_eq rest]
  | .cons (Any.obj _) rest, acc => by simp [appendCmds, stringElements, appendCmds_eq rest]
  | .cons (Any.rpcError _ _ _) rest, acc => by
    simp [appendCmds, stringElements, appendCmds_eq rest]

theorem convertToRunCmdsParams_array (L : GoLib) (body : AnyFields) (cmds : AnyList)
    (h : body.get "cmds".toList = some (Any.arr cmds)) :
    convertToRunCmdsParams L body =
      ({ Version :=
            match body.get "version".toList with
            | some (Any.float version) => L.floatToInt version
            | _ => 1
         Cmds := stringElements cmds
         Format :=
            match body.get "format".toList with
            | some (Any.str format) => format
            | _ => "json".toList
         AutoComplete :=
            match body.get "autoComplete".toList with
            | some (Any.bool autoComplete) => autoComplete
            | _ => true
         ExpandAliases :=
            match body.get "expandAliases".toList with
            | some (Any.bool expandAliases) => expandAliases
            | _ => true }, none) := by
  unfold convertToRunCmdsParams
  rw [h]
  simp only [appendCmds_eq, List.nil_append]
  split <;> split <;> split <;> split <;> rfl

/-- C25: for a request body whose "cmds" entry is an array,
convertToRunCmdsParams returns no error, and in the parameters it returns
Cmds is the list of the string elements of the array in their order, Version
is the integer of the body's "version" when that is a number and 1 otherwise,
Format is the body's "format" when that is a string and "json" otherwise, and
AutoComplete and ExpandAliases are the body's "autoComplete" and
"expandAliases" when those are booleans and true otherwise. -/
theorem convertToRunCmdsParams_envelope (L : GoLib) (body : AnyFields) (cmds : AnyList)
    (h : body.get "cmds".toList = some (Any.arr cmds)) :
    (convertToRunCmdsParams L body).2 = none ∧
      (convertToRunCmdsParams L body).1.Cmds = stringElements cmds ∧
      ((convertToRunCmdsParams L body).1.Version =
        match body.get "version".toList with
        | some (Any.float version) => L.floatToInt version
        | _ => 1) ∧
      ((convertToRunCmdsParams L body).1.Format =
        match body.get "format".toList with
        | some (Any.str format) => format
        | _ => "json".toList) ∧
      ((convertToRunCmdsParams L body).1.AutoComplete =
        match body.get "autoComplete".toList with
        | some (Any.bool autoComplete) => autoComplete
        | _ => true) ∧
      ((convertToRunCmdsParams L body).1.ExpandAliases =
        match body.get "expandAliases".toList with
        | some (Any.bool expandAliases) => expandAliases
        | _ => true) := by
  rw [convertToRunCmdsParams_array L body cmds h]
  exact ⟨rfl, rfl, rfl, rfl, rfl, rfl⟩

/-- C25 at the body with two commands, version, format, autoComplete and
a string for expandAliases: both commands in order, the version converted, the
format and autoComplete of the body, and the default for expandAliases. -/
theorem convertToRunCmdsParams_envelope_witness :
    fullCmdsBody.get "cmds".toList =
        some (Any.arr
          (AnyList.cons (Any.str "enable".toList)
            (AnyList.cons (Any.str "show vlan".toList) AnyList.nil))) ∧
      (convertToRunCmdsParams (GoLib.sample Endpoint.sample [] default []) fullCmdsBody).1 =
        { Version := 0, Cmds := ["enable".toList, "show vlan".toList],
          Format := "text".toList, AutoComplete := false, ExpandAliases := true } ∧
      (convertToRunCmdsParams (GoLib.sample Endpoint.sample [] default []) fullCmdsBody).2 =
        none := by
  have h := convertToRunCmdsParams_envelope (GoLib.sample Endpoint.sample [] default [])
    fullCmdsBody
    (AnyList.cons (Any.str "enable".toList)
      (AnyList.cons (Any.str "show vlan".toList) AnyList.nil))
    (by decide)
  exact ⟨by decide, by decide, h.1⟩

/-- C27, as stated, fails: a "cmds" array that holds two numbers
and one string is accepted, and the numbers are left out of the commands. -/
theorem convertToRunCmdsParams_skips_non_strings :
    mixedCmdsBody.get "cmds".toList =
        some (Any.arr
          (AnyList.cons (Any.float 0)
            (AnyList.cons (Any.str "show version".toList)
              (AnyList.cons (Any.float 1) AnyList.nil)))) ∧
      allStrings
          (AnyList.cons (Any.float 0)
            (AnyList.cons (Any.str "show version".toList)
              (AnyList.cons (Any.float 1) AnyList.nil))) = false ∧
      (convertToRunCmdsParams (GoLib.sample Endpoint.sample [] default []) mixedCmdsBody).2 =
        none ∧
      (convertToRunCmdsParams (GoLib.sample Endpoint.sample [] default [])
          mixedCmdsBody).1.Cmds = ["show version".toList] := by
  decide

/-- C27, amended: convertToRunCmdsParams returns the error "cmds field is
required and must be an array of strings" if and only if the body has no
"cmds" entry or that entry is not an array, and it returns no other error;
the elements of the array are not examined for the decision. -/
theorem convertToRunCmdsParams_error_iff (L : GoLib) (body : AnyFields) :
    ((convertToRunCmdsParams L body).2 =
        some "cmds field is required and must be an array of strings".toList ↔
      ¬ ∃ cmds, body.get "cmds".toList = some (Any.arr cmds)) ∧
      ((convertToRunCmdsParams L body).2 = none ↔
        ∃ cmds, body.get "cmds".toList = some (Any.arr cmds)) ∧
      (body.get "cmds".toList = none →
        (convertToRunCmdsParams L body).2 =
          some "cmds field is required and must be an array of strings".toList) := by
  have key : ∀ v, body.get "cmds".toList = v →
      (∀ cmds, v ≠ some (Any.arr cmds)) →
      (convertToRunCmdsParams L body).2 =
        some "cmds field is required and must be an array of strings".toList := by
    intro v hv hne
    subst hv
    cases hv : body.get "cmds".toList with
    | none => unfold convertToRunCmdsParams; rw [hv]
    | some a =>
      cases a with
      | arr cmds => exact absurd hv (hne cmds)
      | _ => unfold convertToRunCmdsParams; rw [hv]
  by_cases hex : ∃ cmds, body.get "cmds".toList = some (Any.arr cmds)
  · obtain ⟨cmds, h⟩ := hex
    have h2 := congrArg Prod.snd (convertToRunCmdsParams_array L body cmds h)
    simp only at h2
    refine ⟨?_, ?_, ?_⟩
    · rw [h2]
      constructor
      · intro hc; cases hc
      · intro hc; exact absurd ⟨cmds, h⟩ hc
    · rw [h2]
      exact ⟨fun _ => ⟨cmds, h⟩, fun _ => rfl⟩
    · intro hn; rw [hn] at h; cases h
  · have herr := key _ rfl (fun cmds hc => hex ⟨cmds, hc⟩)
    refine ⟨?_, ?_, fun _ => herr⟩
    · exact ⟨fun _ => hex, fun _ => herr⟩
    · rw [herr]
      constructor
      · intro hc; cases hc
      · intro hc; exact absurd hc hex

/-! ## The NetVisor database -/

theorem mapColumn_space (api : netvisor.APIDefinition) (col value : Str) (h : ' ' ∈ col) :
    netvisor.mapColumn api col value = api := by
  unfold netvisor.mapColumn
  split_ifs
  all_goals first
    | rfl
    | (rename_i hc
       rcases hc with hc | hc <;>
       · rw [hc] at h
         exact absurd h (by decide))

theorem mapColumns_space : ∀ (cols : List Str) (values : List (Option Str))
    (api : netvisor.APIDefinition), (∀ col ∈ cols, ' ' ∈ col) →
    netvisor.mapColumns api cols values = api
  | [], _, _, _ => by simp [netvisor.mapColumns]
  | _ :: _, [], _, _ => by simp [netvisor.mapColumns]
  | col :: cols, some value :: values, api, h => by
    rw [netvisor.mapColumns, mapColumn_space api col value (h col (List.mem_cons_self _ _))]
    exact mapColumns_space cols values api fun c hc => h c (List.mem_cons_of_mem _ hc)
  | col :: cols, none :: values, api, h => by
    rw [netvisor.mapColumns]
    exact mapColumns_space cols values api fun c hc => h c (List.mem_cons_of_mem _ hc)

theorem GetTableSchema_space (n : netvisor.NetVisorDB) (tableName : Str) :
    ∀ col ∈ (n.GetTableSchema tableName).1, ' ' ∈ col := by
  intro col hcol
  unfold netvisor.NetVisorDB.GetTableSchema at hcol
  split at hcol
  · simp only [List.mem_map] at hcol
    obtain ⟨c, -, rfl⟩ := hcol
    simp
  · simp at hcol

theorem generated_snoc (apis : List netvisor.APIDefinition)
    (h : apis = (List.range apis.length).map netvisor.generated) :
    apis ++ [netvisor.generated apis.length] =
      (List.range (apis ++ [netvisor.generated apis.length]).length).map netvisor.generated := by
  rw [List.length_append, List.length_singleton, List.range_succ, List.map_append, ← h]
  rfl

theorem scanRows_generated (columns : List Str) (hcols : ∀ col ∈ columns, ' ' ∈ col) :
    ∀ (rows : List (List (Option Str))) (apis : List netvisor.APIDefinition),
      apis = (List.range apis.length).map netvisor.generated →
      (netvisor.scanRows columns apis rows).1 =
        (List.range (netvisor.scanRows columns apis rows).1.length).map netvisor.generated
  | [], apis, h => by simpa [netvisor.scanRows] using h
  | values :: rest, apis, h => by
    rw [netvisor.scanRows]
    split_ifs with hlen
    · rfl
    · simp only [mapColumns_space columns values default hcols]
      have hid : (default : netvisor.APIDefinition).ID = [] := rfl
      rw [if_pos hid]
      exact scanRows_generated columns hcols rest _ (generated_snoc apis h)

theorem GetAllAPIs_generated (n : netvisor.NetVisorDB) :
    (n.GetAllAPIs).1 = (List.range (n.GetAllAPIs).1.length).map netvisor.generated := by
  unfold netvisor.NetVisorDB.GetAllAPIs
  simp only [netvisor.NetVisorDB.GetTables]
  split
  · rfl
  · rename_i apiTable _
    have hs := GetTableSchema_space n apiTable
    cases hsch : n.GetTableSchema apiTable with
    | mk columns err =>
      rw [hsch] at hs
      cases err with
      | some e => rfl
      | none => exact scanRows_generated columns hs _ [] rfl

/-- C28, the failing input: for the table apis (id TEXT, path TEXT) with
the row ("a1", "/vlans"), GetTableSchema gives the strings "id TEXT" and
"path TEXT", and GetAllAPIs returns one definition whose ID is "netvisor_1"
and whose Path is empty.  For every database, the definitions that GetAllAPIs
returns carry nothing of their rows: the definition at index i has the ID
"netvisor_<i+1>" and every other attribute empty. -/
theorem GetAllAPIs_drops_columns :
    (netvisor.NetVisorDB.idPath.GetTableSchema "apis".toList).1 =
        ["id TEXT".toList, "path TEXT".toList] ∧
      netvisor.NetVisorDB.idPath.GetAllAPIs =
        ([{ ID := "netvisor_1".toList, Service := [], Method := [], Path := [],
            Description := [], Category := [], Tags := [], Parameters := [],
            Example := [] }], none) ∧
      ∀ n : netvisor.NetVisorDB,
        (n.GetAllAPIs).1 = (List.range (n.GetAllAPIs).1.length).map netvisor.generated :=
  ⟨by decide, by decide, GetAllAPIs_generated⟩

theorem contains_empty (keyword : Str) :
    netvisor.contains [] ("%".toList ++ keyword ++ "%".toList) = false := by
  have h : toBytes ("%".toList ++ keyword ++ "%".toList) =
      37 :: (toBytes keyword ++ [37]) := by
    rw [toBytes_append, toBytes_append]
    rfl
  have h0 : toBytes [] = [] := rfl
  simp only [netvisor.contains, h, h0]
  simp

theorem searchAPIs_generated (keyword : Str) (k : Nat) :
    netvisor.searchAPIs ((List.range k).map netvisor.generated) keyword = [] := by
  unfold netvisor.searchAPIs
  rw [List.filter_eq_nil_iff]
  intro api hapi
  simp only [List.mem_map] at hapi
  obtain ⟨i, -, rfl⟩ := hapi
  have hd : (netvisor.generated i).Description = [] := rfl
  have hp : (netvisor.generated i).Path = [] := rfl
  have hc : (netvisor.generated i).Category = [] := rfl
  have ht : (netvisor.generated i).Tags = [] := rfl
  rw [hd, hp, hc, ht, contains_empty]
  simp

/-- C26, the failing input: among the definitions that hold the one with
the description "Show VLAN table", the search of SearchAPIs finds nothing for
the keyword "vlan" and nothing for the keyword "VLAN", because it looks for
the keyword between two percent signs; `contains` itself compares bytes, so
that it finds "VLAN" but not "vlan" in that description.  Run on a database,
SearchAPIs returns no definition at all, whatever the keyword, also for the
empty keyword that every string contains. -/
theorem SearchAPIs_finds_nothing :
    netvisor.searchAPIs [netvisor.APIDefinition.sample] "vlan".toList = [] ∧
      netvisor.searchAPIs [netvisor.APIDefinition.sample] "VLAN".toList = [] ∧
      netvisor.contains "Show VLAN table".toList "VLAN".toList = true ∧
      netvisor.contains "Show VLAN table".toList "vlan".toList = false ∧
      netvisor.contains "Show VLAN table".toList "%VLAN%".toList = false ∧
      netvisor.NetVisorDB.sample.GetAllAPIs = ([netvisor.generated 0], none) ∧
      netvisor.NetVisorDB.sample.SearchAPIs [] = ([], none) ∧
      ∀ (n : netvisor.NetVisorDB) (keyword : Str), (n.SearchAPIs keyword).1 = [] := by
  refine ⟨by decide, by decide, by decide, by decide, by decide, by decide, by decide, ?_⟩
  intro n keyword
  unfold netvisor.NetVisorDB.SearchAPIs
  have h := GetAllAPIs_generated n
  cases hg : n.GetAllAPIs with
  | mk apis err =>
    rw [hg] at h
    cases err with
    | some e => rfl
    | none =>
      simp only at h ⊢
      rw [h]
      exact searchAPIs_generated keyword _

/-! ## Endpoints, connection tests and the inventory -/

theorem bucketGet_insert_ne (b : Bucket) (key value : Bytes) {other : Bytes}
    (h : other ≠ key) : bucketGet (bucketInsert b key value) other = bucketGet b other := by
  induction b with
  | nil =>
    simp only [bucketGet, bucketInsert]
    rw [List.find?_cons_of_neg _ (by simpa using Ne.symm h)]
  | cons e b ih =>
    unfold bucketInsert
    split_ifs with h1 h2
    · simp only [bucketGet]
      rw [List.find?_cons_of_neg _ (by simpa using Ne.symm h),
        List.find?_cons_of_neg _ (by simpa [h1] using Ne.symm h)]
    · simp only [bucketGet]
      rw [List.find?_cons_of_neg _ (by simpa using Ne.symm h)]
    · simp only [bucketGet] at ih ⊢
      by_cases he : e.1 = other
      · rw [List.find?_cons_of_pos _ (by simpa using he),
          List.find?_cons_of_pos _ (by simpa using he)]
      · rw [List.find?_cons_of_neg _ (by simpa using he),
          List.find?_cons_of_neg _ (by simpa using he)]
        exact ih

theorem bucketGet_delete_ne (b : Bucket) (key : Bytes) {other : Bytes} (h : other ≠ key) :
    bucketGet (bucketDelete b key) other = bucketGet b other := by
  induction b with
  | nil => rfl
  | cons e b ih =>
    simp only [bucketGet, bucketDelete] at ih ⊢
    by_cases he : e.1 = key
    · have hne : ¬ e.1 = other := fun ho => h (ho.symm.trans he)
      rw [List.filter_cons_of_neg (by simpa using he),
        List.find?_cons_of_neg _ (by simpa using hne)]
      exact ih
    · rw [List.filter_cons_of_pos (by simpa using he)]
      by_cases ho : e.1 = other
      · rw [List.find?_cons_of_pos _ (by simpa using ho),
          List.find?_cons_of_pos _ (by simpa using ho)]
      · rw [List.find?_cons_of_neg _ (by simpa using ho),
          List.find?_cons_of_neg _ (by simpa using ho)]
        exact ih

theorem SaveEndpoint_cases (L : GoLib) (s : Store) (E : Endpoint) :
    (∃ s2, s.SaveEndpoint L E = (s2, none)) ∨ ∃ err, s.SaveEndpoint L E = (s, some err) := by
  unfold Store.SaveEndpoint
  cases hb : s.endpoints with
  | none => exact Or.inr ⟨_, rfl⟩
  | some bucket =>
    cases hm : L.endpoint.marshal E with
    | error err => exact Or.inr ⟨_, rfl⟩
    | ok data =>
      cases hp : bucketPut bucket (toBytes E.ID) data with
      | error err => simp only [hp]; exact Or.inr ⟨_, rfl⟩
      | ok b2 => simp only [hp]; exact Or.inl ⟨_, rfl⟩

theorem SaveEndpoint_frame (L : GoLib) (s : Store) (E : Endpoint) :
    (s.SaveEndpoint L E).1.query_log = s.query_log ∧
      (s.SaveEndpoint L E).1.api_catalog = s.api_catalog ∧
      (s.SaveEndpoint L E).1.device_inventory = s.device_inventory := by
  rcases SaveEndpoint_cases L s E with ⟨s2, h⟩ | ⟨err, h⟩
  · obtain ⟨bucket, data, -, -, -, rfl⟩ := SaveEndpoint_ok h
    rw [h]
    exact ⟨rfl, rfl, rfl⟩
  · rw [h]
    exact ⟨rfl, rfl, rfl⟩

theorem GetEndpoint_save_same {L : GoLib} {s s2 : Store} {E : Endpoint}
    (h : s.SaveEndpoint L E = (s2, none)) {id : Str} (hid : toBytes id = toBytes E.ID) :
    s2.GetEndpoint L id = (E, none) := by
  obtain ⟨bucket, data, -, hm, -, rfl⟩ := SaveEndpoint_ok h
  simp only [Store.GetEndpoint, hid, bucketGet_insert]
  exact L.endpoint.roundtrip E data hm

theorem GetEndpoint_save_other {L : GoLib} {s s2 : Store} {E : Endpoint}
    (h : s.SaveEndpoint L E = (s2, none)) {id : Str} (hid : toBytes id ≠ toBytes E.ID) :
    s2.GetEndpoint L id = s.GetEndpoint L id := by
  obtain ⟨bucket, data, hb, -, -, rfl⟩ := SaveEndpoint_ok h
  simp only [Store.GetEndpoint, hb, bucketGet_insert_ne _ _ _ hid]

theorem SaveQueryRecord_endpoints (L : GoLib) (s : Store) (r : APIQueryRecord) :
    (s.SaveQueryRecord L r).1.endpoints = s.endpoints := by
  unfold Store.SaveQueryRecord
  cases hb : s.query_log with
  | none => rfl
  | some bucket =>
    cases hm : L.record.marshal r with
    | error err => rfl
    | ok data =>
      cases hp : bucketPut bucket (toBytes (queryLogKey r)) data with
      | error err => simp only [hp]
      | ok b2 => simp only [hp]

theorem TestConnection_tested (L : GoLib) (N : Net) (s : Store) (endpointID : Str)
    (endpoint : Endpoint) (hget : s.GetEndpoint L endpointID = (endpoint, none))
    (hkind : endpoint.Type_ = "eapi".toList ∨ endpoint.Type_ = "cloudvision".toList) :
    ∃ out, App.TestConnection L N s endpointID = some out ∧ out.err = none ∧
      out.store =
        (s.SaveEndpoint L
          { endpoint with
            Status :=
              if out.result.Success = true then "Connected".toList else "Failed".toList }).1 := by
  by_cases hk : endpoint.Type_ = "eapi".toList
  · obtain ⟨success, message, elapsed, err, h⟩ :=
      EAPIClient_TestConnection_total L N (10 * 1000000000) endpoint.URL endpoint.Username
        endpoint.Password
    simp only [App.TestConnection, hget, hk, if_true, h]
    cases success <;> cases err <;> exact ⟨_, rfl, rfl, rfl⟩
  · have hcv : endpoint.Type_ = "cloudvision".toList := hkind.resolve_left hk
    obtain ⟨success, message, elapsed, err, h⟩ :=
      CloudVisionClient_TestConnection_total L N (10 * 1000000000) endpoint.URL
        endpoint.Token
    simp only [App.TestConnection, hget, hk, if_false, hcv, if_true, h]
    cases success <;> cases err <;> exact ⟨_, rfl, rfl, rfl⟩

theorem TestConnection_total (L : GoLib) (N : Net) (s : Store) (endpointID : Str) :
    ∃ out, App.TestConnection L N s endpointID = some out ∧
      (out.store = s ∨
        ∃ endpoint, s.GetEndpoint L endpointID = (endpoint, none) ∧
          out.store =
            (s.SaveEndpoint L
              { endpoint with
                Status :=
                  if out.result.Success = true then "Connected".toList
                  else "Failed".toList }).1) := by
  cases hget : s.GetEndpoint L endpointID with
  | mk endpoint err =>
    cases err with
    | some e =>
      have h : App.TestConnection L N s endpointID =
          some { result := ConnectionTestResult.zero, err := some e, store := s, trace := [] } := by
        simp only [App.TestConnection, hget]
      exact ⟨_, h, Or.inl rfl⟩
    | none =>
      by_cases hkind : endpoint.Type_ = "eapi".toList ∨ endpoint.Type_ = "cloudvision".toList
      · obtain ⟨out, h1, -, h2⟩ := TestConnection_tested L N s endpointID endpoint hget hkind
        exact ⟨out, h1, Or.inr ⟨endpoint, rfl, h2⟩⟩
      · have h1 : ¬ endpoint.Type_ = "eapi".toList := fun h => hkind (Or.inl h)
        have h2 : ¬ endpoint.Type_ = "cloudvision".toList := fun h => hkind (Or.inr h)
        have h : App.TestConnection L N s endpointID =
            some
              { result := ConnectionTestResult.zero
                err := some ("unsupported endpoint type: ".toList ++ endpoint.Type_)
                store := s
                trace := [] } := by
          simp only [App.TestConnection, hget, h1, h2, if_false]
        exact ⟨_, h, Or.inl rfl⟩

theorem RunAPIRequest_total (L : GoLib) (N : Net) (s : Store) (request : ExplorerRequest)
    (nowID nowStamp : Int) :
    ∃ out, RunAPIRequest L N s request nowID nowStamp = some out ∧
      out.store.endpoints = s.endpoints := by
  cases hget : s.GetEndpoint L request.EndpointID with
  | mk endpoint err =>
    cases err with
    | some e =>
      have h : RunAPIRequest L N s request nowID nowStamp =
          some
            { response := ExplorerResponse.zero
              err := some ("failed to get endpoint: ".toList ++ e)
              store := s
              trace := [] } := by
        simp only [RunAPIRequest, hget]
      exact ⟨_, h, rfl⟩
    | none =>
      by_cases hkind : endpoint.Type_ = "eapi".toList ∨ endpoint.Type_ = "cloudvision".toList
      · obtain ⟨response, err, calls, -, -, hrun⟩ :=
          RunAPIRequest_handled L N s request nowID nowStamp endpoint hget hkind
        exact ⟨_, hrun, SaveQueryRecord_endpoints L s _⟩
      · have h1 : ¬ endpoint.Type_ = "eapi".toList := fun h => hkind (Or.inl h)
        have h2 : ¬ endpoint.Type_ = "cloudvision".toList := fun h => hkind (Or.inr h)
        have h : RunAPIRequest L N s request nowID nowStamp =
            some
              { response := ExplorerResponse.zero
                err := some ("unsupported endpoint type: ".toList ++ endpoint.Type_)
                store := s
                trace := [] } := by
          simp only [RunAPIRequest, hget, h1, h2, if_false]
        exact ⟨_, h, rfl⟩

theorem GetEndpoint_congr (L : GoLib) {s s2 : Store} (h : s2.endpoints = s.endpoints)
    (id : Str) : s2.GetEndpoint L id = s.GetEndpoint L id := by
  simp only [Store.GetEndpoint, h]

theorem GetEndpoint_key (L : GoLib) (s : Store) {id id2 : Str} (h : toBytes id = toBytes id2) :
    s.GetEndpoint L id = s.GetEndpoint L id2 := by
  simp only [Store.GetEndpoint, h]

theorem GetDeviceInventoryByID_congr (J : JSONCodec DeviceInventory) {s s2 : Store}
    (h : s2.device_inventory = s.device_inventory) (id : Str) :
    s2.GetDeviceInventoryByID J id = s.GetDeviceInventoryByID J id := by
  simp only [Store.GetDeviceInventoryByID, h]

theorem AddDeviceToInventory_cases (J : JSONCodec DeviceInventory) (s : Store)
    (device : DeviceInventory) :
    (∃ bucket data, s.device_inventory = some bucket ∧ J.marshal device = .ok data ∧
        s.AddDeviceToInventory J device =
          ({ s with
              device_inventory := some (bucketInsert bucket (toBytes device.ID) data) },
            none)) ∨
      ∃ err, s.AddDeviceToInventory J device = (s, some err) := by
  unfold Store.AddDeviceToInventory
  cases hb : s.device_inventory with
  | none => exact Or.inr ⟨_, rfl⟩
  | some bucket =>
    cases hm : J.marshal device with
    | error err => exact Or.inr ⟨_, rfl⟩
    | ok data =>
      simp only [bucketPut]
      split_ifs
      · exact Or.inr ⟨_, rfl⟩
      · exact Or.inr ⟨_, rfl⟩
      · exact Or.inr ⟨_, rfl⟩
      · exact Or.inl ⟨bucket, data, rfl, rfl, rfl⟩

theorem AddDeviceToInventory_endpoints (J : JSONCodec DeviceInventory) (s : Store)
    (device : DeviceInventory) :
    (s.AddDeviceToInventory J device).1.endpoints = s.endpoints := by
  rcases AddDeviceToInventory_cases J s device with ⟨bucket, data, -, -, h⟩ | ⟨err, h⟩ <;>
    rw [h]

theorem TestConnection_inventory (L : GoLib) (N : Net) (s : Store) (endpointID : Str) :
    ∃ out, App.TestConnection L N s endpointID = some out ∧
      out.store.device_inventory = s.device_inventory := by
  obtain ⟨out, h, hs | ⟨endpoint, -, hs⟩⟩ := TestConnection_total L N s endpointID
  · exact ⟨out, h, by rw [hs]⟩
  · exact ⟨out, h, by rw [hs]; exact (SaveEndpoint_frame L s _).2.2⟩

theorem AddEndpoint_saved (L : GoLib) (J : JSONCodec DeviceInventory) (s : Store)
    (endpoint : Endpoint) (nowID nowCreated nowAdded : Int) {s1 : Store}
    (h : s.SaveEndpoint L (stamped endpoint nowID nowCreated) = (s1, none)) :
    App.AddEndpoint L J s endpoint nowID nowCreated nowAdded =
      ((s1.AddDeviceToInventory J (inventoryDevice (stamped endpoint nowID nowCreated)
        nowAdded)).1, none) := by
  simp only [App.AddEndpoint, h]

theorem AddEndpoint_failed (L : GoLib) (J : JSONCodec DeviceInventory) (s : Store)
    (endpoint : Endpoint) (nowID nowCreated nowAdded : Int) {err : Str}
    (h : s.SaveEndpoint L (stamped endpoint nowID nowCreated) = (s, some err)) :
    App.AddEndpoint L J s endpoint nowID nowCreated nowAdded = (s, some err) := by
  simp only [App.AddEndpoint, h]

theorem UpdateEndpoint_eq (L : GoLib) (s : Store) (E : Endpoint) :
    App.UpdateEndpoint L s E = s.SaveEndpoint L E := by
  unfold App.UpdateEndpoint
  rcases SaveEndpoint_cases L s E with ⟨s2, h⟩ | ⟨err, h⟩ <;> rw [h]

/-- C23: for a registered endpoint of kind "eapi" or "cloudvision" that is
stored under its own identifier, App.TestConnection returns a result and
writes the endpoint back with Status "Connected" if the success flag of the
result is true and "Failed" otherwise, every other field as it was: when that
write succeeds, GetEndpoint gives this endpoint; the endpoints stored under
other keys and the three other namespaces are as before.  RunAPIRequest, for
every request, returns with the endpoints namespace as it was. -/
theorem TestConnection_sets_status (L : GoLib) (N : Net) (s : Store) (endpointID : Str)
    (endpoint : Endpoint) (hget : s.GetEndpoint L endpointID = (endpoint, none))
    (hkind : endpoint.Type_ = "eapi".toList ∨ endpoint.Type_ = "cloudvision".toList)
    (hid : endpoint.ID = endpointID) :
    (∃ out, App.TestConnection L N s endpointID = some out ∧ out.err = none ∧
        ((s.SaveEndpoint L
              { endpoint with
                Status :=
                  if out.result.Success = true then "Connected".toList
                  else "Failed".toList }).2 = none →
          out.store.GetEndpoint L endpointID =
            ({ endpoint with
                Status :=
                  if out.result.Success = true then "Connected".toList
                  else "Failed".toList }, none)) ∧
        (∀ other, toBytes other ≠ toBytes endpointID →
          out.store.GetEndpoint L other = s.GetEndpoint L other) ∧
        out.store.query_log = s.query_log ∧
        out.store.api_catalog = s.api_catalog ∧
        out.store.device_inventory = s.device_inventory) ∧
      ∀ (request : ExplorerRequest) (nowID nowStamp : Int),
        ∃ out, RunAPIRequest L N s request nowID nowStamp = some out ∧
          out.store.endpoints = s.endpoints := by
  refine ⟨?_, fun request nowID nowStamp => RunAPIRequest_total L N s request nowID nowStamp⟩
  obtain ⟨out, hout, herr, hstore⟩ := TestConnection_tested L N s endpointID endpoint hget hkind
  refine ⟨out, hout, herr, ?_, ?_, ?_⟩
  · intro hsave
    rw [hstore]
    rcases SaveEndpoint_cases L s
        { endpoint with
          Status :=
            if out.result.Success = true then "Connected".toList else "Failed".toList }
      with ⟨s2, h⟩ | ⟨err, h⟩
    · rw [h]
      exact GetEndpoint_save_same h (by rw [← hid])
    · rw [h] at hsave
      cases hsave
  · intro other hother
    rw [hstore]
    rcases SaveEndpoint_cases L s
        { endpoint with
          Status :=
            if out.result.Success = true then "Connected".toList else "Failed".toList }
      with ⟨s2, h⟩ | ⟨err, h⟩
    · rw [h]
      exact GetEndpoint_save_other h (by rw [← hid] at hother; exact hother)
    · rw [h]
  · rw [hstore]
    exact SaveEndpoint_frame L s _

/-- C23 at a store that holds the "eapi" endpoint "ep_1" with an empty
status, on a network that answers 200: the test succeeds and the endpoint is
stored with the status "Connected"; a request run on the same store leaves the
endpoints as they are. -/
theorem TestConnection_sets_status_witness :
    (Store.sample Endpoint.sample [1]).GetEndpoint
        (GoLib.lab { Endpoint.sample with Status := "Connected".toList }) "ep_1".toList =
        (Endpoint.sample, none) ∧
      (App.TestConnection (GoLib.lab { Endpoint.sample with Status := "Connected".toList })
          (Net.answering HTTPResponse.ok 5000000) (Store.sample Endpoint.sample [1])
          "ep_1".toList).map
        (fun out =>
          (out.result.Success,
            out.store.GetEndpoint
              (GoLib.lab { Endpoint.sample with Status := "Connected".toList })
              "ep_1".toList)) =
        some (true, ({ Endpoint.sample with Status := "Connected".toList }, none)) ∧
      ∃ out,
        RunAPIRequest (GoLib.lab { Endpoint.sample with Status := "Connected".toList })
            (Net.answering HTTPResponse.ok 5000000) (Store.sample Endpoint.sample [1])
            (ExplorerRequest.sample "show version".toList) 1 2 = some out ∧
          out.store.endpoints = (Store.sample Endpoint.sample [1]).endpoints := by
  have h :=
    TestConnection_sets_status (GoLib.lab { Endpoint.sample with Status := "Connected".toList })
      (Net.answering HTTPResponse.ok 5000000) (Store.sample Endpoint.sample [1]) "ep_1".toList
      Endpoint.sample (by decide) (Or.inl (by decide)) (by decide)
  exact ⟨by decide, by decide, h.2 (ExplorerRequest.sample "show version".toList) 1 2⟩

/-- C22, as stated, fails: the endpoint is registered at a fresh
store and its connection test succeeds, and the inventory record under the
generated identifier "ep_1" has the test count 0 and the success count 0. -/
theorem inventory_counters_stay_zero :
    (App.AddEndpoint (GoLib.lab { Endpoint.sample with Status := "Connected".toList })
        JSONCodec.labInventory (NewStore default) Endpoint.sample 1 1 3).2 = none ∧
      (App.TestConnection (GoLib.lab { Endpoint.sample with Status := "Connected".toList })
          (Net.answering HTTPResponse.ok 5000000)
          (App.AddEndpoint (GoLib.lab { Endpoint.sample with Status := "Connected".toList })
            JSONCodec.labInventory (NewStore default) Endpoint.sample 1 1 3).1
          "ep_1".toList).map
        (fun out => (out.result.Success, out.err)) = some (true, none) ∧
      (App.TestConnection (GoLib.lab { Endpoint.sample with Status := "Connected".toList })
          (Net.answering HTTPResponse.ok 5000000)
          (App.AddEndpoint (GoLib.lab { Endpoint.sample with Status := "Connected".toList })
            JSONCodec.labInventory (NewStore default) Endpoint.sample 1 1 3).1
          "ep_1".toList).map
        (fun out =>
          (out.store.GetDeviceInventoryByID JSONCodec.labInventory "ep_1".toList).2) =
        some none ∧
      (App.TestConnection (GoLib.lab { Endpoint.sample with Status := "Connected".toList })
          (Net.answering HTTPResponse.ok 5000000)
          (App.AddEndpoint (GoLib.lab { Endpoint.sample with Status := "Connected".toList })
            JSONCodec.labInventory (NewStore default) Endpoint.sample 1 1 3).1
          "ep_1".toList).map
        (fun out =>
          ((out.store.GetDeviceInventoryByID JSONCodec.labInventory "ep_1".toList).1.TestCount,
            (out.store.GetDeviceInventoryByID JSONCodec.labInventory
              "ep_1".toList).1.SuccessCount)) =
        some (0, 0) :=
  ⟨by decide, by decide, by decide, by decide⟩

/-- C22, amended: when AddEndpoint has saved the endpoint and its inventory
record, AddEndpoint returns no error, the connection test on the generated
identifier returns, and after it the device inventory holds under that
identifier the record that AddEndpoint wrote, unchanged: its test count and
its success count are 0, its status is "disconnected" and it has never been
tested, whatever the outcome of the test. -/
theorem inventory_record_after_test (L : GoLib) (J : JSONCodec DeviceInventory) (N : Net)
    (s : Store) (endpoint : Endpoint) (nowID nowCreated nowAdded : Int)
    (hsave : (s.SaveEndpoint L (stamped endpoint nowID nowCreated)).2 = none)
    (hinv :
      ((s.SaveEndpoint L (stamped endpoint nowID nowCreated)).1.AddDeviceToInventory J
        (inventoryDevice (stamped endpoint nowID nowCreated) nowAdded)).2 = none) :
    (App.AddEndpoint L J s endpoint nowID nowCreated nowAdded).2 = none ∧
      ∃ out,
        App.TestConnection L N (App.AddEndpoint L J s endpoint nowID nowCreated nowAdded).1
            ("ep_".toList ++ formatInt nowID) = some out ∧
          ∃ device,
            out.store.GetDeviceInventoryByID J ("ep_".toList ++ formatInt nowID) =
                (device, none) ∧
              device = inventoryDevice (stamped endpoint nowID nowCreated) nowAdded ∧
              device.TestCount = 0 ∧ device.SuccessCount = 0 ∧
              device.Status = "disconnected".toList ∧ device.LastTested = none := by
  rcases SaveEndpoint_cases L s (stamped endpoint nowID nowCreated) with ⟨s1, h1⟩ | ⟨err, h1⟩
  · rw [h1] at hinv
    rw [AddEndpoint_saved L J s endpoint nowID nowCreated nowAdded h1]
    refine ⟨rfl, ?_⟩
    rcases AddDeviceToInventory_cases J s1
        (inventoryDevice (stamped endpoint nowID nowCreated) nowAdded)
      with ⟨bucket, data, -, hm, h2⟩ | ⟨err, h2⟩
    · rw [h2]
      obtain ⟨out, hout, hframe⟩ :=
        TestConnection_inventory L N
          { s1 with
            device_inventory :=
              some (bucketInsert bucket
                (toBytes (inventoryDevice (stamped endpoint nowID nowCreated) nowAdded).ID)
                data) }
          ("ep_".toList ++ formatInt nowID)
      refine ⟨out, hout, _, ?_, rfl, rfl, rfl, rfl, rfl⟩
      rw [GetDeviceInventoryByID_congr J hframe]
      have hkey : (inventoryDevice (stamped endpoint nowID nowCreated) nowAdded).ID =
          "ep_".toList ++ formatInt nowID := rfl
      simp only [Store.GetDeviceInventoryByID, hkey, bucketGet_insert]
      exact J.roundtrip _ data hm
    · rw [h2] at hinv
      cases hinv
  · rw [h1] at hsave
    cases hsave

/-- C22, amended, at a fresh store: the endpoint is registered at the clock
readings 1, 1 and 3 and tested on a network that answers 200. -/
theorem inventory_record_after_test_witness :
    (Store.SaveEndpoint (GoLib.lab { Endpoint.sample with Status := "Connected".toList })
        (NewStore default) (stamped Endpoint.sample 1 1)).2 = none ∧
      (App.AddEndpoint (GoLib.lab { Endpoint.sample with Status := "Connected".toList })
        JSONCodec.labInventory (NewStore default) Endpoint.sample 1 1 3).2 = none ∧
      ∃ out,
        App.TestConnection (GoLib.lab { Endpoint.sample with Status := "Connected".toList })
            (Net.answering HTTPResponse.ok 5000000)
            (App.AddEndpoint (GoLib.lab { Endpoint.sample with Status := "Connected".toList })
              JSONCodec.labInventory (NewStore default) Endpoint.sample 1 1 3).1
            ("ep_".toList ++ formatInt 1) = some out ∧
          ∃ device,
            out.store.GetDeviceInventoryByID JSONCodec.labInventory
                ("ep_".toList ++ formatInt 1) = (device, none) ∧
              device = inventoryDevice (stamped Endpoint.sample 1 1) 3 ∧
              device.TestCount = 0 ∧ device.SuccessCount = 0 ∧
              device.Status = "disconnected".toList ∧ device.LastTested = none :=
  ⟨by decide,
    inventory_record_after_test (GoLib.lab { Endpoint.sample with Status := "Connected".toList })
      JSONCodec.labInventory (Net.answering HTTPResponse.ok 5000000) (NewStore default)
      Endpoint.sample 1 1 3 (by decide) (by decide)⟩

/-- C21, as stated, fails: the endpoint "ep_1" is created with
the Type "eapi", and UpdateEndpoint with the same ID and the Type
"cloudvision" succeeds, after which the Type stored under "ep_1" is
"cloudvision". -/
theorem UpdateEndpoint_changes_kind :
    (App.AddEndpoint (GoLib.lab { Endpoint.sample with Type_ := "cloudvision".toList })
        JSONCodec.labInventory (NewStore default) Endpoint.sample 1 1 3).2 = none ∧
      ((App.AddEndpoint (GoLib.lab { Endpoint.sample with Type_ := "cloudvision".toList })
          JSONCodec.labInventory (NewStore default) Endpoint.sample 1 1 3).1.GetEndpoint
        (GoLib.lab { Endpoint.sample with Type_ := "cloudvision".toList })
        "ep_1".toList) = (Endpoint.sample, none) ∧
      Endpoint.sample.Type_ = "eapi".toList ∧
      (App.UpdateEndpoint (GoLib.lab { Endpoint.sample with Type_ := "cloudvision".toList })
        (App.AddEndpoint (GoLib.lab { Endpoint.sample with Type_ := "cloudvision".toList })
          JSONCodec.labInventory (NewStore default) Endpoint.sample 1 1 3).1
        { Endpoint.sample with Type_ := "cloudvision".toList }).2 = none ∧
      ((App.UpdateEndpoint (GoLib.lab { Endpoint.sample with Type_ := "cloudvision".toList })
          (App.AddEndpoint (GoLib.lab { Endpoint.sample with Type_ := "cloudvision".toList })
            JSONCodec.labInventory (NewStore default) Endpoint.sample 1 1 3).1
          { Endpoint.sample with Type_ := "cloudvision".toList }).1.GetEndpoint
        (GoLib.lab { Endpoint.sample with Type_ := "cloudvision".toList })
        "ep_1".toList) = ({ Endpoint.sample with Type_ := "cloudvision".toList }, none) :=
  ⟨by decide, by decide, by decide, by decide, by decide⟩

/-- C21, amended: let an endpoint be stored under an identifier.  A
connection test, of any endpoint that is stored under its own identifier,
leaves an endpoint of the same Type under that identifier.  DeleteEndpoint of
another key leaves the endpoint as it is, and DeleteEndpoint of its key leaves
no endpoint under it.  UpdateEndpoint and AddEndpoint leave the endpoint as it
is when they write under another key; an UpdateEndpoint that succeeds stores
the endpoint it is given, with the Type it is given, under the ID it is given,
and an AddEndpoint that succeeds stores the Type it is given under the
identifier it generates. -/
theorem endpoint_kind_after_call (L : GoLib) (J : JSONCodec DeviceInventory) (N : Net)
    (s : Store) (id : Str) (e : Endpoint) (hget : s.GetEndpoint L id = (e, none)) :
    (∀ endpointID,
        (∀ tested, s.GetEndpoint L endpointID = (tested, none) →
          toBytes tested.ID = toBytes endpointID) →
        ∃ out, App.TestConnection L N s endpointID = some out ∧
          ∃ e2, out.store.GetEndpoint L id = (e2, none) ∧ e2.Type_ = e.Type_) ∧
      (∀ endpointID,
        (App.DeleteEndpoint s endpointID).2 = none ∧
          (toBytes endpointID ≠ toBytes id →
            (App.DeleteEndpoint s endpointID).1.GetEndpoint L id = (e, none)) ∧
          (toBytes endpointID = toBytes id →
            (App.DeleteEndpoint s endpointID).1.GetEndpoint L id =
              (Endpoint.zero, some "endpoint not found".toList))) ∧
      (∀ E : Endpoint,
        (toBytes E.ID ≠ toBytes id → (App.UpdateEndpoint L s E).1.GetEndpoint L id = (e, none)) ∧
          ((App.UpdateEndpoint L s E).2 = none →
            (App.UpdateEndpoint L s E).1.GetEndpoint L E.ID = (E, none))) ∧
      ∀ (endpoint : Endpoint) (nowID nowCreated nowAdded : Int),
        (toBytes ("ep_".toList ++ formatInt nowID) ≠ toBytes id →
            (App.AddEndpoint L J s endpoint nowID nowCreated nowAdded).1.GetEndpoint L id =
              (e, none)) ∧
          ((App.AddEndpoint L J s endpoint nowID nowCreated nowAdded).2 = none →
            (App.AddEndpoint L J s endpoint nowID nowCreated nowAdded).1.GetEndpoint L
                ("ep_".toList ++ formatInt nowID) =
              ({ endpoint with ID := "ep_".toList ++ formatInt nowID, Created := nowCreated },
                none)) := by
  refine ⟨?_, ?_, ?_, ?_⟩
  · intro endpointID hwf
    obtain ⟨out, hout, hs | ⟨tested, ht, hs⟩⟩ := TestConnection_total L N s endpointID
    · exact ⟨out, hout, e, by rw [hs]; exact hget, rfl⟩
    · refine ⟨out, hout, ?_⟩
      rw [hs]
      rcases SaveEndpoint_cases L s
          { tested with
            Status :=
              if out.result.Success = true then "Connected".toList else "Failed".toList }
        with ⟨s2, h⟩ | ⟨err, h⟩
      · rw [h]
        by_cases hk : toBytes id = toBytes tested.ID
        · have hte : tested = e := by
            have h1 := GetEndpoint_key L s (hk.trans (hwf tested ht))
            rw [hget, ht] at h1
            exact (congrArg Prod.fst h1).symm
          refine ⟨_, GetEndpoint_save_same h hk, ?_⟩
          rw [← hte]
        · exact ⟨e, by rw [GetEndpoint_save_other h hk]; exact hget, rfl⟩
      · rw [h]
        exact ⟨e, hget, rfl⟩
  · intro endpointID
    have hb : ∃ bucket, s.endpoints = some bucket := by
      cases hb : s.endpoints with
      | none => simp [Store.GetEndpoint, hb] at hget
      | some bucket => exact ⟨bucket, rfl⟩
    obtain ⟨bucket, hb⟩ := hb
    have hdel : App.DeleteEndpoint s endpointID =
        ({ s with endpoints := some (bucketDelete bucket (toBytes endpointID)) }, none) := by
      simp only [App.DeleteEndpoint, Store.DeleteEndpoint, hb]
    rw [hdel]
    refine ⟨rfl, ?_, ?_⟩
    · intro hne
      simp only [Store.GetEndpoint, bucketGet_delete_ne _ _ (Ne.symm hne)]
      simpa only [Store.GetEndpoint, hb] using hget
    · intro heq
      simp only [Store.GetEndpoint, heq, bucketGet_delete]
  · intro E
    rw [UpdateEndpoint_eq]
    rcases SaveEndpoint_cases L s E with ⟨s2, h⟩ | ⟨err, h⟩
    · rw [h]
      exact ⟨fun hne => by rw [GetEndpoint_save_other h (Ne.symm hne)]; exact hget,
        fun _ => GetEndpoint_save_same h rfl⟩
    · rw [h]
      exact ⟨fun _ => hget, fun hc => by cases hc⟩
  · intro endpoint nowID nowCreated nowAdded
    rcases SaveEndpoint_cases L s (stamped endpoint nowID nowCreated) with ⟨s1, h⟩ | ⟨err, h⟩
    · rw [AddEndpoint_saved L J s endpoint nowID nowCreated nowAdded h]
      have hframe := AddDeviceToInventory_endpoints J s1
        (inventoryDevice (stamped endpoint nowID nowCreated) nowAdded)
      refine ⟨fun hne => ?_, fun _ => ?_⟩
      · rw [GetEndpoint_congr L hframe, GetEndpoint_save_other h (Ne.symm hne)]
        exact hget
      · rw [GetEndpoint_congr L hframe]
        exact GetEndpoint_save_same h rfl
    · rw [AddEndpoint_failed L J s endpoint nowID nowCreated nowAdded h]
      exact ⟨fun _ => hget, fun hc => by cases hc⟩

/-- C21, amended, at a store that holds the "eapi" endpoint "ep_1": after a
connection test that succeeds the endpoint stored under "ep_1" has the Type
"eapi". -/
theorem endpoint_kind_after_call_witness :
    (Store.sample Endpoint.sample [1]).GetEndpoint
        (GoLib.lab { Endpoint.sample with Status := "Connected".toList }) "ep_1".toList =
        (Endpoint.sample, none) ∧
      (App.TestConnection (GoLib.lab { Endpoint.sample with Status := "Connected".toList })
          (Net.answering HTTPResponse.ok 5000000) (Store.sample Endpoint.sample [1])
          "ep_1".toList).map
        (fun out =>
          out.store.GetEndpoint
            (GoLib.lab { Endpoint.sample with Status := "Connected".toList })
            "ep_1".toList) =
        some ({ Endpoint.sample with Status := "Connected".toList }, none) ∧
      (App.DeleteEndpoint (Store.sample Endpoint.sample [1]) "ep_2".toList).2 = none ∧
      (App.DeleteEndpoint (Store.sample Endpoint.sample [1]) "ep_2".toList).1.GetEndpoint
          (GoLib.lab { Endpoint.sample with Status := "Connected".toList }) "ep_1".toList =
        (Endpoint.sample, none) := by
  have h :=
    (endpoint_kind_after_call (GoLib.lab { Endpoint.sample with Status := "Connected".toList })
      JSONCodec.labInventory (Net.answering HTTPResponse.ok 5000000)
      (Store.sample Endpoint.sample [1]) "ep_1".toList Endpoint.sample (by decide)).2.1
      "ep_2".toList
  exact ⟨by decide, by decide, h.1, h.2.1 (by decide)⟩

/-! ## Keys of the query log in the order of time -/

theorem toDigitsCore_eq (n : Nat) : ∀ (fuel : Nat) (ds : List Char), n < fuel →
    Nat.toDigitsCore 10 fuel n ds = Nat.toDigits 10 n ++ ds := by
  induction n using Nat.strong_induction_on with
  | _ n ih =>
    intro fuel ds hf
    obtain ⟨f, rfl⟩ : ∃ f, fuel = f + 1 := ⟨fuel - 1, by omega⟩
    by_cases h0 : n / 10 = 0
    · simp [Nat.toDigits, Nat.toDigitsCore, h0]
    · have hlt : n / 10 < n := by omega
      rw [Nat.toDigits, Nat.toDigitsCore, Nat.toDigitsCore]
      simp only [h0, if_false]
      rw [ih (n / 10) hlt f _ (by omega), ih (n / 10) hlt n _ hlt]
      simp

theorem toDigits_small (n : Nat) (h : n < 10) : Nat.toDigits 10 n = [Nat.digitChar n] := by
  have h0 : n / 10 = 0 := by omega
  have hm : n % 10 = n := by omega
  simp [Nat.toDigits, Nat.toDigitsCore, h0, hm]

theorem toDigits_step (n : Nat) (h : 10 ≤ n) :
    Nat.toDigits 10 n = Nat.toDigits 10 (n / 10) ++ [Nat.digitChar (n % 10)] := by
  have h0 : ¬ n / 10 = 0 := by omega
  have hlt : n / 10 < n := by omega
  rw [Nat.toDigits, Nat.toDigitsCore]
  simp only [h0, if_false]
  exact toDigitsCore_eq (n / 10) n _ hlt

theorem encodeRune_digit (d : Nat) (h : d < 10) : encodeRune (Nat.digitChar d) = [48 + d] := by
  interval_cases d <;> decide

theorem decimal_small (n : Nat) (h : n < 10) : toBytes (Nat.toDigits 10 n) = [48 + n] := by
  rw [toDigits_small n h]
  simp [toBytes, encodeRune_digit n h]

theorem decimal_step (n : Nat) (h : 10 ≤ n) :
    toBytes (Nat.toDigits 10 n) = toBytes (Nat.toDigits 10 (n / 10)) ++ [48 + n % 10] := by
  rw [toDigits_step n h, toBytes_append]
  simp [toBytes, encodeRune_digit (n % 10) (Nat.mod_lt _ (by decide))]

theorem decimal_length_pos (n : Nat) : 0 < (toBytes (Nat.toDigits 10 n)).length := by
  by_cases h : n < 10
  · rw [decimal_small n h]; simp
  · rw [decimal_step n (by omega)]; simp

theorem decimal_length (k : Nat) : ∀ n, 10 ^ k ≤ n → n < 10 ^ (k + 1) →
    (toBytes (Nat.toDigits 10 n)).length = k + 1 := by
  induction k with
  | zero =>
    intro n _ h2
    rw [decimal_small n (by simpa using h2)]
    rfl
  | succ k ih =>
    intro n h1 h2
    have h10 : 10 ≤ n := by
      have : 10 ^ 1 ≤ 10 ^ (k + 1) := Nat.pow_le_pow_right (by decide) (by omega)
      omega
    rw [decimal_step n h10, List.length_append, List.length_singleton,
      ih (n / 10) ?_ ?_]
    · rw [Nat.le_div_iff_mul_le (by decide)]
      rw [pow_succ] at h1
      exact h1
    · rw [Nat.div_lt_iff_lt_mul (by decide)]
      rw [pow_succ] at h2
      exact h2

theorem bytesLt_prefix (p u v : Bytes) : bytesLt (p ++ u) (p ++ v) = bytesLt u v := by
  induction p with
  | nil => rfl
  | cons a p ih => simp [bytesLt, ih]

theorem bytesLt_irrefl (a : Bytes) : bytesLt a a = false := by
  induction a with
  | nil => rfl
  | cons x a ih => simp [bytesLt, ih]

theorem bytesLt_trans : ∀ (a b c : Bytes), bytesLt a b = true → bytesLt b c = true →
    bytesLt a c = true
  | [], [], _, h, _ => by simp [bytesLt] at h
  | [], _ :: _, [], _, h => by simp [bytesLt] at h
  | [], _ :: _, _ :: _, _, _ => by simp [bytesLt]
  | _ :: _, [], _, h, _ => by simp [bytesLt] at h
  | _ :: _, _ :: _, [], _, h => by simp [bytesLt] at h
  | x :: a, y :: b, z :: c, h1, h2 => by
    simp only [bytesLt, Bool.or_eq_true, decide_eq_true_eq, Bool.and_eq_true] at h1 h2 ⊢
    rcases h1 with h1 | ⟨h1, h1'⟩ <;> rcases h2 with h2 | ⟨h2, h2'⟩
    · exact Or.inl (by omega)
    · exact Or.inl (by omega)
    · exact Or.inl (by omega)
    · exact Or.inr ⟨by omega, bytesLt_trans a b c h1' h2'⟩

theorem bytesLt_total : ∀ (a b : Bytes), bytesLt a b = false → a ≠ b → bytesLt b a = true
  | [], [], _, h => absurd rfl h
  | [], _ :: _, h, _ => by simp [bytesLt] at h
  | _ :: _, [], _, _ => by simp [bytesLt]
  | x :: a, y :: b, h, hne => by
    simp only [bytesLt, Bool.or_eq_false_iff, decide_eq_false_iff_not, Bool.and_eq_false_imp,
      decide_eq_true_eq] at h
    simp only [bytesLt, Bool.or_eq_true, decide_eq_true_eq, Bool.and_eq_true]
    by_cases hxy : x = y
    · subst hxy
      refine Or.inr ⟨rfl, bytesLt_total a b (h.2 rfl) ?_⟩
      intro hab
      exact hne (by rw [hab])
    · exact Or.inl (by omega)

theorem bytesLt_append {a b : Bytes} (hlen : a.length = b.length) (h : bytesLt a b = true)
    (u v : Bytes) : bytesLt (a ++ u) (b ++ v) = true := by
  induction a generalizing b with
  | nil =>
    cases b with
    | nil => simp [bytesLt] at h
    | cons y b => simp at hlen
  | cons x a ih =>
    cases b with
    | nil => simp at hlen
    | cons y b =>
      simp only [bytesLt, Bool.or_eq_true, decide_eq_true_eq, Bool.and_eq_true,
        List.cons_append] at h ⊢
      rcases h with h | ⟨h, h'⟩
      · exact Or.inl h
      · exact Or.inr ⟨h, ih (by simpa using hlen) h'⟩

theorem decimal_lt (b : Nat) : ∀ a, a < b →
    (toBytes (Nat.toDigits 10 a)).length = (toBytes (Nat.toDigits 10 b)).length →
    bytesLt (toBytes (Nat.toDigits 10 a)) (toBytes (Nat.toDigits 10 b)) = true := by
  induction b using Nat.strong_induction_on with
  | _ b ih =>
    intro a hab hlen
    by_cases hb : b < 10
    · rw [decimal_small a (by omega), decimal_small b hb]
      simp [bytesLt]
      omega
    · have hb10 : 10 ≤ b := by omega
      by_cases ha : a < 10
      · rw [decimal_small a ha, decimal_step b hb10] at hlen
        have := decimal_length_pos (b / 10)
        rw [List.length_append, List.length_singleton, List.length_singleton] at hlen
        omega
      · have ha10 : 10 ≤ a := by omega
        rw [decimal_step a ha10, decimal_step b hb10] at hlen ⊢
        have hlen2 : (toBytes (Nat.toDigits 10 (a / 10))).length =
            (toBytes (Nat.toDigits 10 (b / 10))).length := by
          rw [List.length_append, List.length_append, List.length_singleton,
            List.length_singleton] at hlen
          omega
        by_cases hq : a / 10 = b / 10
        · rw [hq, bytesLt_prefix]
          simp [bytesLt]
          omega
        · exact bytesLt_append hlen2 (ih (b / 10) (by omega) (a / 10) (by omega) hlen2) _ _

theorem queryLogKey_bytes (r : APIQueryRecord) (h : 0 ≤ r.Timestamp) :
    toBytes (queryLogKey r) =
      toBytes (Nat.toDigits 10 r.Timestamp.natAbs) ++ toBytes ("_".toList ++ r.ID) := by
  have hneg : ¬ r.Timestamp < 0 := by omega
  rw [queryLogKey, formatInt, if_neg hneg, List.append_assoc, toBytes_append]

theorem queryLogKey_lt (r1 r2 : APIQueryRecord)
    (h1 : 1000000000000000000 ≤ r1.Timestamp) (h12 : r1.Timestamp < r2.Timestamp)
    (h2 : r2.Timestamp < 10000000000000000000) :
    bytesLt (toBytes (queryLogKey r1)) (toBytes (queryLogKey r2)) = true := by
  rw [queryLogKey_bytes r1 (by omega), queryLogKey_bytes r2 (by omega)]
  have hl1 := decimal_length 18 r1.Timestamp.natAbs (by norm_num; omega) (by norm_num; omega)
  have hl2 := decimal_length 18 r2.Timestamp.natAbs (by norm_num; omega) (by norm_num; omega)
  exact bytesLt_append (hl1.trans hl2.symm)
    (decimal_lt r2.Timestamp.natAbs r1.Timestamp.natAbs (by omega) (hl1.trans hl2.symm)) _ _

theorem bucketInsert_mem {b : Bucket} {key value : Bytes} {e : Bytes × Bytes}
    (h : e ∈ bucketInsert b key value) : e = (key, value) ∨ e ∈ b := by
  induction b with
  | nil => simpa [bucketInsert] using h
  | cons x b ih =>
    unfold bucketInsert at h
    split_ifs at h with h1 h2
    · rcases List.mem_cons.mp h with h | h
      · exact Or.inl h
      · exact Or.inr (List.mem_cons_of_mem _ h)
    · rcases List.mem_cons.mp h with h | h
      · exact Or.inl h
      · exact Or.inr h
    · rcases List.mem_cons.mp h with h | h
      · exact Or.inr (by rw [h]; exact List.mem_cons_self _ _)
      · rcases ih h with h | h
        · exact Or.inl h
        · exact Or.inr (List.mem_cons_of_mem _ h)

theorem bucketInsert_sorted {b : Bucket} (key value : Bytes)
    (h : b.Pairwise (fun e1 e2 => bytesLt e1.1 e2.1 = true)) :
    (bucketInsert b key value).Pairwise (fun e1 e2 => bytesLt e1.1 e2.1 = true) := by
  induction b with
  | nil => simp [bucketInsert]
  | cons x b ih =>
    rw [List.pairwise_cons] at h
    unfold bucketInsert
    split_ifs with h1 h2
    · rw [List.pairwise_cons]
      refine ⟨fun e he => ?_, h.2⟩
      have := h.1 e he
      rw [h1] at this
      exact this
    · rw [List.pairwise_cons]
      refine ⟨fun e he => ?_, List.pairwise_cons.mpr h⟩
      rcases List.mem_cons.mp he with he | he
      · rw [he]; exact h2
      · exact bytesLt_trans _ _ _ h2 (h.1 e he)
    · rw [List.pairwise_cons]
      refine ⟨fun e he => ?_, ih h.2⟩
      rcases bucketInsert_mem he with he | he
      · rw [he]
        exact bytesLt_total key x.1 (by simpa using h2) (fun hk => h1 hk.symm)
      · exact h.1 e he

theorem SaveQueryRecord_cases (L : GoLib) (s : Store) (r : APIQueryRecord) :
    (∃ s2, s.SaveQueryRecord L r = (s2, none)) ∨ ∃ err, s.SaveQueryRecord L r = (s, some err) := by
  unfold Store.SaveQueryRecord
  cases hb : s.query_log with
  | none => exact Or.inr ⟨_, rfl⟩
  | some bucket =>
    cases hm : L.record.marshal r with
    | error err => exact Or.inr ⟨_, rfl⟩
    | ok data =>
      cases hp : bucketPut bucket (toBytes (queryLogKey r)) data with
      | error err => simp only [hp]; exact Or.inr ⟨_, rfl⟩
      | ok b2 => simp only [hp]; exact Or.inl ⟨_, rfl⟩

theorem LogInv_save (L : GoLib) (all : List APIQueryRecord) (s : Store) (r : APIQueryRecord)
    (hr : r ∈ all) {b : Bucket} (hb : s.query_log = some b) (hinv : LogInv L all b) :
    ∃ b2, (s.SaveQueryRecord L r).1.query_log = some b2 ∧ LogInv L all b2 := by
  rcases SaveQueryRecord_cases L s r with ⟨s2, h⟩ | ⟨err, h⟩
  · obtain ⟨b0, data, hb0, hm, rfl⟩ := SaveQueryRecord_ok h
    rw [hb] at hb0
    cases hb0
    rw [h]
    refine ⟨_, rfl, bucketInsert_sorted _ _ hinv.1, ?_⟩
    intro e he
    rcases bucketInsert_mem he with he | he
    · exact ⟨r, hr, by rw [he], by rw [he]; exact hm⟩
    · exact hinv.2 e he
  · rw [h]
    exact ⟨b, hb, hinv⟩

theorem LogInv_saveRecords (L : GoLib) (all : List APIQueryRecord) :
    ∀ (records : List APIQueryRecord) (s : Store) (b : Bucket), (∀ r ∈ records, r ∈ all) →
      s.query_log = some b → LogInv L all b →
      ∃ b2, (saveRecords L s records).query_log = some b2 ∧ LogInv L all b2 := by
  intro records
  induction records with
  | nil => intro s b _ hb hinv; exact ⟨b, hb, hinv⟩
  | cons r records ih =>
    intro s b hall hb hinv
    obtain ⟨b1, hb1, hinv1⟩ := LogInv_save L all s r (hall r (List.mem_cons_self _ _)) hb hinv
    exact ih _ b1 (fun q hq => hall q (List.mem_cons_of_mem _ hq)) hb1 hinv1

theorem forEachRecord_decoded (L : GoLib) : ∀ (b : Bucket) (acc : List APIQueryRecord),
    (∀ e ∈ b, (L.record.unmarshal e.2).2 = none) →
    forEachRecord L b acc = (acc ++ b.map (fun e => (L.record.unmarshal e.2).1), none)
  | [], acc, _ => by simp [forEachRecord]
  | e :: b, acc, h => by
    have he := h e (List.mem_cons_self _ _)
    cases hu : L.record.unmarshal e.2 with
    | mk q err =>
      rw [hu] at he
      simp only at he
      subst he
      rw [forEachRecord, hu]
      simp only
      rw [forEachRecord_decoded L b _ fun x hx => h x (List.mem_cons_of_mem _ hx)]
      simp [hu]

/-- C15, amended: for two records whose timestamps have 19 decimal digits as
nanoseconds since the epoch (from 2001-09-09T01:46:40Z on, which holds of
every reading of the clock that RunAPIRequest stamps a record with), the key
of the earlier record is smaller in byte order than the key of the later one,
whatever the IDs; and after any run of SaveQueryRecord with such records on an
empty query log, GetQueryLog returns no error and records in non-decreasing
order of their timestamps, each with the ID and the timestamp of a record of
the run. -/
theorem queryLogKey_chronological (L : GoLib) (r1 r2 : APIQueryRecord)
    (h1 : 1000000000000000000 ≤ r1.Timestamp) (h12 : r1.Timestamp < r2.Timestamp)
    (h2 : r2.Timestamp < 10000000000000000000) :
    bytesLt (toBytes (queryLogKey r1)) (toBytes (queryLogKey r2)) = true ∧
      ∀ (s : Store) (records : List APIQueryRecord), s.query_log = some [] →
        (∀ r ∈ records,
          1000000000000000000 ≤ r.Timestamp ∧ r.Timestamp < 10000000000000000000) →
        ((saveRecords L s records).GetQueryLog L).2 = none ∧
          ((saveRecords L s records).GetQueryLog L).1.Pairwise
            (fun a b => a.Timestamp ≤ b.Timestamp) ∧
          ∀ q ∈ ((saveRecords L s records).GetQueryLog L).1,
            ∃ r ∈ records, q.ID = r.ID ∧ q.Timestamp = r.Timestamp := by
  refine ⟨queryLogKey_lt r1 r2 h1 h12 h2, ?_⟩
  intro s records hs hrange
  obtain ⟨b, hb, hsorted, hentries⟩ :=
    LogInv_saveRecords L records records s [] (fun r hr => hr) hs
      ⟨List.Pairwise.nil, fun e he => absurd he (List.not_mem_nil e)⟩
  have hdec : ∀ e ∈ b, ∃ r ∈ records, e.1 = toBytes (queryLogKey r) ∧
      (L.record.unmarshal e.2).2 = none ∧ (L.record.unmarshal e.2).1.ID = r.ID ∧
      (L.record.unmarshal e.2).1.Timestamp = r.Timestamp := by
    intro e he
    obtain ⟨r, hr, hk, hm⟩ := hentries e he
    obtain ⟨q, hq, hid, -, -, -, -, hts, -, -⟩ := L.record.roundtrip r e.2 hm
    exact ⟨r, hr, hk, by rw [hq], by rw [hq]; exact hid, by rw [hq]; exact hts⟩
  have hget : (saveRecords L s records).GetQueryLog L =
      (b.map (fun e => (L.record.unmarshal e.2).1), none) := by
    rw [Store.GetQueryLog, hb]
    simp only
    rw [forEachRecord_decoded L b [] fun e he => by
      obtain ⟨r, -, -, h, -⟩ := hdec e he
      exact h]
    rfl
  rw [hget]
  refine ⟨rfl, ?_, ?_⟩
  · rw [List.pairwise_map]
    refine List.Pairwise.imp_of_mem ?_ hsorted
    intro e1 e2 he1 he2 hlt
    obtain ⟨q1, hq1, hk1, -, -, ht1⟩ := hdec e1 he1
    obtain ⟨q2, hq2, hk2, -, -, ht2⟩ := hdec e2 he2
    rw [ht1, ht2]
    by_contra hcon
    have hrev := queryLogKey_lt q2 q1 (hrange q2 hq2).1 (by omega) (hrange q1 hq1).2
    rw [← hk1, ← hk2] at hrev
    have := bytesLt_trans _ _ _ hlt hrev
    rw [bytesLt_irrefl] at this
    cases this
  · intro q hq
    rw [List.mem_map] at hq
    obtain ⟨e, he, rfl⟩ := hq
    obtain ⟨r, hr, -, -, hid, hts⟩ := hdec e he
    exact ⟨r, hr, hid, hts⟩

/-- C15, amended, at the record "a" of the time 1700000000000000001 saved
before the record "b" of the time 1700000000000000000: the key of "b" is the
smaller one, and GetQueryLog returns "b" first. -/
theorem queryLogKey_chronological_witness :
    (1000000000000000000 : Int) ≤ 1700000000000000000 ∧
      bytesLt (toBytes "1700000000000000000_b".toList)
        (toBytes "1700000000000000001_a".toList) = true ∧
      (saveRecords GoLib.logging (NewStore default)
          [APIQueryRecord.sample "a".toList 1700000000000000001,
            APIQueryRecord.sample "b".toList 1700000000000000000]).GetQueryLog GoLib.logging =
        ([APIQueryRecord.sample "b".toList 1700000000000000000,
          APIQueryRecord.sample "a".toList 1700000000000000001], none) ∧
      bytesLt (toBytes (queryLogKey (APIQueryRecord.sample "b".toList 1700000000000000000)))
        (toBytes (queryLogKey (APIQueryRecord.sample "a".toList 1700000000000000001))) = true :=
  ⟨by decide, by decide, by decide,
    (queryLogKey_chronological GoLib.logging
      (APIQueryRecord.sample "b".toList 1700000000000000000)
      (APIQueryRecord.sample "a".toList 1700000000000000001)
      (by decide) (by decide) (by decide)).1⟩

end AristaEngine
